import Mathlib

/-!
# IScript: a shallow embedding of the evaluation core

The development follows the C++ sources of the interpreter:

* `lib/token.h`        : `TokenType`
* `lib/AST.h`          : the node classes (`ExprAST`, `PrototypeAST`, `FunctionAST`) and their `eval`
* `lib/value.h/.cpp`   : `Value`, `FunctionValue`, the operators, `FunctionValue::invoke`
* `lib/environment.h`  : `Environment` with `set` and `get`
* `lib/interpreter.cpp`: `interpret`

Modelling conventions.

* Every `std::shared_ptr<Environment>` is an index into `State.frames`; every
  `Value::ListPtr` is an index into `State.lists`.  A copy of a pointer is a copy of the index, a
  `std::make_shared` appends a new cell.  Cells are never freed.
* A `double` is modelled by the rational it stands for.  `roundDouble` is the rounding of
  IEEE 754 binary64 (to nearest, ties to even); number literals, the operator `*`, `++`/`--`
  and the repetition count of `*` round with it, as the source does.  The operators `+`, `-`,
  `/` and `%` are exact in the model: they agree with the source whenever the exact result is a
  `double`, as it is for integers below `2^53`.  Infinities and NaN have no value in the model
  (`Outcome.outsideModel`); `std::pow` is a parameter of the host.
* C++ exceptions are explicit outcomes: `std::exception` (all of `std::runtime_error`,
  `std::bad_variant_access`, `std::out_of_range`) is `Outcome.error`, the three control
  exceptions are `breakSignal`, `continueSignal`, `returnSignal`.
* Recursion of the evaluator is bounded by a fuel argument; `none` means that the fuel ran out
  (or that a pointer of an ill-formed state dangles), it is not a result of the program.
* The builtin catalogue is a parameter (`Host.builtinFn`): a builtin receives the evaluated
  arguments, may read the call stack, and may change list cells and the output text.
-/

namespace IScript

/-! ## Tokens and the node tree -/

/-- The token tags of `token.h`. -/
inductive TokenType where
  | EndOfFile | Identifier | Number | Boolean | String | Colon
  | Plus | Minus | Star | Slash | Percent | Caret
  | Assign | Bang | Less | Greater
  | PlusPlus | MinusMinus
  | PlusAssign | MinusAssign | StarAssign | SlashAssign | PercentAssign | CaretAssign
  | Equal | NotEqual | LessEqual | GreaterEqual
  | LParen | RParen | LBracket | RBracket | Comma | Semicolon | At | In
  | If | Then | Else | End | While | For | Break | Continue
  | Function | Return | And | Not | Or | Nil
  deriving DecidableEq, Repr

/-- The class `PrototypeAST`: a function name and its ordered parameter names. -/
structure PrototypeAST where
  Name : String
  Args : List String
  deriving DecidableEq, Repr

mutual
/-- The node classes derived from `ExprAST` in `AST.h`, one constructor per class. -/
inductive ExprAST where
  | NumberExpr (Val : ℚ)
  | VariableExpr (Name : String)
  | BinaryExpr (Op : TokenType) (LHS RHS : ExprAST)
  | UnaryExpr (Op : Char) (Operand : ExprAST)
  | CallExpr (CalleeExpr : ExprAST) (Args : List ExprAST)
  | AssignmentExpr (VarName : String) (Expr : ExprAST)
  | StringExpr (Val : String)
  | BooleanExpr (Val : Bool)
  | ListExpr (Elements : List ExprAST)
  | FunctionLiteralExpr (FnAST : FunctionAST)
  | PrefixExpr (IsIncrement : Bool) (Operand : ExprAST)
  | PostfixExpr (IsIncrement : Bool) (Operand : ExprAST)
  | CompoundAssignmentExpr (Op : TokenType) (VarName : String) (RHS : ExprAST)
  | IndexExpr (Base Index : ExprAST)
  | SliceExpr (Base : ExprAST) (Start End : Option ExprAST)
  | NilExpr
  | IfExpr (Cond Then : ExprAST) (Else : Option ExprAST)
  | WhileExpr (Cond Body : ExprAST)
  | ForExpr (VarName : String) (SeqExpr Body : ExprAST)
  | BreakExpr
  | ContinueExpr
  | InExpr (L R : ExprAST)
  | BlockExpr (Stmts : List ExprAST)
  | ReturnExpr (Expr : ExprAST)
/-- The class `FunctionAST`: a prototype and a body. -/
inductive FunctionAST where
  | mk (Proto : PrototypeAST) (Body : ExprAST)
end

/-- Accessor `FunctionAST::getProto`. -/
def FunctionAST.getProto : FunctionAST → PrototypeAST
  | .mk p _ => p

/-- Accessor `FunctionAST::getBody`. -/
def FunctionAST.getBody : FunctionAST → ExprAST
  | .mk _ b => b

/-! ## Values -/

/-- The struct `FunctionValue`: a builtin callable (named by its catalogue entry, its `closure`
is the null pointer) or a user function `{fnAST, closure}`. -/
inductive FunctionValue where
  | builtin (name : String)
  | user (fnAST : FunctionAST) (closure : Nat)

/-- The class `Value`: the variant over `monostate, double, bool, string, ListPtr,
FunctionValue`. -/
inductive Value where
  | nil
  | number (d : ℚ)
  | bool (b : Bool)
  | string (s : String)
  | list (ptr : Nat)
  | func (f : FunctionValue)

/-- The class `Environment`: one frame, the map `vars_` and the pointer `parent`. -/
structure Environment where
  vars_ : List (String × Value)
  parent : Option Nat

/-- The mutable world of a run: all frames, all list cells, `g_callStack`, and the text written
to the output stream. -/
structure State where
  frames : List Environment
  lists : List (List Value)
  callStack : List String
  output : String

/-- What an evaluation step ends with: a value, a thrown `std::exception`, one of the three
control exceptions, undefined behaviour of the C++ program, or a `double` that the model of
numbers has no value for (NaN, an infinity). -/
inductive Outcome where
  | value (v : Value)
  | error (what : String)
  | breakSignal
  | continueSignal
  | returnSignal (v : Value)
  | undefinedBehaviour (what : String)
  | outsideModel (what : String)

/-- The result of a fuel-bounded evaluation: `none` when the fuel ran out. -/
abbrev Res := Option (Outcome × State)

/-- What a builtin callable hands back: its outcome, the list cells and the output text. -/
abbrev BuiltinFn := List Value → List String → List (List Value) → String →
  Outcome × List (List Value) × String

/-- The parts of the host the core consumes without defining them: the builtin catalogue
(`registerBuiltins`) and `std::pow`. -/
structure Host where
  builtinFn : String → BuiltinFn
  builtinNames : List String
  pow : ℚ → ℚ → ℚ

/-! ## `Value` helpers (`value.h`) -/

def Value.isNil : Value → Bool
  | .nil => true
  | _ => false

def Value.isNumber : Value → Bool
  | .number _ => true
  | _ => false

def Value.isBool : Value → Bool
  | .bool _ => true
  | _ => false

def Value.isString : Value → Bool
  | .string _ => true
  | _ => false

def Value.isList : Value → Bool
  | .list _ => true
  | _ => false

/-- The cell a `ListPtr` points to (`*std::get<ListPtr>(v)`). -/
def derefList (lists : List (List Value)) (p : Nat) : List Value :=
  (lists[p]?).getD []

/-- The method `Value::asBool`: the truthiness of a value. -/
def Value.asBool (lists : List (List Value)) : Value → Bool
  | .bool b => b
  | .number d => d != 0
  | .string s => !(s.data.isEmpty)
  | .list p => !((derefList lists p).isEmpty)
  | _ => false

/-- The method `Value::typeName`. -/
def Value.typeName : Value → String
  | .nil => "null"
  | .number _ => "number"
  | .bool _ => "bool"
  | .string _ => "string"
  | .list _ => "list"
  | .func _ => "function"

/-- The static method `Value::asNumeric`. -/
def Value.asNumeric : Value → Except String ℚ
  | .number d => .ok d
  | .bool b => .ok (if b then 1 else 0)
  | v => .error ("Expected a number or bool but got '" ++ v.typeName ++ "'")

/-- Truncation toward zero (`std::trunc`), the value of a conversion from `double` to an
integer type where that conversion is defined. -/
def truncInt (d : ℚ) : Int :=
  if 0 ≤ d then Rat.floor d else -Rat.floor (-d)

/-- The conversion `static_cast<int>(double)` to a 32-bit `int`: truncation toward zero when
the truncated value is in the range of `int`, and undefined (`none`) otherwise. -/
def staticCastInt (d : ℚ) : Option Int :=
  if -2147483649 < d ∧ d < 2147483648 then some (truncInt d) else none

/-! ## Rounding to `double` -/

/-- The number of halvings that bring `n` below `2`, at most `fuel` of them. -/
def log2Fuel : Nat → Nat → Nat
  | 0, _ => 0
  | fuel + 1, n => if n < 2 then 0 else log2Fuel fuel (n / 2) + 1

/-- The position of the leading binary digit of `n`. -/
def natLog2 (n : Nat) : Nat := log2Fuel n n

/-- The power `2^e` of an integer exponent. -/
def pow2 (e : Int) : ℚ :=
  if 0 ≤ e then ((2 ^ e.toNat : Nat) : ℚ) else 1 / ((2 ^ (-e).toNat : Nat) : ℚ)

/-- The binary exponent of a nonzero `x`: the `e` with `2^e ≤ |x| < 2^(e+1)`. -/
def binaryExponent (x : ℚ) : Int :=
  let e0 : Int := (natLog2 x.num.natAbs : Int) - (natLog2 x.den : Int)
  if pow2 e0 ≤ |x| then e0 else e0 - 1

/-- Rounding to the nearest integer, a tie going to the even one. -/
def roundHalfEven (m : ℚ) : Int :=
  if m - Rat.floor m < 1 / 2 then Rat.floor m
  else if 1 / 2 < m - Rat.floor m then Rat.floor m + 1
  else if Rat.floor m % 2 = 0 then Rat.floor m else Rat.floor m + 1

/-- The `double` nearest to `x` (IEEE 754 binary64: 53 significant bits, least exponent
`-1022`, round to nearest, ties to even), with the exponent unbounded above: a result of
magnitude `2^1024` or more stands for an infinity. -/
def roundDouble (x : ℚ) : ℚ :=
  if x = 0 then 0
  else roundHalfEven (x / pow2 (max (binaryExponent x) (-1022) - 52)) *
    pow2 (max (binaryExponent x) (-1022) - 52)

/-- The power `2^1024`, the least magnitude that is no finite `double`. -/
def doubleOverflow : ℚ :=
  179769313486231590772930519078902473361797697894230657273430081157732675805500963132708477322407536021120113879871393357658789768814416622492847430639474124377767893424865485276302219601246094119453082952085005768838150682342462881473913110540827237163350510684586298239947245938479716304835356329624224137216

/-- The `double` result of an arithmetic operation whose exact result is `x`: the rounded
number, or an infinity, for which the model has no value. -/
def doubleResult (x : ℚ) : Outcome :=
  if |roundDouble x| < doubleOverflow then .value (.number (roundDouble x))
  else .outsideModel "inf"

/-! ## `Environment` (`environment.h`)

Frames live in a list; a `shared_ptr<Environment>` is an index.  The recursion of `get` and `set`
along the `parent` pointers is bounded by a fuel; the entry points pass `i + 1` for frame `i`,
enough whenever every parent index is smaller than the index of its child. -/

/-- The lookup `vars_.find(name)`. -/
def mapFind : List (String × Value) → String → Option Value
  | [], _ => none
  | (k, w) :: rest, name => if k = name then some w else mapFind rest name

/-- The update `vars_[name] = v`: overwrite the entry of `name`, or insert one. -/
def mapAssign : List (String × Value) → String → Value → List (String × Value)
  | [], name, v => [(name, v)]
  | (k, w) :: rest, name, v =>
    if k = name then (k, v) :: rest else (k, w) :: mapAssign rest name v

/-- The method `Environment::get`, on frame `i`: `none` when a pointer dangles or the fuel
ran out, `some (.error _)` for the thrown `std::runtime_error`. -/
def Environment.getAux (frames : List Environment) :
    Nat → Nat → String → Option (Except String Value)
  | 0, _, _ => none
  | fuel + 1, i, name =>
    match frames[i]? with
    | none => none
    | some fr =>
      match mapFind fr.vars_ name with
      | some v => some (.ok v)
      | none =>
        match fr.parent with
        | some p => Environment.getAux frames fuel p name
        | none => some (.error ("Undefined variable '" ++ name ++ "'"))

/-- The method `Environment::set`, on frame `i`; the result is the new list of frames. -/
def Environment.setAux (frames : List Environment) :
    Nat → Nat → String → Value → Option (List Environment)
  | 0, _, _, _ => none
  | fuel + 1, i, name, v =>
    match frames[i]? with
    | none => none
    | some fr =>
      match mapFind fr.vars_ name with
      | some _ => some (frames.set i { fr with vars_ := mapAssign fr.vars_ name v })
      | none =>
        match fr.parent with
        | some p =>
          match Environment.getAux frames fuel p name with
          | none => none
          | some (.ok _) => Environment.setAux frames fuel p name v
          | some (.error _) => some (frames.set i { fr with vars_ := mapAssign fr.vars_ name v })
        | none => some (frames.set i { fr with vars_ := mapAssign fr.vars_ name v })

/-- The call `env.get(name)` where `env` is frame `i`. -/
def Environment.get (frames : List Environment) (i : Nat) (name : String) :
    Option (Except String Value) :=
  Environment.getAux frames (i + 1) i name

/-- The call `env.set(name, v)` where `env` is frame `i`. -/
def Environment.set (frames : List Environment) (i : Nat) (name : String) (v : Value) :
    Option (List Environment) :=
  Environment.setAux frames (i + 1) i name v

/-- The copy constructor of `Environment` behind `std::make_shared<Environment>(env)`: a new
frame with a copy of the map of frame `i` and the same `parent` pointer. -/
def Environment.copy (frames : List Environment) (i : Nat) : Option (List Environment × Nat) :=
  match frames[i]? with
  | none => none
  | some fr => some (frames ++ [{ vars_ := fr.vars_, parent := fr.parent }], frames.length)

/-- The constructor `Environment(parentEnv)` behind `std::make_shared<Environment>(closure)`:
a new empty frame whose parent is `p`. -/
def Environment.child (frames : List Environment) (p : Nat) : List Environment × Nat :=
  (frames ++ [{ vars_ := [], parent := some p }], frames.length)

/-- The chain of frames seen from frame `i`: `i`, its parent, and so on. -/
def Environment.chain (frames : List Environment) : Nat → Nat → List Nat
  | 0, _ => []
  | fuel + 1, i =>
    match frames[i]? with
    | none => []
    | some fr =>
      match fr.parent with
      | some p => i :: Environment.chain frames fuel p
      | none => [i]

/-- A list of frames is well formed when every parent pointer points to an older frame, as
holds of frames built by the two constructors. -/
def WellFormed (frames : List Environment) : Prop :=
  ∀ (i : Nat) (fr : Environment), frames[i]? = some fr → ∀ p, fr.parent = some p → p < i

/-- Whether frame `j` binds `name`. -/
def binds (frames : List Environment) (j : Nat) (name : String) : Bool :=
  match frames[j]? with
  | none => false
  | some fr => (mapFind fr.vars_ name).isSome

/-- The value frame `j` binds `name` to. -/
def boundValue (frames : List Environment) (j : Nat) (name : String) : Option Value :=
  match frames[j]? with
  | none => none
  | some fr => mapFind fr.vars_ name

/-! ## The operators of `value.cpp`

Operators that build a list (`+`, `*`, `slice`) allocate a new cell and hand back the new list
of cells.  `==` and `<` recurse through list cells, which can contain themselves after a `push`;
they take a fuel and answer `none` when it runs out. -/

/-- The constructor `Value(RawList xs)`: `std::make_shared<RawList>` of a new cell. -/
def allocList (lists : List (List Value)) (xs : List Value) : Value × List (List Value) :=
  (.list lists.length, lists ++ [xs])

/-- Both operands through `Value::asNumeric`, the left one first, then `f`. -/
def numericBin (f : ℚ → ℚ → Outcome) (a b : Value) : Outcome :=
  match a.asNumeric with
  | .error e => .error e
  | .ok da =>
    match b.asNumeric with
    | .error e => .error e
    | .ok db => f da db

/-- The operator `operator+`. -/
def opAdd (lists : List (List Value)) (a b : Value) : Outcome × List (List Value) :=
  match a, b with
  | .string s, .string t => (.value (.string (s ++ t)), lists)
  | .list p, .list q =>
    let r := allocList lists (derefList lists p ++ derefList lists q)
    (.value r.1, r.2)
  | .bool x, .bool y => (.value (.bool (x || y)), lists)
  | _, _ => (numericBin (fun da db => .value (.number (da + db))) a b, lists)

/-- The operator `operator-`. -/
def opSub (a b : Value) : Outcome :=
  match a, b with
  | .string s, .string suf =>
    if suf.length ≤ s.length ∧ s.data.drop (s.length - suf.length) = suf.data then
      .value (.string ⟨s.data.take (s.length - suf.length)⟩)
    else .value (.string s)
  | _, _ => numericBin (fun da db => .value (.number (da - db))) a b

/-- The loop `for (i = 0; i < full; ++i) res += s`. -/
def repeatAppend {α : Type} (xs : List α) : Nat → List α
  | 0 => []
  | n + 1 => repeatAppend xs n ++ xs

/-- The string branch of `operator*`: `int full = static_cast<int>(times)`, the loop of
copies, `double frac = times - full`, `int cut = static_cast<int>(frac * s.size())` and
`res += s.substr(0, cut)`.  The subtraction and the product are operations on `double` (a
size is below `2^53` and converts exactly); a conversion to `int` out of range is undefined.
A negative `cut` converts to a huge `size_t`, so `substr(0, cut)` is then the whole string. -/
def mulString (s : String) (times : ℚ) : Outcome :=
  match staticCastInt times with
  | none => .undefinedBehaviour "conversion of a double out of the range of int"
  | some full =>
    match staticCastInt (roundDouble (roundDouble (times - full) * s.length)) with
    | none => .undefinedBehaviour "conversion of a double out of the range of int"
    | some cut =>
      .value (.string ⟨repeatAppend s.data full.toNat ++
        (if cut < 0 then s.data else s.data.take cut.toNat)⟩)

/-- The list branch of `operator*`, with the same `full` and `cut` as the string branch.  A
negative `cut` makes the range `[lst.begin(), lst.begin() + cut)` invalid: undefined
behaviour. -/
def mulList (lists : List (List Value)) (p : Nat) (times : ℚ) : Outcome × List (List Value) :=
  let lst := derefList lists p
  match staticCastInt times with
  | none => (.undefinedBehaviour "conversion of a double out of the range of int", lists)
  | some full =>
    match staticCastInt (roundDouble (roundDouble (times - full) * lst.length)) with
    | none => (.undefinedBehaviour "conversion of a double out of the range of int", lists)
    | some cut =>
      if cut < 0 then (.undefinedBehaviour "list repetition: iterator before begin", lists)
      else
        let r := allocList lists (repeatAppend lst full.toNat ++ lst.take cut.toNat)
        (.value r.1, r.2)

/-- The numeric value of a `bool` operand. -/
def boolNum (c : Bool) : ℚ := if c then 1 else 0

/-- The operator `operator*`; the product of two numbers is the product of two `double`s. -/
def opMul (lists : List (List Value)) (a b : Value) : Outcome × List (List Value) :=
  match a, b with
  | .string s, .number d => (mulString s d, lists)
  | .string s, .bool c => (mulString s (boolNum c), lists)
  | .number d, .string s => (mulString s d, lists)
  | .bool c, .string s => (mulString s (boolNum c), lists)
  | .list p, .number d => mulList lists p d
  | .list p, .bool c => mulList lists p (boolNum c)
  | .number d, .list p => mulList lists p d
  | .bool c, .list p => mulList lists p (boolNum c)
  | _, _ => (numericBin (fun da db => doubleResult (da * db)) a b, lists)

/-- The operator `operator/`. -/
def opDiv (a b : Value) : Outcome :=
  numericBin (fun da db => if db = 0 then .error "Division by zero" else .value (.number (da / db)))
    a b

/-- The function `std::fmod` on the exact model, for a nonzero divisor. -/
def fmod (a b : ℚ) : ℚ := a - b * truncInt (a / b)

/-- The operator `operator%`. -/
def opMod (a b : Value) : Outcome :=
  numericBin
    (fun da db => if db = 0 then .error "Division by zero" else .value (.number (fmod da db))) a b

/-- The operator `operator^`. -/
def opPow (H : Host) (a b : Value) : Outcome :=
  numericBin (fun da db => .value (.number (H.pow da db))) a b

/-- The algorithm `std::equal` over two ranges of the same length. -/
def allEq (eq : Value → Value → Option Bool) : List Value → List Value → Option Bool
  | x :: xs, y :: ys =>
    match eq x y with
    | none => none
    | some true => allEq eq xs ys
    | some false => some false
  | _, _ => some true

/-- The operator `operator==`. -/
def valueEq (lists : List (List Value)) : Nat → Value → Value → Option Bool
  | 0, _, _ => none
  | fuel + 1, a, b =>
    if a.isNil || b.isNil then some (a.isNil && b.isNil)
    else
      match a, b with
      | .string s, .string t => some (decide (s = t))
      | .list p, .list q =>
        if (derefList lists p).length = (derefList lists q).length then
          allEq (valueEq lists fuel) (derefList lists p) (derefList lists q)
        else some false
      | .number x, .number y => some (decide (x = y))
      | .number x, .bool c => some (decide (x = boolNum c))
      | .bool c, .number y => some (decide (boolNum c = y))
      | .bool c, .bool e => some (decide (boolNum c = boolNum e))
      | _, _ => some false

/-- The operator `operator!=`. -/
def valueNe (lists : List (List Value)) (fuel : Nat) (a b : Value) : Option Bool :=
  (valueEq lists fuel a b).map (fun r => !r)

/-- The algorithm `std::lexicographical_compare` with the element order `lt`. -/
def lexLess (lt : Value → Value → Option (Except String Bool)) :
    List Value → List Value → Option (Except String Bool)
  | _, [] => some (.ok false)
  | [], _ :: _ => some (.ok true)
  | x :: xs, y :: ys =>
    match lt x y with
    | none => none
    | some (.error e) => some (.error e)
    | some (.ok true) => some (.ok true)
    | some (.ok false) =>
      match lt y x with
      | none => none
      | some (.error e) => some (.error e)
      | some (.ok true) => some (.ok false)
      | some (.ok false) => lexLess lt xs ys

/-- The operator `operator<`. -/
def valueLt (lists : List (List Value)) : Nat → Value → Value → Option (Except String Bool)
  | 0, _, _ => none
  | fuel + 1, a, b =>
    if a.isNil || b.isNil then some (.ok false)
    else
      match a, b with
      | .string s, .string t => some (.ok (decide (s < t)))
      | .list p, .list q => lexLess (valueLt lists fuel) (derefList lists p) (derefList lists q)
      | .number x, .number y => some (.ok (decide (x < y)))
      | .number x, .bool c => some (.ok (decide (x < boolNum c)))
      | .bool c, .number y => some (.ok (decide (boolNum c < y)))
      | .bool c, .bool e => some (.ok (decide (boolNum c < boolNum e)))
      | _, _ => some (.error ("Can't compare '" ++ a.typeName ++ "' Ð¸ '" ++ b.typeName ++ "'"))

/-- The operator `operator<=`: `(a < b) || (a == b)`. -/
def valueLe (lists : List (List Value)) (fuel : Nat) (a b : Value) :
    Option (Except String Bool) :=
  match valueLt lists fuel a b with
  | none => none
  | some (.error e) => some (.error e)
  | some (.ok true) => some (.ok true)
  | some (.ok false) => (valueEq lists fuel a b).map (fun r => .ok r)

/-- The operator `operator>`: `!(a <= b)`. -/
def valueGt (lists : List (List Value)) (fuel : Nat) (a b : Value) :
    Option (Except String Bool) :=
  (valueLe lists fuel a b).map (fun r => r.map (fun c => !c))

/-- The operator `operator>=`: `!(a < b)`. -/
def valueGe (lists : List (List Value)) (fuel : Nat) (a b : Value) :
    Option (Except String Bool) :=
  (valueLt lists fuel a b).map (fun r => r.map (fun c => !c))

/-- The operator `operator&&`. -/
def opAnd (a b : Value) : Outcome :=
  match a, b with
  | .bool x, .bool y => .value (.bool (x && y))
  | _, _ => .error "&& only applies to bool"

/-- The operator `operator||`. -/
def opOr (a b : Value) : Outcome :=
  match a, b with
  | .bool x, .bool y => .value (.bool (x || y))
  | _, _ => .error "|| only applies to bool"

/-- The operator `operator!`. -/
def opNot (a : Value) : Outcome :=
  match a with
  | .bool x => .value (.bool (!x))
  | _ => .error "! only applies to bool"

/-- The static method `Value::normalizeIndex`. -/
def normalizeIndex (idx n : Int) : Except String Int :=
  let idx1 := if idx < 0 then idx + n else idx
  if idx1 < 0 ∨ idx1 ≥ n then
    .error ("Index " ++ toString idx1 ++ " out of range [0," ++ toString n ++ ")")
  else .ok idx1

/-- The method `Value::atIndex`. -/
def Value.atIndex (lists : List (List Value)) (v : Value) (idx : Int) : Outcome :=
  match v with
  | .string s =>
    match normalizeIndex idx s.length with
    | .error e => .error e
    | .ok i => .value (.string ⟨(s.data.drop i.toNat).take 1⟩)
  | .list p =>
    match normalizeIndex idx (derefList lists p).length with
    | .error e => .error e
    | .ok i =>
      match (derefList lists p)[i.toNat]? with
      | some x => .value x
      | none => .undefinedBehaviour "index past the end"
  | _ => .error ("Type '" ++ v.typeName ++ "' is not subscriptable")

/-- The function `std::clamp(x, 0, n)`. -/
def clamp (x lo hi : Int) : Int :=
  if x < lo then lo else if hi < x then hi else x

/-- The bounds `[b, e)` that `Value::slice` computes for a sequence of length `n`. -/
def sliceBounds (n : Int) (obegin oend : Option Int) : Int × Int :=
  let b0 := obegin.getD 0
  let e0 := oend.getD n
  let b1 := if b0 < 0 then b0 + n else b0
  let e1 := if e0 < 0 then e0 + n else e0
  let b := clamp b1 0 n
  let e := clamp e1 0 n
  (b, if e < b then b else e)

/-- The method `Value::slice`. -/
def Value.slice (lists : List (List Value)) (v : Value) (obegin oend : Option Int) :
    Outcome × List (List Value) :=
  match v with
  | .string s =>
    let be := sliceBounds s.length obegin oend
    (.value (.string ⟨(s.data.drop be.1.toNat).take (be.2 - be.1).toNat⟩), lists)
  | .list p =>
    let lst := derefList lists p
    let be := sliceBounds lst.length obegin oend
    let r := allocList lists ((lst.drop be.1.toNat).take (be.2 - be.1).toNat)
    (.value r.1, r.2)
  | _ => (.error ("Type '" ++ v.typeName ++ "' is not sliceable"), lists)

/-! ## The evaluator (`AST.h`) and `FunctionValue::invoke` (`value.cpp`) -/

/-- Go on with the value of a step; every other outcome is passed on (the exception
propagates). -/
def Res.andThen (r : Res) (k : Value → State → Res) : Res :=
  match r with
  | some (.value v, st) => k v st
  | other => other

/-- A `bool` result of a comparison operator as an outcome. -/
def boolOutcome : Except String Bool → Outcome
  | .ok c => .value (.bool c)
  | .error e => .error e

/-- The function `TokenTypeToString` of `parser.cpp`, on the tags it names. -/
def TokenTypeToString : TokenType → String
  | .EndOfFile => "EndOfFile" | .Identifier => "Identifier" | .Number => "Number"
  | .Boolean => "Boolean" | .String => "String" | .Plus => "Plus" | .Minus => "Minus"
  | .Star => "Star" | .Slash => "Slash" | .Percent => "Percent" | .Caret => "Caret"
  | .Assign => "Assign" | .Bang => "Bang" | .Less => "Less" | .Greater => "Greater"
  | .PlusPlus => "PlusPlus" | .MinusMinus => "MinusMinus" | .PlusAssign => "PlusAssign"
  | .MinusAssign => "MinusAssign" | .StarAssign => "StarAssign" | .SlashAssign => "SlashAssign"
  | .PercentAssign => "PercentAssign" | .CaretAssign => "CaretAssign" | .Equal => "Equal"
  | .NotEqual => "NotEqual" | .LessEqual => "LessEqual" | .GreaterEqual => "GreaterEqual"
  | .LParen => "LParen" | .RParen => "RParen" | .LBracket => "LBracket"
  | .RBracket => "RBracket" | .Comma => "Comma" | .Semicolon => "Semicolon" | .At => "At"
  | .If => "If" | .Then => "Then" | .Else => "Else" | .End => "End" | .While => "While"
  | .For => "For" | .Break => "Break" | .Continue => "Continue" | .In => "In"
  | .Function => "Function" | .Return => "Return"
  | _ => "Unknown"

/-- The `switch (Op)` of `BinaryExprAST::eval` on the two evaluated operands. -/
def binaryOp (H : Host) (fuel : Nat) (op : TokenType) (lists : List (List Value))
    (L R : Value) : Option (Outcome × List (List Value)) :=
  match op with
  | .Plus => some (opAdd lists L R)
  | .Minus => some (opSub L R, lists)
  | .Star => some (opMul lists L R)
  | .Slash => some (opDiv L R, lists)
  | .Percent => some (opMod L R, lists)
  | .Caret => some (opPow H L R, lists)
  | .Less => (valueLt lists fuel L R).map (fun r => (boolOutcome r, lists))
  | .LessEqual => (valueLe lists fuel L R).map (fun r => (boolOutcome r, lists))
  | .Greater => (valueGt lists fuel L R).map (fun r => (boolOutcome r, lists))
  | .GreaterEqual => (valueGe lists fuel L R).map (fun r => (boolOutcome r, lists))
  | .Equal => (valueEq lists fuel L R).map (fun r => (.value (.bool r), lists))
  | .NotEqual => (valueNe lists fuel L R).map (fun r => (.value (.bool r), lists))
  | .And => some (opAnd L R, lists)
  | .Or => some (opOr L R, lists)
  | _ => some (.error ("Unknown binary operator " ++ TokenTypeToString op), lists)

/-- The `switch (Op)` of `CompoundAssignmentExprAST::eval`.  `%=` calls `std::fmod` without a
zero test; with a zero divisor the result is NaN. -/
def compoundOp (H : Host) (op : TokenType) (lists : List (List Value)) (old right : Value) :
    Outcome × List (List Value) :=
  match op with
  | .PlusAssign => opAdd lists old right
  | .MinusAssign => (opSub old right, lists)
  | .StarAssign => opMul lists old right
  | .SlashAssign => (opDiv old right, lists)
  | .PercentAssign =>
    (numericBin (fun a b => if b = 0 then .outsideModel "NaN" else .value (.number (fmod a b)))
      old right, lists)
  | .CaretAssign => (opPow H old right, lists)
  | _ => (.error "Unknown compound assignment operator", lists)

/-- The argument loop `for (auto& arg : Args) argVals.push_back(arg->eval(env))`, also the
element loop of a list literal: left to right, stopping at the first exception. -/
def evalList (ev : ExprAST → Nat → State → Res) (env : Nat) :
    List ExprAST → State → Option (Except Outcome (List Value) × State)
  | [], st => some (.ok [], st)
  | e :: es, st =>
    match ev e env st with
    | none => none
    | some (.value v, st1) =>
      match evalList ev env es st1 with
      | none => none
      | some (.ok vs, st2) => some (.ok (v :: vs), st2)
      | some (.error o, st2) => some (.error o, st2)
    | some (o, st1) => some (.error o, st1)

/-- The loop of `BlockExprAST::eval`: `last = s->eval(env)` for each statement. -/
def evalBlock (ev : ExprAST → Nat → State → Res) (env : Nat) :
    List ExprAST → Value → State → Res
  | [], last, st => some (.value last, st)
  | s :: rest, _, st => (ev s env st).andThen (fun v st1 => evalBlock ev env rest v st1)

/-- The loop of `WhileExprAST::eval`; `n` bounds the number of iterations. -/
def whileLoop (ev : ExprAST → Nat → State → Res) (Cond Body : ExprAST) (env : Nat) :
    Nat → Value → State → Res
  | 0, _, _ => none
  | n + 1, result, st =>
    (ev Cond env st).andThen (fun c st1 =>
      if c.asBool st1.lists then
        match ev Body env st1 with
        | none => none
        | some (.value v, st2) => whileLoop ev Cond Body env n v st2
        | some (.continueSignal, st2) => whileLoop ev Cond Body env n result st2
        | some (.breakSignal, st2) => some (.value result, st2)
        | some other => some other
      else some (.value result, st1))

/-- The loop of `ForExprAST::eval` over the copied vector `list`. -/
def forLoop (ev : ExprAST → Nat → State → Res) (VarName : String) (Body : ExprAST) (env : Nat) :
    List Value → Value → State → Res
  | [], result, st => some (.value result, st)
  | el :: rest, result, st =>
    match Environment.set st.frames env VarName el with
    | none => none
    | some fs =>
      match ev Body env { st with frames := fs } with
      | none => none
      | some (.value v, st2) => forLoop ev VarName Body env rest v st2
      | some (.continueSignal, st2) => forLoop ev VarName Body env rest result st2
      | some (.breakSignal, st2) => some (.value result, st2)
      | some other => some other

/-- The parameter loop of `FunctionValue::invoke`:
`activationEnv->set(names[i], args[i])` for each index. -/
def bindParams (env : Nat) : List String → List Value → List Environment →
    Option (List Environment)
  | n :: names, a :: args, frames =>
    match Environment.set frames env n a with
    | none => none
    | some fs => bindParams env names args fs
  | _, _, frames => some frames

/-- The statement `g_callStack.pop_back()`. -/
def popCallStack (st : State) : State :=
  { st with callStack := st.callStack.dropLast }

/-- The method `FunctionValue::invoke`; `ev` evaluates the body. -/
def FunctionValue.invoke (H : Host) (ev : ExprAST → Nat → State → Res) (f : FunctionValue)
    (args : List Value) (st : State) : Res :=
  match f with
  | .builtin name =>
    match H.builtinFn name args st.callStack st.lists st.output with
    | (o, ls, out) => some (o, { st with lists := ls, output := out })
  | .user fnAST closure =>
    let proto := fnAST.getProto
    let names := proto.Args
    if args.length ≠ names.length then
      some (.error ("Function '" ++ proto.Name ++ "' expects " ++ toString names.length ++
        " arguments, got " ++ toString args.length), st)
    else
      let st1 : State := { st with callStack := st.callStack ++ [proto.Name] }
      let act := Environment.child st1.frames closure
      match bindParams act.2 names args act.1 with
      | none => none
      | some fs =>
        match ev fnAST.getBody act.2 { st1 with frames := fs } with
        | none => none
        | some (.value _, st2) => some (.value .nil, popCallStack st2)
        | some (.returnSignal v, st2) => some (.value v, popCallStack st2)
        | some other => some other

/-- The search `hay.find(needle) != npos`: whether `needle` occurs in `hay`. -/
def containsSub : List Char → List Char → Bool
  | [], needle => needle.isEmpty
  | c :: hay, needle => needle.isPrefixOf (c :: hay) || containsSub hay needle

/-- The conversion `static_cast<int>(x.asNumber())` of an evaluated index or bound:
`std::get<double>` throws `std::bad_variant_access` unless `x` holds a number (the text of its
`what()` is the library's), and the conversion of a number out of the range of `int` is
undefined. -/
def asNumberInt : Value → Except Outcome Int
  | .number d =>
    match staticCastInt d with
    | some i => .ok i
    | none => .error (.undefinedBehaviour "conversion of a double out of the range of int")
  | _ => .error (.error "bad variant access")

/-- The virtual method `eval` of every node class; `env` is the index of the frame passed as
`Environment& env`. -/
def eval (H : Host) : Nat → ExprAST → Nat → State → Res
  | 0, _, _, _ => none
  | fuel + 1, e, env, st =>
    match e with
    | .NumberExpr d => some (.value (.number d), st)
    | .StringExpr s => some (.value (.string s), st)
    | .BooleanExpr b => some (.value (.bool b), st)
    | .NilExpr => some (.value .nil, st)
    | .VariableExpr name =>
      match Environment.get st.frames env name with
      | none => none
      | some (.ok v) => some (.value v, st)
      | some (.error m) => some (.error m, st)
    | .BinaryExpr op lhs rhs =>
      (eval H fuel lhs env st).andThen (fun L st1 =>
        (eval H fuel rhs env st1).andThen (fun R st2 =>
          match binaryOp H fuel op st2.lists L R with
          | none => none
          | some (o, ls) => some (o, { st2 with lists := ls })))
    | .UnaryExpr op operand =>
      (eval H fuel operand env st).andThen (fun V st1 =>
        if op = '+' then some (.value V, st1)
        else if op = '-' then some (opSub (.number 0) V, st1)
        else if op = '!' then some (.value (.bool (!(V.asBool st1.lists))), st1)
        else some (.error ("Unknown unary operator " ++ op.toString), st1))
    | .CallExpr callee args =>
      (eval H fuel callee env st).andThen (fun calleeVal st1 =>
        match calleeVal with
        | .func f =>
          match evalList (eval H fuel) env args st1 with
          | none => none
          | some (.error o, st2) => some (o, st2)
          | some (.ok argVals, st2) => f.invoke H (eval H fuel) argVals st2
        | _ => some (.error "Attempt to call a non-function value", st1))
    | .AssignmentExpr name ex =>
      (eval H fuel ex env st).andThen (fun v st1 =>
        match Environment.set st1.frames env name v with
        | none => none
        | some fs =>
          match v with
          | .func (.user _ closure) =>
            match Environment.set fs closure name v with
            | none => none
            | some fs2 => some (.value v, { st1 with frames := fs2 })
          | .func (.builtin _) =>
            some (.undefinedBehaviour "null closure dereferenced", { st1 with frames := fs })
          | _ => some (.value v, { st1 with frames := fs }))
    | .ListExpr elements =>
      match evalList (eval H fuel) env elements st with
      | none => none
      | some (.error o, st1) => some (o, st1)
      | some (.ok vals, st1) =>
        let r := allocList st1.lists vals
        some (.value r.1, { st1 with lists := r.2 })
    | .FunctionLiteralExpr fnAST =>
      match Environment.copy st.frames env with
      | none => none
      | some (fs, newEnv) => some (.value (.func (.user fnAST newEnv)), { st with frames := fs })
    | .PrefixExpr isIncrement operand =>
      match operand with
      | .VariableExpr name =>
        match Environment.get st.frames env name with
        | none => none
        | some (.error m) => some (.error m, st)
        | some (.ok v) =>
          match v.asNumeric with
          | .error m => some (.error m, st)
          | .ok d =>
            let d1 := roundDouble (d + (if isIncrement then 1 else -1))
            match Environment.set st.frames env name (.number d1) with
            | none => none
            | some fs => some (.value (.number d1), { st with frames := fs })
      | _ => some (.error "Operand of prefix ++/-- must be a variable", st)
    | .PostfixExpr isIncrement operand =>
      match operand with
      | .VariableExpr name =>
        match Environment.get st.frames env name with
        | none => none
        | some (.error m) => some (.error m, st)
        | some (.ok old) =>
          match old.asNumeric with
          | .error m => some (.error m, st)
          | .ok d =>
            let d1 := roundDouble (d + (if isIncrement then 1 else -1))
            match Environment.set st.frames env name (.number d1) with
            | none => none
            | some fs => some (.value old, { st with frames := fs })
      | _ => some (.error "Operand of postfix ++/-- must be a variable", st)
    | .CompoundAssignmentExpr op name rhs =>
      match Environment.get st.frames env name with
      | none => none
      | some (.error m) => some (.error m, st)
      | some (.ok old) =>
        (eval H fuel rhs env st).andThen (fun right st1 =>
          match compoundOp H op st1.lists old right with
          | (.value result, ls) =>
            match Environment.set st1.frames env name result with
            | none => none
            | some fs => some (.value result, { st1 with frames := fs, lists := ls })
          | (o, ls) => some (o, { st1 with lists := ls }))
    | .IndexExpr base index =>
      (eval H fuel base env st).andThen (fun V st1 =>
        (eval H fuel index env st1).andThen (fun I st2 =>
          match asNumberInt I with
          | .error o => some (o, st2)
          | .ok i => some (V.atIndex st2.lists i, st2)))
    | .SliceExpr base start stop =>
      (eval H fuel base env st).andThen (fun V st1 =>
        let evalBound : Option ExprAST → State → (Option Int → State → Res) → Res :=
          fun oe s k =>
            match oe with
            | none => k none s
            | some x =>
              (eval H fuel x env s).andThen (fun I s1 =>
                match asNumberInt I with
                | .error o => some (o, s1)
                | .ok i => k (some i) s1)
        evalBound start st1 (fun b st2 =>
          evalBound stop st2 (fun e3 st3 =>
            match V.slice st3.lists b e3 with
            | (o, ls) => some (o, { st3 with lists := ls }))))
    | .IfExpr cond thenE elseE =>
      (eval H fuel cond env st).andThen (fun c st1 =>
        if c.asBool st1.lists then eval H fuel thenE env st1
        else
          match elseE with
          | some el => eval H fuel el env st1
          | none => some (.value .nil, st1))
    | .WhileExpr cond body => whileLoop (eval H fuel) cond body env fuel .nil st
    | .ForExpr varName seqExpr body =>
      (eval H fuel seqExpr env st).andThen (fun seqV st1 =>
        match seqV with
        | .list p => forLoop (eval H fuel) varName body env (derefList st1.lists p) .nil st1
        | _ => some (.error "For: ожидается список в выражении 'in'", st1))
    | .BreakExpr => some (.breakSignal, st)
    | .ContinueExpr => some (.continueSignal, st)
    | .InExpr l r =>
      (eval H fuel l env st).andThen (fun hayV st1 =>
        match hayV with
        | .string hay =>
          (eval H fuel r env st1).andThen (fun needleV st2 =>
            match needleV with
            | .string needle => some (.value (.bool (containsSub hay.data needle.data)), st2)
            | _ => some (.error "bad variant access", st2))
        | _ => some (.error "bad variant access", st1))
    | .BlockExpr stmts => evalBlock (eval H fuel) env stmts .nil st
    | .ReturnExpr ex =>
      (eval H fuel ex env st).andThen (fun v st1 => some (.returnSignal v, st1))

/-! ## The driver (`interpreter.cpp`), after parsing -/

/-- The map of the stack object `globals` after `registerBuiltins(globals, output)`. -/
def registerBuiltins (H : Host) : List (String × Value) :=
  H.builtinNames.foldl (fun m n => mapAssign m n (.func (.builtin n))) []

/-- The first loop of `interpret`: every parsed function is bound in the global frame (frame
`0`) to a function value whose closure is the global frame itself. -/
def registerFunctions : List FunctionAST → List Environment → Option (List Environment)
  | [], fs => some fs
  | fn :: rest, fs =>
    match Environment.set fs 0 fn.getProto.Name (.func (.user fn 0)) with
    | none => none
    | some fs1 => registerFunctions rest fs1

/-- The second loop of `interpret`: the body of every `__anon_expr` is evaluated in the global
frame, in source order. -/
def runTopLevel (H : Host) (fuel : Nat) : List FunctionAST → State → Res
  | [], st => some (.value .nil, st)
  | fn :: rest, st =>
    if fn.getProto.Name = "__anon_expr" then
      (eval H fuel fn.getBody 0 st).andThen (fun _ st1 => runTopLevel H fuel rest st1)
    else runTopLevel H fuel rest st

/-- How `interpret` ends: it returns a `bool`, or an exception that is not a `std::exception`
(or undefined behaviour) leaves it. -/
inductive InterpretResult where
  | returned (b : Bool)
  | escaped (o : Outcome)

/-- The state in which `interpret` starts evaluating: frame `0` is `*globalsPtr`. -/
def initialState (H : Host) : State :=
  { frames := [{ vars_ := registerBuiltins H, parent := none }], lists := [],
    callStack := [], output := "" }

/-- The function `interpret` on the parsed module `functions`. -/
def interpret (H : Host) (fuel : Nat) (functions : List FunctionAST) :
    Option (InterpretResult × State) :=
  match registerFunctions functions (initialState H).frames with
  | none => none
  | some fs =>
    match runTopLevel H fuel functions { initialState H with frames := fs } with
    | none => none
    | some (.value _, st) => some (.returned true, st)
    | some (.error what, st) =>
      some (.returned false, { st with output := st.output ++ "Error: " ++ what })
    | some (o, st) => some (.escaped o, st)


/-! ## Notions used to state the properties of `Environment` -/

/-- The chain of frames seen from frame `i`, with the fuel of the entry points. -/
def chainOf (frames : List Environment) (i : Nat) : List Nat :=
  Environment.chain frames (i + 1) i

/-- The innermost frame of the chain of `i` that binds `name`, if any. -/
def innermostBinder (frames : List Environment) (i : Nat) (name : String) : Option Nat :=
  (chainOf frames i).find? (fun j => binds frames j name)

/-- The frames after `vars_[name] = v` in frame `t`; every other frame is as it was. -/
def writeAt (frames : List Environment) (t : Nat) (name : String) (v : Value) :
    List Environment :=
  match frames[t]? with
  | some fr => frames.set t { fr with vars_ := mapAssign fr.vars_ name v }
  | none => frames

/-- A decision procedure for `WellFormed`. -/
def wfCheck (frames : List Environment) : Bool :=
  (List.range frames.length).all (fun i =>
    match frames[i]? with
    | some fr =>
      match fr.parent with
      | some p => decide (p < i)
      | none => true
    | none => true)

/-- Two frames for the examples: frame `0` binds `x` and `y`, frame `1` is a child of
frame `0` and binds `y` and `z`. -/
def exampleFrames : List Environment :=
  [{ vars_ := [("x", .number 1), ("y", .number 2)], parent := none },
   { vars_ := [("y", .number 3), ("z", .number 4)], parent := some 0 }]

/-! ## Concrete programs used as examples -/

/-- A host with an empty builtin catalogue; the example programs call no builtin and do not
use `^`. -/
def bareHost : Host :=
  { builtinFn := fun _ _ _ ls out => (.error "no such builtin", ls, out)
    builtinNames := []
    pow := fun _ _ => 0 }

/-- A top-level expression as `Parser::ParseTopLevelExpr` wraps it. -/
def topLevel (e : ExprAST) : FunctionAST :=
  .mk { Name := "__anon_expr", Args := [] } e

/-- The function of `foo = function(x) return x * 2 end function`. -/
def fooAST : FunctionAST :=
  .mk { Name := "foo", Args := ["x"] }
    (.BlockExpr [.ReturnExpr (.BinaryExpr .Star (.VariableExpr "x") (.NumberExpr 2))])

/-- The program of the test `ParameterShadowsGlobal` without its prints:
`x = 7`, `foo = function(x) return x * 2 end function`, `foo(3)`. -/
def parameterShadowsGlobal : List FunctionAST :=
  [topLevel (.AssignmentExpr "x" (.NumberExpr 7)),
   topLevel (.AssignmentExpr "foo" (.FunctionLiteralExpr fooAST)),
   topLevel (.CallExpr (.VariableExpr "foo") [.NumberExpr 3])]

/-- The function of a top-level definition `function g() end function`. -/
def emptyGAST : FunctionAST :=
  .mk { Name := "g", Args := [] } (.BlockExpr [])

/-- The function of `f = function() x = g end function`. -/
def assignGAST : FunctionAST :=
  .mk { Name := "f", Args := [] } (.BlockExpr [.AssignmentExpr "x" (.VariableExpr "g")])

/-- The program `function g() end function`, `x = 1`, `f = function() x = g end function`,
`f()`. -/
def assignsGlobalFunction : List FunctionAST :=
  [emptyGAST,
   topLevel (.AssignmentExpr "x" (.NumberExpr 1)),
   topLevel (.AssignmentExpr "f" (.FunctionLiteralExpr assignGAST)),
   topLevel (.CallExpr (.VariableExpr "f") [])]

/-- The function of `foo = function() x = 50 end function`. -/
def fooAssignAST : FunctionAST :=
  .mk { Name := "foo", Args := [] } (.BlockExpr [.AssignmentExpr "x" (.NumberExpr 50)])

/-- The program of the test `LocalVariableDoesNotAffectGlobal` without its prints:
`x = 100`, `foo = function() x = 50 end function`, `foo()`. -/
def localVariableDoesNotAffectGlobal : List FunctionAST :=
  [topLevel (.AssignmentExpr "x" (.NumberExpr 100)),
   topLevel (.AssignmentExpr "foo" (.FunctionLiteralExpr fooAssignAST)),
   topLevel (.CallExpr (.VariableExpr "foo") [])]

/-- The state in which the body of `foo` starts in that program: the global frame `0`, the
closure frame `1` of `foo` (a copy of the global frame, with the name `foo` added by the
assignment), and the empty activation frame `2` of the call.  The first entry of the global
frame is the binding `interpret` makes for the wrapped top-level expressions. -/
def insideFooState : State :=
  { frames :=
      [{ vars_ := [("__anon_expr",
            .func (.user (topLevel (.CallExpr (.VariableExpr "foo") [])) 0)),
          ("x", .number 100), ("foo", .func (.user fooAssignAST 1))], parent := none },
       { vars_ := [("__anon_expr",
            .func (.user (topLevel (.CallExpr (.VariableExpr "foo") [])) 0)),
          ("x", .number 100), ("foo", .func (.user fooAssignAST 1))], parent := none },
       { vars_ := [], parent := some 1 }]
    lists := []
    callStack := ["foo"]
    output := "" }

/-- The function of the test `NoReturnReturnsNil`, as a top-level definition:
`function noRet() x = 10  x = x * 2 end function`. -/
def noRetAST : FunctionAST :=
  .mk { Name := "noRet", Args := [] }
    (.BlockExpr
      [.AssignmentExpr "x" (.NumberExpr 10),
       .AssignmentExpr "x" (.BinaryExpr .Star (.VariableExpr "x") (.NumberExpr 2))])

/-- A state with an empty global frame only. -/
def emptyGlobalState : State :=
  { frames := [{ vars_ := [], parent := none }], lists := [], callStack := [], output := "" }

/-- The function of `func = function(value) return 1 end function`. -/
def funcAST : FunctionAST :=
  .mk { Name := "func", Args := ["value"] } (.BlockExpr [.ReturnExpr (.NumberExpr 1)])

/-- The function of the test `RecursiveFactorial`:
`fact = function(n) if n == 0 then return 1 else return n * fact(n - 1) end if end function`. -/
def factAST : FunctionAST :=
  .mk { Name := "fact", Args := ["n"] }
    (.BlockExpr
      [.IfExpr (.BinaryExpr .Equal (.VariableExpr "n") (.NumberExpr 0))
        (.ReturnExpr (.NumberExpr 1))
        (some (.ReturnExpr (.BinaryExpr .Star (.VariableExpr "n")
          (.CallExpr (.VariableExpr "fact")
            [.BinaryExpr .Minus (.VariableExpr "n") (.NumberExpr 1)]))))])

/-- The numbers the recursion of `fact` computes: `1`, and then each product rounded to a
`double`. -/
def factDouble : Nat → ℚ
  | 0 => 1
  | k + 1 => roundDouble (((k + 1 : Nat) : ℚ) * factDouble k)

/-- What the recursion of `fact` uses of the closure frame `c` of the function: the frames are
well formed, frame `c` has no parent and binds `fact` to the function itself. -/
def FactClosure (frames : List Environment) (c : Nat) : Prop :=
  WellFormed frames ∧
  (frames[c]?).map (fun (fr : Environment) => fr.parent) = some none ∧
  boundValue frames c "fact" = some (.func (.user factAST c))

/-- The inner function of the scenario: `function() count = count + 1  return count end
function`.  Its literal is the operand of a `return`, so its prototype keeps the empty name. -/
def counterInnerAST : FunctionAST :=
  .mk { Name := "", Args := [] }
    (.BlockExpr
      [.AssignmentExpr "count" (.BinaryExpr .Plus (.VariableExpr "count") (.NumberExpr 1)),
       .ReturnExpr (.VariableExpr "count")])

/-- The outer function of the scenario: `makeCounter = function() count = 0  return function()
... end function end function`. -/
def makeCounterAST : FunctionAST :=
  .mk { Name := "makeCounter", Args := [] }
    (.BlockExpr
      [.AssignmentExpr "count" (.NumberExpr 0),
       .ReturnExpr (.FunctionLiteralExpr counterInnerAST)])

/-- The three top-level statements of the scenario: the definition of `makeCounter`,
`c1 = makeCounter()` and `c2 = makeCounter()`. -/
def counterSetup : List FunctionAST :=
  [topLevel (.AssignmentExpr "makeCounter" (.FunctionLiteralExpr makeCounterAST)),
   topLevel (.AssignmentExpr "c1" (.CallExpr (.VariableExpr "makeCounter") [])),
   topLevel (.AssignmentExpr "c2" (.CallExpr (.VariableExpr "makeCounter") []))]

/-- A call `c1()` (for `true`) or `c2()` (for `false`). -/
def counterCall (first : Bool) : ExprAST :=
  .CallExpr (.VariableExpr (if first then "c1" else "c2")) []

/-- The values an interleaving of calls is expected to return when `c1` has been called `k1`
times and `c2` has been called `k2` times before: each call returns the number of calls of its
own closure so far. -/
def tally : Nat → Nat → List Bool → List Value
  | _, _, [] => []
  | k1, k2, true :: rest => .number ((k1 + 1 : Nat) : ℚ) :: tally (k1 + 1) k2 rest
  | k1, k2, false :: rest => .number ((k2 + 1 : Nat) : ℚ) :: tally k1 (k2 + 1) rest

/-- What the calls of the two counters use of a state: the global frame binds `c1` and `c2` to
the inner function closed over two different frames `f1` and `f2`, which bind `count` to the
numbers of calls made so far. -/
def CounterInv (frames : List Environment) (f1 f2 k1 k2 : Nat) : Prop :=
  WellFormed frames ∧ f1 ≠ f2 ∧
  Environment.get frames 0 "c1" = some (.ok (.func (.user counterInnerAST f1))) ∧
  Environment.get frames 0 "c2" = some (.ok (.func (.user counterInnerAST f2))) ∧
  boundValue frames f1 "count" = some (.number (k1 : ℚ)) ∧
  boundValue frames f2 "count" = some (.number (k2 : ℚ))

/-- The function of the literal `function() return i end function`; it is an element of a
list literal, so its prototype keeps the empty name. -/
def retIAST : FunctionAST :=
  .mk { Name := "", Args := [] } (.BlockExpr [.ReturnExpr (.VariableExpr "i")])

/-- The condition `i < n` of the loop of `makeFuncs`. -/
def makeFuncsCond : ExprAST :=
  .BinaryExpr .Less (.VariableExpr "i") (.VariableExpr "n")

/-- The body of the loop of `makeFuncs`: `lst = lst + [function() return i end function]`,
`i = i + 1`. -/
def makeFuncsLoopBody : ExprAST :=
  .BlockExpr
    [.AssignmentExpr "lst"
      (.BinaryExpr .Plus (.VariableExpr "lst") (.ListExpr [.FunctionLiteralExpr retIAST])),
     .AssignmentExpr "i" (.BinaryExpr .Plus (.VariableExpr "i") (.NumberExpr 1))]

/-- The function of the test `ReturnListOfFunctions`: `makeFuncs = function(n) lst = []  i = 0
while i < n ... end while  return lst end function`. -/
def makeFuncsAST : FunctionAST :=
  .mk { Name := "makeFuncs", Args := ["n"] }
    (.BlockExpr
      [.AssignmentExpr "lst" (.ListExpr []),
       .AssignmentExpr "i" (.NumberExpr 0),
       .WhileExpr makeFuncsCond makeFuncsLoopBody,
       .ReturnExpr (.VariableExpr "lst")])

/-- The list built so far by the loop of `makeFuncs`, after `j` iterations: `j` functions, the
`m`-th of them the literal closed over a frame, other than the activation frame `A`, that
binds `i` to `m`. -/
def GoodFuncs (frames : List Environment) (A : Nat) (funcs : List Value) (j : Nat) : Prop :=
  funcs.length = j ∧
  ∀ m, m < j → ∃ c, funcs[m]? = some (.func (.user retIAST c)) ∧ c ≠ A ∧
    boundValue frames c "i" = some (.number (m : ℚ))

/-- The state of the loop of `makeFuncs` after `j` iterations: the activation frame `A` binds
`n`, binds `i` to `j`, and binds `lst` to a list cell holding the functions built so far. -/
def LoopInv (st : State) (A n j : Nat) : Prop :=
  WellFormed st.frames ∧
  ∃ frA p, st.frames[A]? = some frA ∧
    mapFind frA.vars_ "n" = some (.number (n : ℚ)) ∧
    mapFind frA.vars_ "i" = some (.number (j : ℚ)) ∧
    mapFind frA.vars_ "lst" = some (.list p) ∧
    p < st.lists.length ∧
    GoodFuncs st.frames A (derefList st.lists p) j

/-- The function of `f = function() break end function`. -/
def breakAST : FunctionAST :=
  .mk { Name := "f", Args := [] } (.BlockExpr [.BreakExpr])

/-- The program
`f = function() break end function  while true f() end while`. -/
def breakLeavesCall : List FunctionAST :=
  [topLevel (.AssignmentExpr "f" (.FunctionLiteralExpr breakAST)),
   topLevel (.WhileExpr (.BooleanExpr true) (.BlockExpr [.CallExpr (.VariableExpr "f") []]))]

/-- The program `break  print(1)`, with `print` left out of the picture: a `break` at top
level followed by one more statement. -/
def breakAtTopLevel : List FunctionAST :=
  [topLevel .BreakExpr, topLevel (.AssignmentExpr "x" (.NumberExpr 1))]

/-- The program `nil < 1`. -/
def nilLessOne : List FunctionAST :=
  [topLevel (.BinaryExpr .Less .NilExpr (.NumberExpr 1))]

/-- The list cells after `a = [1]  push(a, a)`: cell `0` holds `1` and a pointer to itself. -/
def selfList : List (List Value) :=
  [[.number 1, .list 0]]

/-- A bound on how deep the lists of a value nest, from a rank of the cells. -/
def listDepth (rank : Nat → Nat) : Value → Nat
  | .list p => rank p + 1
  | _ => 0

/-- The state after `x = 5` at top level, in an otherwise empty global frame. -/
def xIsFiveState : State :=
  { frames := [{ vars_ := [("x", .number 5)], parent := none }], lists := [],
    callStack := [], output := "" }

/-- The `double` branch of `Value::toString`: an integral value is written through
`std::to_string((long long)d)`; any other goes through `operator<<` of the stream, which the
model takes as the parameter `fmt`.  Outside the range of `long long` the conversion is
undefined: the model leaves that text to `fmt` as well. -/
def numberToString (fmt : ℚ → String) (d : ℚ) : String :=
  if (Rat.floor d : ℚ) = d then
    if -9223372036854775809 < d ∧ d < 9223372036854775808 then toString (truncInt d) else fmt d
  else fmt d

/-- The loop of the list branch of `Value::toString`: `", "` before every element but the
first, and a string element between double quotes. -/
def elementsToString (render : Value → Option String) : List Value → Bool → Option String
  | [], _ => some ""
  | x :: xs, first =>
    match render x with
    | none => none
    | some t =>
      match elementsToString render xs false with
      | none => none
      | some rest =>
        some ((if first then "" else ", ") ++ (if x.isString then "\"" ++ t ++ "\"" else t) ++
          rest)

/-- The method `Value::toString`; the recursion through list cells takes a fuel. -/
def Value.toString (fmt : ℚ → String) (lists : List (List Value)) : Nat → Value → Option String
  | 0, _ => none
  | fuel + 1, v =>
    match v with
    | .nil => some "nil"
    | .number d => some (numberToString fmt d)
    | .bool b => some (if b then "true" else "false")
    | .string s => some s
    | .list p =>
      match elementsToString (Value.toString fmt lists fuel) (derefList lists p) true with
      | none => none
      | some body =>
        some ((if (derefList lists p).length ≠ 1 then "[" else "") ++ body ++
          (if (derefList lists p).length ≠ 1 then "]" else ""))
    | .func _ => some "<function>"

/-- How an element is written inside the rendering of a list, from its own rendering `t`. -/
def elementPiece (x : Value) (t : String) : String :=
  if x.isString then "\"" ++ t ++ "\"" else t

/-- The cells after `mass = [123, 10]  push(mass, "WOW")` of the test
`PushAffectsAllAliases`. -/
def massCells : List (List Value) :=
  [[.number 123, .number 10, .string "WOW"]]

/-- One pass of the loop of `ForExprAST::eval` on the element `el`: `env.set(VarName, el)`,
then the body, which completes or ends with a continue signal; `st2` is the state after. -/
def forIteration (ev : ExprAST → Nat → State → Res) (x : String) (body : ExprAST) (env : Nat)
    (el : Value) (st st2 : State) : Prop :=
  ∃ fs o, Environment.set st.frames env x el = some fs ∧
    ev body env { st with frames := fs } = some (o, st2) ∧
    (o = .continueSignal ∨ ∃ v, o = .value v)

/-- One pass per element of `els`, in order, from the state `st` to the state `stEnd`. -/
def forIterations (ev : ExprAST → Nat → State → Res) (x : String) (body : ExprAST) (env : Nat) :
    List Value → State → State → Prop
  | [], st, stEnd => st = stEnd
  | el :: rest, st, stEnd =>
    ∃ st2, forIteration ev x body env el st st2 ∧ forIterations ev x body env rest st2 stEnd

/-- A host whose catalogue holds the builtin `push` of `registerBuiltins`:
`args[0].asList().push_back(args[1])` on the shared cell. -/
def pushHost : Host :=
  { builtinFn := fun name args _ ls out =>
      if name = "push" then
        match args with
        | [.list p, x] => (.value .nil, ls.set p (derefList ls p ++ [x]), out)
        | _ => (.error "push(list, elem): expected a list and an element", ls, out)
      else (.error "no such builtin", ls, out)
    builtinNames := ["push"]
    pow := fun _ _ => 0 }

/-- The state after `L = [1, 2]` in the global frame of `pushHost`. -/
def listLState : State :=
  { frames := [{ vars_ := [("push", .func (.builtin "push")), ("L", .list 0)], parent := none }]
    lists := [[.number 1, .number 2]]
    callStack := []
    output := "" }

/-- The loop `for x in L  push(L, x)  end for`. -/
def pushingLoop : ExprAST :=
  .ForExpr "x" (.VariableExpr "L")
    (.BlockExpr [.CallExpr (.VariableExpr "push") [.VariableExpr "L", .VariableExpr "x"]])

/-- The program of the test `PushAffectsAllAliases`, without its `print`:
`mass = [123, 10]  mass1 = mass  push(mass, "WOW")`. -/
def pushAffectsAllAliases : List FunctionAST :=
  [topLevel (.AssignmentExpr "mass" (.ListExpr [.NumberExpr 123, .NumberExpr 10])),
   topLevel (.AssignmentExpr "mass1" (.VariableExpr "mass")),
   topLevel (.CallExpr (.VariableExpr "push") [.VariableExpr "mass", .StringExpr "WOW"])]

/-- The text the comparator of `sort` compares: `a.toString()` (the empty text stands in when
the rendering does not return within the fuel; `sortBuiltin` does not sort then). -/
def renderKey (fmt : ℚ → String) (lists : List (List Value)) (fuel : Nat) (a : Value) : String :=
  (Value.toString fmt lists fuel a).getD ""

/-- The comparator lambda of the builtin `sort`: `a.toString() < b.toString()`. -/
def lessByToString (fmt : ℚ → String) (lists : List (List Value)) (fuel : Nat)
    (a b : Value) : Bool :=
  decide (renderKey fmt lists fuel a < renderKey fmt lists fuel b)

/-- The builtin `sort` of `registerBuiltins`: a copy of the list is sorted with `std::sort`
under the comparator above and wrapped in a new cell.  `std::sort` is the parameter
`stdSort`; with two elements or more every element is rendered at least once, so the call
returns only if every rendering does. -/
def sortBuiltin (stdSort : (Value → Value → Bool) → List Value → List Value)
    (fmt : ℚ → String) (fuel : Nat) (args : List Value) (lists : List (List Value)) :
    Option (Outcome × List (List Value)) :=
  match args with
  | [.list p] =>
    let vec := derefList lists p
    if vec.length ≤ 1 ∨ vec.all (fun x => (Value.toString fmt lists fuel x).isSome) then
      let r := allocList lists (stdSort (lessByToString fmt lists fuel) vec)
      some (.value r.1, r.2)
    else none
  | _ => some (.error "sort: expected a single list argument", lists)

/-- What the C++ standard promises of `std::sort` under a comparator that orders the elements
by a key: the result is a permutation of the input in which no element has a key smaller
than that of an element before it.  (The order of elements with equal keys is left open.) -/
def IsStdSort (stdSort : (Value → Value → Bool) → List Value → List Value) : Prop :=
  ∀ (key : Value → String) (l : List Value),
    (stdSort (fun a b => decide (key a < key b)) l).Perm l ∧
    (stdSort (fun a b => decide (key a < key b)) l).Pairwise (fun a b => ¬ key b < key a)

/-- A sorting algorithm that meets `IsStdSort`: insertion sort. -/
def insertionStdSort (lt : Value → Value → Bool) (l : List Value) : List Value :=
  List.insertionSort (fun a b => lt b a = false) l

/-- A second sorting algorithm that meets `IsStdSort`: insertion sort of the reversed input.
Elements with equal keys come out in the reverse of their order in the input. -/
def reversingStdSort (lt : Value → Value → Bool) (l : List Value) : List Value :=
  insertionStdSort lt l.reverse

/-- The constant `std::numeric_limits<double>::min()`: the smallest positive normal `double`,
`2^-1022`. -/
def doubleMin : ℚ := 1 / 2 ^ 1022

/-- The loops of the builtin `max`: `max = std::max(max, Value::asNumeric(x))` for each `x`. -/
def maxLoop : List Value → ℚ → Except String ℚ
  | [], m => .ok m
  | x :: xs, m =>
    match x.asNumeric with
    | .error e => .error e
    | .ok a => maxLoop xs (max m a)

/-- The builtin `max` of `registerBuiltins`: the loop runs over the elements of a single list
argument, or else over the arguments, starting from `std::numeric_limits<double>::min()`. -/
def maxBuiltin (args : List Value) (lists : List (List Value)) : Outcome :=
  let elems :=
    match args with
    | [.list p] => derefList lists p
    | _ => args
  match maxLoop elems doubleMin with
  | .ok m => .value (.number m)
  | .error e => .error e

/-- A global frame in which `print` is bound to the builtin, as after `registerBuiltins`. -/
def printBoundState : State :=
  { frames := [{ vars_ := [("print", .func (.builtin "print"))], parent := none }], lists := [],
    callStack := [], output := "" }

/-! ## The lexer (`lexer.cpp`) -/

/-- The variant `Literal` of `token.h`. -/
inductive Literal where
  | none
  | bool (b : Bool)
  | number (d : ℚ)
  | string (s : String)

/-- The struct `Token`. -/
structure Token where
  type : TokenType
  lexeme : String
  literal : Literal
  line : Nat

/-- The class `Lexer`: the unread input, the lexeme being collected and the line counter. -/
structure Lexer where
  input : List Char
  currentLexeme : List Char
  line : Nat

/-- The method `Lexer::peek`: the next character, or `'\0'` at the end of the input. -/
def Lexer.peek (l : Lexer) : Char :=
  l.input.head?.getD (Char.ofNat 0)

/-- The method `Lexer::peekNext`: the character after the next one, or `'\0'`. -/
def Lexer.peekNext (l : Lexer) : Char :=
  match l.input with
  | [] => Char.ofNat 0
  | _ :: rest => rest.head?.getD (Char.ofNat 0)

/-- The method `Lexer::isAtEnd`. -/
def Lexer.isAtEnd (l : Lexer) : Bool :=
  l.peek == Char.ofNat 0

/-- The method `Lexer::rawAdvance`. -/
def Lexer.rawAdvance (l : Lexer) : Lexer :=
  match l.input with
  | [] => l
  | c :: rest => { l with input := rest, line := if c = '\n' then l.line + 1 else l.line }

/-- The method `Lexer::advance`; at the end of the input `get()` hands back `EOF`, which is
pushed as the character `0xFF` (no caller reaches this). -/
def Lexer.advance (l : Lexer) : Lexer :=
  match l.input with
  | [] => { l with currentLexeme := l.currentLexeme ++ [Char.ofNat 255] }
  | c :: rest =>
    { input := rest, currentLexeme := l.currentLexeme ++ [c],
      line := if c = '\n' then l.line + 1 else l.line }

/-- The method `Lexer::match`. -/
def Lexer.matchChar (l : Lexer) (expected : Char) : Bool × Lexer :=
  if l.peek ≠ expected then (false, l) else (true, l.advance)

/-- The loop `while (p(peek())) advance();`; `n` bounds the number of steps. -/
def Lexer.advanceWhile (p : Char → Bool) : Nat → Lexer → Lexer
  | 0, l => l
  | n + 1, l => if p l.peek then Lexer.advanceWhile p n l.advance else l

/-- The loop `while (peek() != '\n' && !isAtEnd()) rawAdvance();` of a comment. -/
def Lexer.skipComment : Nat → Lexer → Lexer
  | 0, l => l
  | n + 1, l =>
    if l.peek ≠ '\n' ∧ l.isAtEnd = false then Lexer.skipComment n l.rawAdvance else l

/-- The loop of `Lexer::skipWhitespace`; `n` bounds the number of rounds. -/
def Lexer.skipWhitespaceLoop : Nat → Lexer → Lexer
  | 0, l => l
  | n + 1, l =>
    let c := l.peek
    let c2 := l.peekNext
    if c = '/' ∧ c2 = '/' then
      Lexer.skipWhitespaceLoop n
        (Lexer.skipComment l.input.length l.rawAdvance.rawAdvance)
    else if c = ' ' ∨ c = '\t' ∨ c = '\r' ∨ c = '\n' then
      Lexer.skipWhitespaceLoop n l.rawAdvance
    else l

/-- The method `Lexer::skipWhitespace`. -/
def Lexer.skipWhitespace (l : Lexer) : Lexer :=
  Lexer.skipWhitespaceLoop (l.input.length + 1) l

/-- The method `Lexer::makeToken`. -/
def Lexer.makeToken (l : Lexer) (type : TokenType) : Token :=
  { type := type, lexeme := ⟨l.currentLexeme⟩, literal := .none, line := l.line }

/-- The method `Lexer::errorToken`: the tag of the token is `EndOfFile`. -/
def Lexer.errorToken (l : Lexer) (message : String) : Token :=
  { type := .EndOfFile,
    lexeme := if l.currentLexeme.isEmpty then message else ⟨l.currentLexeme⟩,
    literal := .string message, line := l.line }

/-- The value of a run of decimal digits. -/
def digitsValue (ds : List Char) : Nat :=
  ds.foldl (fun acc c => 10 * acc + (c.toNat - '0'.toNat)) 0

/-- The decimal value that a lexeme of the shape `digits [. digits] [(e|E) [+|-] digits]`,
which `scanNumber` collects, denotes. -/
def decimalValue (lexeme : List Char) : ℚ :=
  let intPart := lexeme.takeWhile Char.isDigit
  let rest1 := lexeme.dropWhile Char.isDigit
  let fracPart := if rest1.head? = some '.' then (rest1.drop 1).takeWhile Char.isDigit else []
  let rest2 := if rest1.head? = some '.' then (rest1.drop 1).dropWhile Char.isDigit else rest1
  let mantissa : ℚ := digitsValue intPart + (digitsValue fracPart : ℚ) / 10 ^ fracPart.length
  match rest2 with
  | e :: rest3 =>
    if e = 'e' ∨ e = 'E' then
      match rest3 with
      | '-' :: ds => mantissa / 10 ^ digitsValue ds
      | '+' :: ds => mantissa * 10 ^ digitsValue ds
      | ds => mantissa * 10 ^ digitsValue ds
    else mantissa
  | [] => mantissa

/-- The call `std::strtod(currentLexeme.c_str(), nullptr)` on such a lexeme: the `double`
nearest to its decimal value. -/
def strtod (lexeme : List Char) : ℚ :=
  roundDouble (decimalValue lexeme)

/-- The method `Lexer::scanNumber`. -/
def Lexer.scanNumber (l : Lexer) : Token × Lexer :=
  let l1 := Lexer.advanceWhile Char.isDigit l.input.length l
  let l2 :=
    if l1.peek = '.' ∧ l1.peekNext.isDigit then
      Lexer.advanceWhile Char.isDigit l1.input.length l1.advance
    else l1
  if l2.peek = 'e' ∨ l2.peek = 'E' then
    let l3 := l2.advance
    let l4 := if l3.peek = '+' ∨ l3.peek = '-' then l3.advance else l3
    if l4.peek.isDigit = false then
      (l4.errorToken "Malformed number literal: expected digits after exponent", l4)
    else
      let l5 := Lexer.advanceWhile Char.isDigit l4.input.length l4
      ({ l5.makeToken .Number with literal := .number (strtod l5.currentLexeme) }, l5)
  else
    ({ l2.makeToken .Number with literal := .number (strtod l2.currentLexeme) }, l2)

/-- The first loop of `Lexer::scanString`, up to the closing quote or the end of the input. -/
def Lexer.scanStringLoop : Nat → Lexer → Lexer
  | 0, l => l
  | n + 1, l =>
    if l.isAtEnd then l
    else if l.peek = '\\' then
      let l1 := l.advance
      Lexer.scanStringLoop n (if l1.isAtEnd then l1 else l1.advance)
    else if l.peek = '"' then l
    else Lexer.scanStringLoop n l.advance

/-- The second loop of `Lexer::scanString`: the escapes of the raw text. -/
def unescape : List Char → List Char
  | '\\' :: next :: rest =>
    (if next = 'n' then '\n' else if next = 't' then '\t' else next) :: unescape rest
  | c :: rest => c :: unescape rest
  | [] => []

/-- The method `Lexer::scanString`. -/
def Lexer.scanString (l : Lexer) : Token × Lexer :=
  let l1 := Lexer.scanStringLoop (l.input.length + 1) l.advance
  if l1.isAtEnd then (l1.errorToken "Unclosed string", l1)
  else
    let l2 := l1.advance
    let raw := (l2.currentLexeme.drop 1).take (l2.currentLexeme.length - 2)
    ({ l2.makeToken .String with literal := .string ⟨unescape raw⟩ }, l2)

/-- The table `keywords` of `keywords.h`. -/
def keywords : List (String × TokenType) :=
  [("if", .If), ("then", .Then), ("else", .Else), ("end", .End), ("while", .While),
   ("for", .For), ("in", .In), ("break", .Break), ("continue", .Continue),
   ("function", .Function), ("return", .Return), ("true", .Boolean), ("false", .Boolean),
   ("and", .And), ("or", .Or), ("not", .Not), ("nil", .Nil)]

/-- The method `Lexer::scanIdentifier`. -/
def Lexer.scanIdentifier (l : Lexer) : Token × Lexer :=
  let l1 := Lexer.advanceWhile (fun c => c.isAlphanum || c == '_') l.input.length l
  match keywords.lookup ⟨l1.currentLexeme⟩ with
  | some type =>
    if type = .Boolean then
      ({ l1.makeToken type with literal := .bool (decide (l1.currentLexeme = "true".data)) }, l1)
    else (l1.makeToken type, l1)
  | none => (l1.makeToken .Identifier, l1)

/-- The operators of `Lexer::scanOperator` that may be followed by a second character: the
tag with `second`, when there is one, else the tag alone. -/
def Lexer.twoCharOperator (l : Lexer) (options : List (Char × TokenType)) (single : TokenType) :
    Token × Lexer :=
  match options.find? (fun o => l.peek == o.1) with
  | some o => (l.advance.makeToken o.2, l.advance)
  | none => (l.makeToken single, l)

/-- The method `Lexer::scanOperator`. -/
def Lexer.scanOperator (l : Lexer) : Token × Lexer :=
  let l1 := l.advance
  match l1.currentLexeme.head? with
  | some '+' => l1.twoCharOperator [('+', .PlusPlus), ('=', .PlusAssign)] .Plus
  | some '-' => l1.twoCharOperator [('-', .MinusMinus), ('=', .MinusAssign)] .Minus
  | some '*' => l1.twoCharOperator [('=', .StarAssign)] .Star
  | some '/' => l1.twoCharOperator [('=', .SlashAssign)] .Slash
  | some '%' => l1.twoCharOperator [('=', .PercentAssign)] .Percent
  | some '^' => l1.twoCharOperator [('=', .CaretAssign)] .Caret
  | some '=' => l1.twoCharOperator [('=', .Equal)] .Assign
  | some '!' => l1.twoCharOperator [('=', .NotEqual)] .Bang
  | some '<' => l1.twoCharOperator [('=', .LessEqual)] .Less
  | some '>' => l1.twoCharOperator [('=', .GreaterEqual)] .Greater
  | some '(' => (l1.makeToken .LParen, l1)
  | some ')' => (l1.makeToken .RParen, l1)
  | some '[' => (l1.makeToken .LBracket, l1)
  | some ']' => (l1.makeToken .RBracket, l1)
  | some ',' => (l1.makeToken .Comma, l1)
  | some ';' => (l1.makeToken .Semicolon, l1)
  | some '@' => (l1.makeToken .At, l1)
  | some ':' => (l1.makeToken .Colon, l1)
  | _ => (l1.errorToken "Unknown operator", l1)

/-- The method `Lexer::nextToken`. -/
def Lexer.nextToken (l : Lexer) : Token × Lexer :=
  let l1 := ({ l with currentLexeme := [] } : Lexer).skipWhitespace
  if l1.isAtEnd then (l1.makeToken .EndOfFile, l1)
  else
    let c := l1.peek
    if c.isDigit then l1.scanNumber
    else if c.isAlpha || c == '_' then l1.scanIdentifier
    else if c = '"' then l1.scanString
    else l1.scanOperator
/-! ## The parser (`parser.cpp`) -/

/-- The class `Parser`: its lexer and the current token `CurTok`. -/
structure Parser where
  Lex : Lexer
  CurTok : Token

/-- The method `Parser::getNextToken`. -/
def Parser.getNextToken (p : Parser) : Parser :=
  { Lex := p.Lex.nextToken.2, CurTok := p.Lex.nextToken.1 }

/-- The constructor `Parser(Lexer&)`, on the program text: it reads the first token. -/
def Parser.start (text : String) : Parser :=
  Parser.getNextToken
    { Lex := { input := text.data, currentLexeme := [], line := 1 },
      CurTok := { type := .EndOfFile, lexeme := "", literal := .none, line := 0 } }

/-- What a parsing method hands back: a node (`ok`), the null pointer (`failed`), both with
the parser as it is then; `unmodelled` when the method built a node around a null child,
which the node type of the model cannot hold, applied `std::get` to a literal of another
kind, or met a number literal that `strtod` turns into an infinity: the model follows the
parser no further; `outOfFuel` when the bound on the recursion
was reached. -/
inductive PRes (α : Type) where
  | ok (a : α) (p : Parser)
  | failed (p : Parser)
  | unmodelled
  | outOfFuel

/-- Go on with a node; the null pointer is returned at once (`if (!X) return nullptr;`). -/
def PRes.andThen {α β : Type} (r : PRes α) (k : α → Parser → PRes β) : PRes β :=
  match r with
  | .ok a p => k a p
  | .failed p => .failed p
  | .unmodelled => .unmodelled
  | .outOfFuel => .outOfFuel

/-- The method `Parser::GetTokPrecedence`, with the table filled by the constructor. -/
def Parser.GetTokPrecedence (p : Parser) : Int :=
  match p.CurTok.type with
  | .And => 5
  | .Or => 4
  | .Less | .LessEqual | .Greater | .GreaterEqual => 10
  | .Equal | .NotEqual => 9
  | .Plus | .Minus => 20
  | .Star | .Slash | .Percent => 40
  | .Caret => 50
  | _ => -1

/-- The parameter loop of `ParsePrototype` and of `ParseFunctionExpr`:
`while (CurTok.type == Identifier) { push; next; if (Comma) next; else break; }`. -/
def parseArgNames : Nat → Parser → List String → List String × Parser
  | 0, p, acc => (acc, p)
  | n + 1, p, acc =>
    if p.CurTok.type = .Identifier then
      let p1 := p.getNextToken
      if p1.CurTok.type = .Comma then parseArgNames n p1.getNextToken (acc ++ [p.CurTok.lexeme])
      else (acc ++ [p.CurTok.lexeme], p1)
    else (acc, p)

/-- The loop `while (CurTok.type == Semicolon) getNextToken();` of `ParseForExpr`. -/
def skipSemicolons : Nat → Parser → Parser
  | 0, p => p
  | n + 1, p => if p.CurTok.type = .Semicolon then skipSemicolons n p.getNextToken else p

/-- The chain of `IfExprAST` nodes that `ParseIfExpr` links with `setElse`. -/
def buildIf (cond thenE : ExprAST) : List (ExprAST × ExprAST) → Option ExprAST → ExprAST
  | [], elseE => .IfExpr cond thenE elseE
  | (c, t) :: rest, elseE => .IfExpr cond thenE (some (buildIf c t rest elseE))

/-- Whether the token starts an assignment in `ParseExpression`. -/
def isAssignOp (t : TokenType) : Bool :=
  t = .Assign || t = .PlusAssign || t = .MinusAssign || t = .StarAssign || t = .SlashAssign ||
    t = .PercentAssign || t = .CaretAssign

/-- The renaming `funcLit->getFunctionAST()->getProto().setName(varName)` of
`ParseExpression`. -/
def nameFunctionLiteral (varName : String) : ExprAST → ExprAST
  | .FunctionLiteralExpr (.mk proto body) =>
    .FunctionLiteralExpr (.mk { proto with Name := varName } body)
  | e => e
mutual

/-- The method `Parser::ParsePrimary`: the `switch`, whose result may be the null pointer,
then the two loops over call, subscript, `in` and `++`/`--` suffixes. -/
def ParsePrimary : Nat → Parser → PRes ExprAST
  | 0, _ => .outOfFuel
  | fuel + 1, p =>
    let suffixes : PRes ExprAST → PRes ExprAST := fun r =>
      match r with
      | .ok e p1 => primarySuffixes fuel (some e) p1
      | .failed p1 => primarySuffixes fuel none p1
      | .unmodelled => .unmodelled
      | .outOfFuel => .outOfFuel
    match p.CurTok.type with
    | .If => suffixes (ParseIfExpr fuel p)
    | .While => suffixes (ParseWhileExpr fuel p)
    | .For => suffixes (ParseForExpr fuel p)
    | .In => suffixes (ParseInExpr fuel none p)
    | .Break => suffixes (.ok .BreakExpr p.getNextToken)
    | .Return => suffixes (ParseReturnExpr fuel p)
    | .Function => suffixes (ParseFunctionExpr fuel p)
    | .Continue => suffixes (.ok .ContinueExpr p.getNextToken)
    | .Identifier => suffixes (.ok (.VariableExpr p.CurTok.lexeme) p.getNextToken)
    | .Number =>
      match p.CurTok.literal with
      | .number d =>
        if |d| < doubleOverflow then suffixes (.ok (.NumberExpr d) p.getNextToken)
        else .unmodelled
      | _ => .unmodelled
    | .LParen => suffixes (ParseParenExpr fuel p)
    | .LBracket => suffixes (ParseListExpr fuel p)
    | .RParen => .failed p
    | .Boolean =>
      match p.CurTok.literal with
      | .bool b => suffixes (.ok (.BooleanExpr b) p.getNextToken)
      | _ => .unmodelled
    | .String =>
      match p.CurTok.literal with
      | .string s => suffixes (.ok (.StringExpr s) p.getNextToken)
      | _ => .unmodelled
    | .EndOfFile => .failed p
    | .Nil => suffixes (.ok .NilExpr p.getNextToken)
    | _ => .failed p

/-- The first suffix loop of `ParsePrimary`; `E` is `none` for the null pointer. -/
def primarySuffixes : Nat → Option ExprAST → Parser → PRes ExprAST
  | 0, _, _ => .outOfFuel
  | fuel + 1, E, p =>
    match p.CurTok.type with
    | .LParen =>
      match ParseCallExpr fuel E p with
      | .ok e p1 => primarySuffixes fuel (some e) p1
      | .failed p1 => primarySuffixes fuel none p1
      | .unmodelled => .unmodelled
      | .outOfFuel => .outOfFuel
    | .LBracket =>
      match ParseStringSlice fuel E p with
      | .ok e p1 => primarySuffixes fuel (some e) p1
      | .failed p1 => primarySuffixes fuel none p1
      | .unmodelled => .unmodelled
      | .outOfFuel => .outOfFuel
    | .In =>
      (ParseExpression fuel p.getNextToken).andThen (fun RHS p1 =>
        match E with
        | some e => primarySuffixes fuel (some (.InExpr e RHS)) p1
        | none => .unmodelled)
    | _ => primaryIncDec fuel E p

/-- The second suffix loop of `ParsePrimary`, over `++` and `--`, and its `return E`. -/
def primaryIncDec : Nat → Option ExprAST → Parser → PRes ExprAST
  | 0, _, _ => .outOfFuel
  | fuel + 1, E, p =>
    if p.CurTok.type = .PlusPlus ∨ p.CurTok.type = .MinusMinus then
      match E with
      | some e =>
        primaryIncDec fuel (some (.PostfixExpr (decide (p.CurTok.type = .PlusPlus)) e))
          p.getNextToken
      | none => .unmodelled
    else
      match E with
      | some e => .ok e p
      | none => .failed p

/-- The element loop of `ParseCallExpr` and of `ParseListExpr` (the same loop, up to the
closing token `closer`): an expression, then a comma that a closing token or another
expression may follow. -/
def parseElements : Nat → TokenType → Parser → List ExprAST → PRes (List ExprAST)
  | 0, _, _, _ => .outOfFuel
  | fuel + 1, closer, p, acc =>
    (ParseExpression fuel p).andThen (fun el p1 =>
      if p1.CurTok.type = .Comma then
        if p1.getNextToken.CurTok.type = closer then .ok (acc ++ [el]) p1.getNextToken
        else parseElements fuel closer p1.getNextToken (acc ++ [el])
      else .ok (acc ++ [el]) p1)

/-- The method `Parser::ParseCallExpr`; `Callee` is `none` for the null pointer. -/
def ParseCallExpr : Nat → Option ExprAST → Parser → PRes ExprAST
  | 0, _, _ => .outOfFuel
  | fuel + 1, Callee, p =>
    let p1 := p.getNextToken
    let args : PRes (List ExprAST) :=
      if p1.CurTok.type ≠ .RParen then parseElements fuel .RParen p1 [] else .ok [] p1
    args.andThen (fun Args p2 =>
      if p2.CurTok.type ≠ .RParen then .failed p2
      else
        match Callee with
        | some c => .ok (.CallExpr c Args) p2.getNextToken
        | none => .unmodelled)

/-- The method `Parser::ParseListExpr`. -/
def ParseListExpr : Nat → Parser → PRes ExprAST
  | 0, _ => .outOfFuel
  | fuel + 1, p =>
    let p1 := p.getNextToken
    let elements : PRes (List ExprAST) :=
      if p1.CurTok.type ≠ .RBracket then parseElements fuel .RBracket p1 [] else .ok [] p1
    elements.andThen (fun Elements p2 =>
      if p2.CurTok.type ≠ .RBracket then .failed p2
      else .ok (.ListExpr Elements) p2.getNextToken)

/-- The method `Parser::ParseParenExpr`. -/
def ParseParenExpr : Nat → Parser → PRes ExprAST
  | 0, _ => .outOfFuel
  | fuel + 1, p =>
    (ParseExpression fuel p.getNextToken).andThen (fun V p1 =>
      if p1.CurTok.type ≠ .RParen then .failed p1 else .ok V p1.getNextToken)

/-- The method `Parser::ParseStringSlice`; `StrExpr` is `none` for the null pointer. -/
def ParseStringSlice : Nat → Option ExprAST → Parser → PRes ExprAST
  | 0, _, _ => .outOfFuel
  | fuel + 1, StrExpr, p =>
    let p1 := p.getNextToken
    let start : PRes (Option ExprAST) :=
      if p1.CurTok.type ≠ .Colon then
        (ParseExpression fuel p1).andThen (fun e p2 => .ok (some e) p2)
      else .ok none p1
    start.andThen (fun StartExpr p2 =>
      let stop : PRes (Bool × Option ExprAST) :=
        if p2.CurTok.type = .Colon then
          let p3 := p2.getNextToken
          if p3.CurTok.type ≠ .RBracket then
            (ParseExpression fuel p3).andThen (fun e p4 => .ok (true, some e) p4)
          else .ok (true, none) p3
        else .ok (false, none) p2
      stop.andThen (fun se p5 =>
        if p5.CurTok.type ≠ .RBracket then .failed p5
        else
          match StrExpr, se.1, StartExpr with
          | none, _, _ => .unmodelled
          | some base, false, some i => .ok (.IndexExpr base i) p5.getNextToken
          | some _, false, none => .unmodelled
          | some base, true, _ => .ok (.SliceExpr base StartExpr se.2) p5.getNextToken))

/-- The method `Parser::ParseUnary`.  The `not` branch wraps its operand without testing it
for the null pointer. -/
def ParseUnary : Nat → Parser → PRes ExprAST
  | 0, _ => .outOfFuel
  | fuel + 1, p =>
    if p.CurTok.type = .Not then
      match ParseUnary fuel p.getNextToken with
      | .ok operand p1 => .ok (.UnaryExpr '!' operand) p1
      | .failed _ => .unmodelled
      | .unmodelled => .unmodelled
      | .outOfFuel => .outOfFuel
    else if p.CurTok.type = .PlusPlus ∨ p.CurTok.type = .MinusMinus then
      (ParseUnary fuel p.getNextToken).andThen (fun operand p1 =>
        .ok (.PrefixExpr (decide (p.CurTok.type = .PlusPlus)) operand) p1)
    else if p.CurTok.type = .Plus ∨ p.CurTok.type = .Minus then
      (ParseUnary fuel p.getNextToken).andThen (fun operand p1 =>
        .ok (.UnaryExpr (p.CurTok.lexeme.data.headD (Char.ofNat 0)) operand) p1)
    else ParsePrimary fuel p

/-- The method `Parser::ParseExpression`. -/
def ParseExpression : Nat → Parser → PRes ExprAST
  | 0, _ => .outOfFuel
  | fuel + 1, p =>
    (ParseUnary fuel p).andThen (fun LHS p1 =>
      if isAssignOp p1.CurTok.type then
        let op := p1.CurTok.type
        let assignLine := p1.CurTok.line
        let p2 := p1.getNextToken
        if p2.CurTok.type = .EndOfFile ∨ p2.CurTok.type = .RBracket ∨
            p2.CurTok.type = .RParen ∨ p2.CurTok.type = .Comma ∨
            p2.CurTok.type = .Semicolon then .failed p2
        else if p2.CurTok.line > assignLine then .failed p2
        else
          (ParseExpression fuel p2).andThen (fun RHS p3 =>
            match LHS with
            | .VariableExpr varName =>
              if op = .Assign then
                .ok (.AssignmentExpr varName (nameFunctionLiteral varName RHS)) p3
              else
                .ok (.CompoundAssignmentExpr op varName (nameFunctionLiteral varName RHS)) p3
            | _ => .failed p3)
      else ParseBinOpRHS fuel 0 LHS p1)

/-- The method `Parser::ParseBinOpRHS`. -/
def ParseBinOpRHS : Nat → Int → ExprAST → Parser → PRes ExprAST
  | 0, _, _, _ => .outOfFuel
  | fuel + 1, exprPrec, LHS, p =>
    let tokPrec := p.GetTokPrecedence
    if tokPrec < exprPrec then .ok LHS p
    else
      let binOp := p.CurTok.type
      (ParsePrimary fuel p.getNextToken).andThen (fun RHS p1 =>
        let nextPrec := p1.GetTokPrecedence
        let rhs : PRes ExprAST :=
          if tokPrec < nextPrec then ParseBinOpRHS fuel (tokPrec + 1) RHS p1 else .ok RHS p1
        rhs.andThen (fun RHS2 p2 =>
          ParseBinOpRHS fuel exprPrec (.BinaryExpr binOp LHS RHS2) p2))

/-- The method `Parser::ParseFunctionExpr`. -/
def ParseFunctionExpr : Nat → Parser → PRes ExprAST
  | 0, _ => .outOfFuel
  | fuel + 1, p =>
    let p1 := p.getNextToken
    if p1.CurTok.type ≠ .LParen then .failed p1
    else
      let an := parseArgNames (p1.Lex.input.length + 1) p1.getNextToken []
      if an.2.CurTok.type ≠ .RParen then .failed an.2
      else
        (ParseBlockUntil fuel .Function an.2.getNextToken).andThen (fun BlockBody p2 =>
          .ok (.FunctionLiteralExpr (.mk { Name := "", Args := an.1 } BlockBody)) p2)

/-- The `else` loop of `ParseIfExpr`: the `else if` branches and the final `else`. -/
def parseElseChain : Nat → Parser → List (ExprAST × ExprAST) →
    PRes (List (ExprAST × ExprAST) × Option ExprAST)
  | 0, _, _ => .outOfFuel
  | fuel + 1, p, elifs =>
    if p.CurTok.type = .Else then
      let p1 := p.getNextToken
      if p1.CurTok.type = .If then
        (ParseExpression fuel p1.getNextToken).andThen (fun eCond p2 =>
          if p2.CurTok.type ≠ .Then then .failed p2
          else
            (ParseExpression fuel p2.getNextToken).andThen (fun eThen p3 =>
              parseElseChain fuel p3 (elifs ++ [(eCond, eThen)])))
      else
        (ParseExpression fuel p1).andThen (fun Else p2 => .ok (elifs, some Else) p2)
    else .ok (elifs, none) p

/-- The method `Parser::ParseIfExpr`. -/
def ParseIfExpr : Nat → Parser → PRes ExprAST
  | 0, _ => .outOfFuel
  | fuel + 1, p =>
    (ParseExpression fuel p.getNextToken).andThen (fun Cond p1 =>
      if p1.CurTok.type ≠ .Then then .failed p1
      else
        (ParseExpression fuel p1.getNextToken).andThen (fun Then p2 =>
          (parseElseChain fuel p2 []).andThen (fun chain p3 =>
            if p3.CurTok.type ≠ .End then .failed p3
            else if p3.getNextToken.CurTok.type ≠ .If then .failed p3.getNextToken
            else .ok (buildIf Cond Then chain.1 chain.2) p3.getNextToken.getNextToken)))

/-- The statement loop of `ParseBlockUntil`. -/
def parseStatements : Nat → Parser → List ExprAST → PRes (List ExprAST)
  | 0, _, _ => .outOfFuel
  | fuel + 1, p, stmts =>
    if p.CurTok.type ≠ .End ∧ p.CurTok.type ≠ .EndOfFile then
      (ParseExpression fuel p).andThen (fun stmt p1 => parseStatements fuel p1 (stmts ++ [stmt]))
    else .ok stmts p

/-- The method `Parser::ParseBlockUntil` (its first parameter is not used: the loop and the
test name `TokenType::End`). -/
def ParseBlockUntil : Nat → TokenType → Parser → PRes ExprAST
  | 0, _, _ => .outOfFuel
  | fuel + 1, requiredSuffix, p =>
    (parseStatements fuel p []).andThen (fun stmts p1 =>
      if p1.CurTok.type ≠ .End then .failed p1
      else if p1.getNextToken.CurTok.type ≠ requiredSuffix then .failed p1.getNextToken
      else .ok (.BlockExpr stmts) p1.getNextToken.getNextToken)

/-- The method `Parser::ParseWhileExpr`. -/
def ParseWhileExpr : Nat → Parser → PRes ExprAST
  | 0, _ => .outOfFuel
  | fuel + 1, p =>
    (ParseExpression fuel p.getNextToken).andThen (fun Cond p1 =>
      (ParseBlockUntil fuel .While p1).andThen (fun Body p2 => .ok (.WhileExpr Cond Body) p2))

/-- The method `Parser::ParseForExpr`. -/
def ParseForExpr : Nat → Parser → PRes ExprAST
  | 0, _ => .outOfFuel
  | fuel + 1, p =>
    let p1 := p.getNextToken
    if p1.CurTok.type ≠ .Identifier then .failed p1
    else
      let p2 := skipSemicolons (p1.Lex.input.length + 1) p1.getNextToken
      if p2.CurTok.type ≠ .In then .failed p2
      else
        (ParseExpression fuel p2.getNextToken).andThen (fun SeqExpr p3 =>
          (ParseBlockUntil fuel .For p3).andThen (fun Body p4 =>
            .ok (.ForExpr p1.CurTok.lexeme SeqExpr Body) p4))

/-- The method `Parser::ParseInExpr`; `LHS` is `none` for the null pointer. -/
def ParseInExpr : Nat → Option ExprAST → Parser → PRes ExprAST
  | 0, _, _ => .outOfFuel
  | fuel + 1, LHS, p =>
    (ParseExpression fuel p.getNextToken).andThen (fun RHS p1 =>
      match LHS with
      | some l => .ok (.InExpr l RHS) p1
      | none => .unmodelled)

/-- The method `Parser::ParseReturnExpr`. -/
def ParseReturnExpr : Nat → Parser → PRes ExprAST
  | 0, _ => .outOfFuel
  | fuel + 1, p =>
    (ParseExpression fuel p.getNextToken).andThen (fun retExpr p1 => .ok (.ReturnExpr retExpr) p1)

end

/-- The method `Parser::ParseDefinition`, with `ParsePrototype` inlined. -/
def ParseDefinition (fuel : Nat) (p : Parser) : PRes FunctionAST :=
  let p1 := p.getNextToken
  if p1.CurTok.type ≠ .Identifier then .failed p1
  else
    let p2 := p1.getNextToken
    if p2.CurTok.type ≠ .LParen then .failed p2
    else
      let an := parseArgNames (p2.Lex.input.length + 1) p2.getNextToken []
      if an.2.CurTok.type ≠ .RParen then .failed an.2
      else
        (ParseBlockUntil fuel .Function an.2.getNextToken).andThen (fun BlockBody p3 =>
          .ok (.mk { Name := p1.CurTok.lexeme, Args := an.1 } BlockBody) p3)

/-- The method `Parser::ParseTopLevelExpr`. -/
def ParseTopLevelExpr (fuel : Nat) (p : Parser) : PRes FunctionAST :=
  (ParseExpression fuel p).andThen (fun E p1 =>
    .ok (.mk { Name := "__anon_expr", Args := [] } E) p1)

/-- The method `Parser::parseModule`: `ok` with the parsed functions for `true`, `failed` for
`false`.  The loop ends as soon as the current token has the tag `EndOfFile`. -/
def parseModule : Nat → Parser → List FunctionAST → PRes (List FunctionAST)
  | 0, _, _ => .outOfFuel
  | fuel + 1, p, Out =>
    if p.CurTok.type ≠ .EndOfFile then
      if p.CurTok.type = .Function then
        (ParseDefinition fuel p).andThen (fun Fn p1 => parseModule fuel p1 (Out ++ [Fn]))
      else
        (ParseTopLevelExpr fuel p).andThen (fun Fn p1 => parseModule fuel p1 (Out ++ [Fn]))
    else .ok Out p

/-- The function `interpret` on the program text: `parseModule`, and `return false` before
anything is evaluated when it fails; else `interpret` on the parsed functions. -/
def interpretText (H : Host) (fuel : Nat) (text : String) : Option (InterpretResult × State) :=
  match parseModule fuel (Parser.start text) [] with
  | .ok functions _ => interpret H fuel functions
  | .failed _ => some (.returned false, initialState H)
  | .unmodelled => some (.escaped (.outsideModel "parser left the model"), initialState H)
  | .outOfFuel => none

/-- A host whose catalogue holds the builtin `print` of `registerBuiltins`:
`for (auto& v : args) out << v.toString();`.  A rendering that needs more steps than there are
list cells does not return. -/
def printHost (fmt : ℚ → String) : Host :=
  { builtinFn := fun name args _ ls out =>
      if name = "print" then
        match args.mapM (Value.toString fmt ls (ls.length + 2)) with
        | some texts => (.value .nil, ls, out ++ String.join texts)
        | none => (.outsideModel "rendering does not return", ls, out)
      else (.error "no such builtin", ls, out)
    builtinNames := ["print"]
    pow := fun _ _ => 0 }

/-! # Theorems -/

/-! ## Rounding to `double` -/

theorem pow2_eq (e : ℤ) : pow2 e = (2 : ℚ) ^ e := by
  unfold pow2
  split_ifs with h
  · obtain ⟨k, rfl⟩ := Int.eq_ofNat_of_zero_le h
    simp
  · have h2 : 0 ≤ -e := by omega
    obtain ⟨k, hk⟩ := Int.eq_ofNat_of_zero_le h2
    have he : e = -(k : ℤ) := by omega
    subst he
    simp

theorem pow2_pos (e : ℤ) : 0 < pow2 e := by
  rw [pow2_eq]
  positivity

theorem log2Fuel_spec : ∀ (fuel n : Nat), n ≤ fuel → 0 < n →
    2 ^ log2Fuel fuel n ≤ n ∧ n < 2 ^ (log2Fuel fuel n + 1) := by
  intro fuel
  induction fuel with
  | zero => intro n h1 h2; omega
  | succ f ih =>
    intro n h1 h2
    unfold log2Fuel
    split_ifs with h
    · constructor <;> simp <;> omega
    · have hn : n / 2 ≤ f := by omega
      have hp : 0 < n / 2 := by omega
      obtain ⟨a, b⟩ := ih (n / 2) hn hp
      constructor
      · rw [pow_succ]
        omega
      · rw [pow_succ]
        omega

theorem natLog2_spec (n : Nat) (h : 0 < n) :
    2 ^ natLog2 n ≤ n ∧ n < 2 ^ (natLog2 n + 1) :=
  log2Fuel_spec n n le_rfl h

theorem abs_eq_natAbs_div (x : ℚ) : |x| = (x.num.natAbs : ℚ) / (x.den : ℚ) := by
  have h := Rat.num_div_den x
  have hd : (0 : ℚ) < x.den := by exact_mod_cast x.den_pos
  conv_lhs => rw [← h]
  rw [abs_div, abs_of_pos hd]
  congr 1
  rw [← Int.cast_abs, Int.abs_eq_natAbs]
  exact Int.cast_natCast _

/-- The binary exponent brackets the magnitude. -/
theorem binaryExponent_spec (x : ℚ) (hx : x ≠ 0) :
    (2 : ℚ) ^ binaryExponent x ≤ |x| ∧ |x| < (2 : ℚ) ^ (binaryExponent x + 1) := by
  have ha : 0 < x.num.natAbs := Int.natAbs_pos.mpr (Rat.num_ne_zero.mpr hx)
  have hb : 0 < x.den := x.den_pos
  obtain ⟨a1, a2⟩ := natLog2_spec _ ha
  obtain ⟨b1, b2⟩ := natLog2_spec _ hb
  have habs := abs_eq_natAbs_div x
  have hbq : (0 : ℚ) < x.den := by exact_mod_cast hb
  have a1q : (2 : ℚ) ^ natLog2 x.num.natAbs ≤ x.num.natAbs := by exact_mod_cast a1
  have a2q : (x.num.natAbs : ℚ) < 2 ^ (natLog2 x.num.natAbs + 1) := by exact_mod_cast a2
  have b1q : (2 : ℚ) ^ natLog2 x.den ≤ x.den := by exact_mod_cast b1
  have b2q : (x.den : ℚ) < 2 ^ (natLog2 x.den + 1) := by exact_mod_cast b2
  have h2 : (0 : ℚ) < 2 := by norm_num
  unfold binaryExponent
  simp only [pow2_eq]
  split_ifs with h
  · refine ⟨h, ?_⟩
    rw [habs, div_lt_iff₀ hbq]
    have e1 : (2 : ℚ) ^ ((natLog2 x.num.natAbs : ℤ) - (natLog2 x.den : ℤ) + 1) =
        2 ^ (natLog2 x.num.natAbs + 1) / 2 ^ natLog2 x.den := by
      rw [show ((natLog2 x.num.natAbs : ℤ) - (natLog2 x.den : ℤ) + 1) =
        ((natLog2 x.num.natAbs + 1 : ℕ) : ℤ) - (natLog2 x.den : ℤ) by push_cast; ring]
      rw [zpow_sub₀ (by norm_num), zpow_natCast, zpow_natCast]
    rw [e1, div_mul_eq_mul_div, lt_div_iff₀ (by positivity)]
    calc (x.num.natAbs : ℚ) * 2 ^ natLog2 x.den
        < 2 ^ (natLog2 x.num.natAbs + 1) * 2 ^ natLog2 x.den := by
          apply mul_lt_mul_of_pos_right a2q (by positivity)
      _ ≤ 2 ^ (natLog2 x.num.natAbs + 1) * x.den := by
          apply mul_le_mul_of_nonneg_left b1q (by positivity)
  · constructor
    · rw [habs, le_div_iff₀ hbq]
      have e1 : (2 : ℚ) ^ ((natLog2 x.num.natAbs : ℤ) - (natLog2 x.den : ℤ) - 1) =
          2 ^ natLog2 x.num.natAbs / 2 ^ (natLog2 x.den + 1) := by
        rw [show ((natLog2 x.num.natAbs : ℤ) - (natLog2 x.den : ℤ) - 1) =
          ((natLog2 x.num.natAbs : ℕ) : ℤ) - ((natLog2 x.den + 1 : ℕ) : ℤ) by push_cast; ring]
        rw [zpow_sub₀ (by norm_num), zpow_natCast, zpow_natCast]
      rw [e1, div_mul_eq_mul_div, div_le_iff₀ (by positivity)]
      calc (2 : ℚ) ^ natLog2 x.num.natAbs * x.den
          ≤ 2 ^ natLog2 x.num.natAbs * 2 ^ (natLog2 x.den + 1) := by
            apply mul_le_mul_of_nonneg_left b2q.le (by positivity)
        _ ≤ x.num.natAbs * 2 ^ (natLog2 x.den + 1) := by
            apply mul_le_mul_of_nonneg_right a1q (by positivity)
    · rw [sub_add_cancel]
      exact not_le.mp h

/-- The binary exponent is the only integer that brackets the magnitude. -/
theorem binaryExponent_unique (x : ℚ) (e : ℤ) (h1 : (2 : ℚ) ^ e ≤ |x|)
    (h2 : |x| < (2 : ℚ) ^ (e + 1)) : binaryExponent x = e := by
  have hx : x ≠ 0 := by
    intro h
    rw [h, abs_zero] at h1
    exact absurd h1 (not_le.mpr (by positivity))
  obtain ⟨s1, s2⟩ := binaryExponent_spec x hx
  have l1 : binaryExponent x < e + 1 :=
    (zpow_lt_zpow_iff_right₀ (by norm_num : (1 : ℚ) < 2)).mp (lt_of_le_of_lt s1 h2)
  have l2 : e < binaryExponent x + 1 :=
    (zpow_lt_zpow_iff_right₀ (by norm_num : (1 : ℚ) < 2)).mp (lt_of_le_of_lt h1 s2)
  omega

theorem ratFloor_eq (m : ℚ) : Rat.floor m = ⌊m⌋ := rfl

theorem roundHalfEven_bounds (m : ℚ) : ⌊m⌋ ≤ roundHalfEven m ∧ roundHalfEven m ≤ ⌊m⌋ + 1 := by
  unfold roundHalfEven
  simp only [ratFloor_eq]
  split_ifs <;> constructor <;> omega

theorem roundHalfEven_intCast (k : ℤ) : roundHalfEven (k : ℚ) = k := by
  unfold roundHalfEven
  simp only [ratFloor_eq, Int.floor_intCast, sub_self]
  norm_num

theorem roundHalfEven_le_of_le (m : ℚ) (N : ℤ) (h : m ≤ N) : roundHalfEven m ≤ N := by
  have hf : ⌊m⌋ ≤ N := Int.floor_le_iff.mpr (lt_of_le_of_lt h (by norm_num))
  rcases hf.lt_or_eq with hlt | heq
  · have := (roundHalfEven_bounds m).2
    omega
  · have hm : m = N := le_antisymm h (by rw [← heq]; exact Int.floor_le m)
    rw [hm, roundHalfEven_intCast]

theorem roundHalfEven_ge_of_le (m : ℚ) (N : ℤ) (h : (N : ℚ) ≤ m) : N ≤ roundHalfEven m :=
  le_trans (Int.le_floor.mpr h) (roundHalfEven_bounds m).1

/-- The quantum of the binade of `x`: the distance between neighbouring doubles there. -/
theorem roundDouble_def (x : ℚ) (hx : x ≠ 0) :
    roundDouble x = roundHalfEven (x / 2 ^ (max (binaryExponent x) (-1022) - 52)) *
      2 ^ (max (binaryExponent x) (-1022) - 52) := by
  unfold roundDouble
  rw [if_neg hx, pow2_eq]

theorem roundDouble_zero : roundDouble 0 = 0 := by
  unfold roundDouble
  rw [if_pos rfl]

/-- The rounding at a known binary exponent. -/
theorem roundDouble_of_exponent (x : ℚ) (e : ℤ) (h1 : (2 : ℚ) ^ e ≤ |x|)
    (h2 : |x| < (2 : ℚ) ^ (e + 1)) (he : -1022 ≤ e) :
    roundDouble x = roundHalfEven (x / 2 ^ (e - 52)) * 2 ^ (e - 52) := by
  have hx : x ≠ 0 := by
    intro h
    rw [h, abs_zero] at h1
    exact absurd h1 (not_le.mpr (by positivity))
  rw [roundDouble_def x hx, binaryExponent_unique x e h1 h2, max_eq_left he]

theorem roundDouble_nonneg (x : ℚ) (h : 0 ≤ x) : 0 ≤ roundDouble x := by
  by_cases hx : x = 0
  · rw [hx, roundDouble_zero]
  · rw [roundDouble_def x hx]
    apply mul_nonneg _ (by positivity)
    have : (0 : ℤ) ≤ roundHalfEven (x / 2 ^ (max (binaryExponent x) (-1022) - 52)) :=
      roundHalfEven_ge_of_le _ 0 (by simp only [Int.cast_zero]; positivity)
    exact_mod_cast this

theorem roundDouble_nonpos (x : ℚ) (h : x ≤ 0) : roundDouble x ≤ 0 := by
  by_cases hx : x = 0
  · rw [hx, roundDouble_zero]
  · rw [roundDouble_def x hx]
    apply mul_nonpos_of_nonpos_of_nonneg _ (by positivity)
    have : roundHalfEven (x / 2 ^ (max (binaryExponent x) (-1022) - 52)) ≤ (0 : ℤ) :=
      roundHalfEven_le_of_le _ 0 (by
        simp only [Int.cast_zero]
        exact div_nonpos_of_nonpos_of_nonneg h (by positivity))
    exact_mod_cast this

/-- A number `k * 2^t` with `|k| < 2^53` and `t` not below the least exponent is a `double`:
rounding leaves it as it is. -/
theorem roundDouble_representable (k t : ℤ) (hk : |k| < 2 ^ 53) (ht : -1074 ≤ t) :
    roundDouble ((k : ℚ) * 2 ^ t) = (k : ℚ) * 2 ^ t := by
  by_cases hk0 : k = 0
  · rw [hk0]
    simp [roundDouble_zero]
  have hx : (k : ℚ) * 2 ^ t ≠ 0 := by
    apply mul_ne_zero
    · exact_mod_cast hk0
    · positivity
  rw [roundDouble_def _ hx]
  obtain ⟨s1, _⟩ := binaryExponent_spec _ hx
  generalize binaryExponent ((k : ℚ) * 2 ^ t) = e at s1
  have habs : |(k : ℚ) * 2 ^ t| < 2 ^ (53 + t) := by
    rw [abs_mul, abs_of_pos (by positivity : (0 : ℚ) < 2 ^ t), zpow_add₀ (by norm_num)]
    apply mul_lt_mul_of_pos_right _ (by positivity)
    have : ((|k| : ℤ) : ℚ) < ((2 ^ 53 : ℤ) : ℚ) := by exact_mod_cast hk
    rw [Int.cast_abs] at this
    rw [show ((53 : ℤ)) = ((53 : ℕ) : ℤ) from rfl, zpow_natCast]
    exact_mod_cast this
  have he : e < 53 + t :=
    (zpow_lt_zpow_iff_right₀ (by norm_num : (1 : ℚ) < 2)).mp (lt_of_le_of_lt s1 habs)
  have hE : max e (-1022) - 52 ≤ t := by
    rcases max_cases e (-1022) with ⟨h, _⟩ | ⟨h, _⟩ <;> rw [h] <;> omega
  generalize max e (-1022) - 52 = E at hE
  obtain ⟨n, hn⟩ := Int.eq_ofNat_of_zero_le (sub_nonneg.mpr hE)
  have ht2 : t = E + n := by omega
  have hdiv : (k : ℚ) * 2 ^ t / 2 ^ E = ((k * 2 ^ n : ℤ) : ℚ) := by
    rw [ht2, zpow_add₀ (by norm_num), zpow_natCast]
    push_cast
    field_simp
    ring
  rw [hdiv, roundHalfEven_intCast, ht2, zpow_add₀ (by norm_num), zpow_natCast]
  push_cast
  ring

theorem roundDouble_intCast (k : ℤ) (hk : |k| < 2 ^ 53) : roundDouble (k : ℚ) = k := by
  have := roundDouble_representable k 0 hk (by norm_num)
  simpa using this

theorem roundDouble_natCast (k : ℕ) (hk : k ≤ 2 ^ 53) : roundDouble (k : ℚ) = k := by
  rcases hk.lt_or_eq with h | h
  · have := roundDouble_intCast (k : ℤ) (by rw [abs_of_nonneg (by positivity)]; exact_mod_cast h)
    simpa using this
  · have := roundDouble_representable (2 ^ 52) 1 (by norm_num) (by norm_num)
    rw [h]
    norm_num at this ⊢
    exact this

/-- Rounding does not pass a natural number up to `2^53`. -/
theorem roundDouble_le_natCast (x : ℚ) (K : ℕ) (hK : K ≤ 2 ^ 53) (h : x ≤ K) :
    roundDouble x ≤ K := by
  rcases le_or_lt x 0 with h0 | h0
  · exact le_trans (roundDouble_nonpos x h0) (by positivity)
  have hx : x ≠ 0 := ne_of_gt h0
  obtain ⟨s1, _⟩ := binaryExponent_spec x hx
  rw [abs_of_pos h0] at s1
  have hKq : (K : ℚ) ≤ 2 ^ (53 : ℤ) := by
    rw [show ((53 : ℤ)) = ((53 : ℕ) : ℤ) from rfl, zpow_natCast]
    exact_mod_cast hK
  have he : binaryExponent x ≤ 53 :=
    (zpow_le_zpow_iff_right₀ (by norm_num : (1 : ℚ) < 2)).mp (le_trans s1 (le_trans h hKq))
  rcases le_or_lt (max (binaryExponent x) (-1022)) 52 with hM | hM
  · rw [roundDouble_def x hx]
    generalize max (binaryExponent x) (-1022) = M at hM
    obtain ⟨n, hn⟩ := Int.eq_ofNat_of_zero_le (sub_nonneg.mpr hM)
    have hE : M - 52 = -(n : ℤ) := by omega
    rw [hE, zpow_neg, zpow_natCast]
    have hdiv : x / (2 ^ n)⁻¹ ≤ ((K * 2 ^ n : ℤ) : ℚ) := by
      rw [div_inv_eq_mul]
      push_cast
      exact mul_le_mul_of_nonneg_right h (by positivity)
    have hr := roundHalfEven_le_of_le _ _ hdiv
    have hrq : (roundHalfEven (x / (2 ^ n)⁻¹) : ℚ) ≤ ((K * 2 ^ n : ℤ) : ℚ) := by
      exact_mod_cast hr
    calc (roundHalfEven (x / (2 ^ n)⁻¹) : ℚ) * (2 ^ n)⁻¹
        ≤ ((K * 2 ^ n : ℤ) : ℚ) * (2 ^ n)⁻¹ :=
          mul_le_mul_of_nonneg_right hrq (by positivity)
      _ = K := by
          push_cast
          field_simp
  · have he53 : binaryExponent x = 53 := by
      rcases max_cases (binaryExponent x) (-1022) with ⟨h1, _⟩ | ⟨h1, _⟩ <;> rw [h1] at hM <;> omega
    rw [he53] at s1
    have hxK : x = K := le_antisymm h (le_trans hKq s1)
    have hK2 : (K : ℚ) = 2 ^ (53 : ℤ) := le_antisymm hKq (hxK ▸ s1)
    rw [hxK, roundDouble_natCast K hK]

/-- Rounding does not pass the negative of a natural number up to `2^53`. -/
theorem roundDouble_ge_neg_natCast (x : ℚ) (K : ℕ) (hK : K ≤ 2 ^ 53) (h : -(K : ℚ) ≤ x) :
    -(K : ℚ) ≤ roundDouble x := by
  rcases le_or_lt 0 x with h0 | h0
  · exact le_trans (by simp) (roundDouble_nonneg x h0)
  have hx : x ≠ 0 := ne_of_lt h0
  obtain ⟨s1, _⟩ := binaryExponent_spec x hx
  rw [abs_of_neg h0] at s1
  have hKq : (K : ℚ) ≤ 2 ^ (53 : ℤ) := by
    rw [show ((53 : ℤ)) = ((53 : ℕ) : ℤ) from rfl, zpow_natCast]
    exact_mod_cast hK
  have hxK : -x ≤ K := by linarith
  have he : binaryExponent x ≤ 53 :=
    (zpow_le_zpow_iff_right₀ (by norm_num : (1 : ℚ) < 2)).mp (le_trans s1 (le_trans hxK hKq))
  rcases le_or_lt (max (binaryExponent x) (-1022)) 52 with hM | hM
  · rw [roundDouble_def x hx]
    generalize max (binaryExponent x) (-1022) = M at hM
    obtain ⟨n, hn⟩ := Int.eq_ofNat_of_zero_le (sub_nonneg.mpr hM)
    have hE : M - 52 = -(n : ℤ) := by omega
    rw [hE, zpow_neg, zpow_natCast]
    have hdiv : ((-(K * 2 ^ n) : ℤ) : ℚ) ≤ x / (2 ^ n)⁻¹ := by
      rw [div_inv_eq_mul]
      push_cast
      have := mul_le_mul_of_nonneg_right h (by positivity : (0 : ℚ) ≤ 2 ^ n)
      linarith
    have hr := roundHalfEven_ge_of_le _ _ hdiv
    have hrq : ((-(K * 2 ^ n) : ℤ) : ℚ) ≤ (roundHalfEven (x / (2 ^ n)⁻¹) : ℚ) := by
      exact_mod_cast hr
    calc -(K : ℚ) = ((-(K * 2 ^ n) : ℤ) : ℚ) * (2 ^ n)⁻¹ := by
          push_cast
          field_simp
      _ ≤ (roundHalfEven (x / (2 ^ n)⁻¹) : ℚ) * (2 ^ n)⁻¹ :=
          mul_le_mul_of_nonneg_right hrq (by positivity)
  · have he53 : binaryExponent x = 53 := by
      rcases max_cases (binaryExponent x) (-1022) with ⟨h1, _⟩ | ⟨h1, _⟩ <;> rw [h1] at hM <;> omega
    rw [he53] at s1
    have hxK2 : x = -(K : ℚ) := le_antisymm (by linarith [le_trans hKq s1]) h
    have hKeq : K = 2 ^ 53 := by
      have : (K : ℚ) = 2 ^ (53 : ℤ) := le_antisymm hKq (by rw [hxK2] at s1; simpa using s1)
      rw [show ((53 : ℤ)) = ((53 : ℕ) : ℤ) from rfl, zpow_natCast] at this
      exact_mod_cast this
    have := roundDouble_representable (-2 ^ 52) 1 (by norm_num) (by norm_num)
    rw [hxK2, hKeq]
    norm_num at this ⊢
    rw [this]

/-! ## Properties of the map operations -/

theorem mapFind_mapAssign_same (m : List (String × Value)) (name : String) (v : Value) :
    mapFind (mapAssign m name v) name = some v := by
  induction m with
  | nil => simp [mapAssign, mapFind]
  | cons kv rest ih =>
    obtain ⟨k, w⟩ := kv
    by_cases h : k = name
    · simp [mapAssign, mapFind, h]
    · simp [mapAssign, mapFind, h, ih]

theorem mapFind_mapAssign_other (m : List (String × Value)) (name other : String) (v : Value)
    (h : other ≠ name) : mapFind (mapAssign m name v) other = mapFind m other := by
  induction m with
  | nil =>
    have h2 : ¬ name = other := fun e => h e.symm
    simp [mapAssign, mapFind, h2]
  | cons kv rest ih =>
    obtain ⟨k, w⟩ := kv
    by_cases hk : k = name
    · subst hk
      have h2 : ¬ k = other := fun e => h e.symm
      simp [mapAssign, mapFind, h2]
    · by_cases hk2 : k = other
      · subst hk2
        simp [mapAssign, mapFind, h]
      · simp [mapAssign, mapFind, hk, hk2, ih]

/-! ## Properties of `Environment::get` and `Environment::set` -/

theorem binds_eq_isSome (frames : List Environment) (j : Nat) (name : String) :
    binds frames j name = (boundValue frames j name).isSome := by
  unfold binds boundValue
  cases frames[j]? <;> rfl

/-- With enough fuel, `get` finds the first frame of the chain that binds the name. -/
theorem getAux_eq_find (frames : List Environment) (name : String) (hwf : WellFormed frames) :
    ∀ (fuel i : Nat), i < fuel → i < frames.length →
      Environment.getAux frames fuel i name =
        match (Environment.chain frames fuel i).find? (fun j => binds frames j name) with
        | some t => (boundValue frames t name).map Except.ok
        | none => some (.error ("Undefined variable '" ++ name ++ "'")) := by
  intro fuel
  induction fuel with
  | zero => intro i h; omega
  | succ fuel ih =>
    intro i hif hil
    have hfr : frames[i]? = some frames[i] := List.getElem?_eq_getElem hil
    cases hm : mapFind frames[i].vars_ name with
    | some w =>
      have hb : binds frames i name = true := by simp [binds, hfr, hm]
      have hv : boundValue frames i name = some w := by simp [boundValue, hfr, hm]
      cases hp : frames[i].parent with
      | none => simp [Environment.getAux, Environment.chain, hfr, hm, hp, hb, hv]
      | some p => simp [Environment.getAux, Environment.chain, hfr, hm, hp, hb, hv]
    | none =>
      have hb : binds frames i name = false := by simp [binds, hfr, hm]
      cases hp : frames[i].parent with
      | none => simp [Environment.getAux, Environment.chain, hfr, hm, hp, hb]
      | some p =>
        have hlt : p < i := hwf i frames[i] hfr p hp
        have := ih p (by omega) (by omega)
        simp [Environment.getAux, Environment.chain, hfr, hm, hp, hb, this]

theorem chain_fuel (frames : List Environment) (hwf : WellFormed frames) :
    ∀ (fuel1 fuel2 i : Nat), i < fuel1 → i < fuel2 →
      Environment.chain frames fuel1 i = Environment.chain frames fuel2 i := by
  intro fuel1
  induction fuel1 with
  | zero => intro fuel2 i h; omega
  | succ fuel1 ih =>
    intro fuel2 i h1 h2
    cases fuel2 with
    | zero => omega
    | succ fuel2 =>
      cases hfr : frames[i]? with
      | none => simp [Environment.chain, hfr]
      | some fr =>
        cases hp : fr.parent with
        | none => simp [Environment.chain, hfr, hp]
        | some p =>
          have hlt : p < i := hwf i fr hfr p hp
          simp [Environment.chain, hfr, hp, ih fuel2 p (by omega) (by omega)]

theorem getAux_fuel (frames : List Environment) (name : String) (hwf : WellFormed frames) :
    ∀ (fuel1 fuel2 i : Nat), i < fuel1 → i < fuel2 →
      Environment.getAux frames fuel1 i name = Environment.getAux frames fuel2 i name := by
  intro fuel1
  induction fuel1 with
  | zero => intro fuel2 i h; omega
  | succ fuel1 ih =>
    intro fuel2 i h1 h2
    cases fuel2 with
    | zero => omega
    | succ fuel2 =>
      cases hfr : frames[i]? with
      | none => simp [Environment.getAux, hfr]
      | some fr =>
        cases hm : mapFind fr.vars_ name with
        | some w => simp [Environment.getAux, hfr, hm]
        | none =>
          cases hp : fr.parent with
          | none => simp [Environment.getAux, hfr, hm, hp]
          | some p =>
            have hlt : p < i := hwf i fr hfr p hp
            simp [Environment.getAux, hfr, hm, hp, ih fuel2 p (by omega) (by omega)]

theorem setAux_fuel (frames : List Environment) (name : String) (v : Value)
    (hwf : WellFormed frames) :
    ∀ (fuel1 fuel2 i : Nat), i < fuel1 → i < fuel2 →
      Environment.setAux frames fuel1 i name v = Environment.setAux frames fuel2 i name v := by
  intro fuel1
  induction fuel1 with
  | zero => intro fuel2 i h; omega
  | succ fuel1 ih =>
    intro fuel2 i h1 h2
    cases fuel2 with
    | zero => omega
    | succ fuel2 =>
      cases hfr : frames[i]? with
      | none => simp [Environment.setAux, hfr]
      | some fr =>
        cases hm : mapFind fr.vars_ name with
        | some w => simp [Environment.setAux, hfr, hm]
        | none =>
          cases hp : fr.parent with
          | none => simp [Environment.setAux, hfr, hm, hp]
          | some p =>
            have hlt : p < i := hwf i fr hfr p hp
            simp [Environment.setAux, hfr, hm, hp, ih fuel2 p (by omega) (by omega),
              getAux_fuel frames name hwf fuel1 fuel2 p (by omega) (by omega)]

/-! ### One step of `get`, `set` and of the chain -/

theorem get_bound (frames : List Environment) (i : Nat) (name : String) (fr : Environment)
    (v : Value) (hfr : frames[i]? = some fr) (hm : mapFind fr.vars_ name = some v) :
    Environment.get frames i name = some (.ok v) := by
  simp [Environment.get, Environment.getAux, hfr, hm]

theorem get_root (frames : List Environment) (i : Nat) (name : String) (fr : Environment)
    (hfr : frames[i]? = some fr) (hm : mapFind fr.vars_ name = none) (hp : fr.parent = none) :
    Environment.get frames i name = some (.error ("Undefined variable '" ++ name ++ "'")) := by
  simp [Environment.get, Environment.getAux, hfr, hm, hp]

theorem get_parent (frames : List Environment) (hwf : WellFormed frames) (i p : Nat)
    (name : String) (fr : Environment) (hfr : frames[i]? = some fr)
    (hm : mapFind fr.vars_ name = none) (hp : fr.parent = some p) :
    Environment.get frames i name = Environment.get frames p name := by
  have hlt : p < i := hwf i fr hfr p hp
  simp [Environment.get, Environment.getAux, hfr, hm, hp]
  exact getAux_fuel frames name hwf i (p + 1) p hlt (by omega)

theorem set_bound (frames : List Environment) (i : Nat) (name : String) (fr : Environment)
    (v w : Value) (hfr : frames[i]? = some fr) (hm : mapFind fr.vars_ name = some w) :
    Environment.set frames i name v = some (writeAt frames i name v) := by
  simp [Environment.set, Environment.setAux, writeAt, hfr, hm]

theorem set_root (frames : List Environment) (i : Nat) (name : String) (fr : Environment)
    (v : Value) (hfr : frames[i]? = some fr) (hm : mapFind fr.vars_ name = none)
    (hp : fr.parent = none) :
    Environment.set frames i name v = some (writeAt frames i name v) := by
  simp [Environment.set, Environment.setAux, writeAt, hfr, hm, hp]

theorem set_parent_bound (frames : List Environment) (hwf : WellFormed frames) (i p : Nat)
    (name : String) (fr : Environment) (v w : Value) (hfr : frames[i]? = some fr)
    (hm : mapFind fr.vars_ name = none) (hp : fr.parent = some p)
    (hg : Environment.get frames p name = some (.ok w)) :
    Environment.set frames i name v = Environment.set frames p name v := by
  have hlt : p < i := hwf i fr hfr p hp
  have hg2 : Environment.getAux frames i p name = some (.ok w) := by
    rw [getAux_fuel frames name hwf i (p + 1) p hlt (by omega)]; exact hg
  simp [Environment.set, Environment.setAux, hfr, hm, hp, hg2]
  exact setAux_fuel frames name v hwf i (p + 1) p hlt (by omega)

theorem set_parent_unbound (frames : List Environment) (hwf : WellFormed frames) (i p : Nat)
    (name : String) (fr : Environment) (v : Value) (what : String)
    (hfr : frames[i]? = some fr)
    (hm : mapFind fr.vars_ name = none) (hp : fr.parent = some p)
    (hg : Environment.get frames p name = some (.error what)) :
    Environment.set frames i name v = some (writeAt frames i name v) := by
  have hlt : p < i := hwf i fr hfr p hp
  have hg2 : Environment.getAux frames i p name = some (.error what) := by
    rw [getAux_fuel frames name hwf i (p + 1) p hlt (by omega)]; exact hg
  simp [Environment.set, Environment.setAux, writeAt, hfr, hm, hp, hg2]

theorem chainOf_root (frames : List Environment) (i : Nat) (fr : Environment)
    (hfr : frames[i]? = some fr) (hp : fr.parent = none) : chainOf frames i = [i] := by
  simp [chainOf, Environment.chain, hfr, hp]

theorem chainOf_parent (frames : List Environment) (hwf : WellFormed frames) (i p : Nat)
    (fr : Environment) (hfr : frames[i]? = some fr) (hp : fr.parent = some p) :
    chainOf frames i = i :: chainOf frames p := by
  have hlt : p < i := hwf i fr hfr p hp
  simp [chainOf, Environment.chain, hfr, hp]
  exact chain_fuel frames hwf i (p + 1) p hlt (by omega)

theorem get_eq_innermost (frames : List Environment) (hwf : WellFormed frames) (i : Nat)
    (name : String) (hi : i < frames.length) :
    Environment.get frames i name =
      match innermostBinder frames i name with
      | some t => (boundValue frames t name).map Except.ok
      | none => some (.error ("Undefined variable '" ++ name ++ "'")) :=
  getAux_eq_find frames name hwf (i + 1) i (by omega) hi

/-! ### Properties of `writeAt` -/

theorem writeAt_length (frames : List Environment) (t : Nat) (name : String) (v : Value) :
    (writeAt frames t name v).length = frames.length := by
  unfold writeAt
  cases frames[t]? <;> simp

theorem writeAt_getElem_ne (frames : List Environment) (t j : Nat) (name : String) (v : Value)
    (h : j ≠ t) : (writeAt frames t name v)[j]? = frames[j]? := by
  unfold writeAt
  cases frames[t]? with
  | none => rfl
  | some fr => simp [List.getElem?_set_ne (Ne.symm h)]

theorem writeAt_getElem_self (frames : List Environment) (t : Nat) (name : String) (v : Value)
    (fr : Environment) (h : frames[t]? = some fr) :
    (writeAt frames t name v)[t]? = some { fr with vars_ := mapAssign fr.vars_ name v } := by
  have hlt : t < frames.length := by
    rcases List.getElem?_eq_some_iff.mp h with ⟨hl, _⟩
    exact hl
  simp [writeAt, h, hlt]

theorem writeAt_parent (frames : List Environment) (t j : Nat) (name : String) (v : Value) :
    ((writeAt frames t name v)[j]?).map (fun fr => fr.parent) =
      (frames[j]?).map (fun fr => fr.parent) := by
  by_cases h : j = t
  · subst h
    cases hfr : frames[j]? with
    | none => simp [writeAt, hfr]
    | some fr => simp [writeAt_getElem_self frames j name v fr hfr]
  · rw [writeAt_getElem_ne frames t j name v h]

theorem writeAt_boundValue_self (frames : List Environment) (t : Nat) (name : String) (v : Value)
    (ht : t < frames.length) : boundValue (writeAt frames t name v) t name = some v := by
  have hfr : frames[t]? = some frames[t] := List.getElem?_eq_getElem ht
  simp [boundValue, writeAt_getElem_self frames t name v _ hfr, mapFind_mapAssign_same]

theorem writeAt_boundValue_other (frames : List Environment) (t j : Nat) (name n : String)
    (v : Value) (h : j ≠ t ∨ n ≠ name) :
    boundValue (writeAt frames t name v) j n = boundValue frames j n := by
  by_cases hj : j = t
  · subst hj
    have hn : n ≠ name := by
      rcases h with h | h
      · exact absurd rfl h
      · exact h
    cases hfr : frames[j]? with
    | none => simp [boundValue, writeAt, hfr]
    | some fr =>
      simp [boundValue, writeAt_getElem_self frames j name v fr hfr, hfr,
        mapFind_mapAssign_other _ _ _ _ hn]
  · simp [boundValue, writeAt_getElem_ne frames t j name v hj]

/-- Frames that agree on every parent pointer have the same chains. -/
theorem chain_congr (frames frames2 : List Environment)
    (h : ∀ (j : Nat), (frames2[j]?).map (fun (fr : Environment) => fr.parent) =
      (frames[j]?).map (fun (fr : Environment) => fr.parent)) :
    ∀ (fuel i : Nat), Environment.chain frames2 fuel i = Environment.chain frames fuel i := by
  intro fuel
  induction fuel with
  | zero => intro i; rfl
  | succ fuel ih =>
    intro i
    have hi := h i
    cases h2 : frames2[i]? with
    | none =>
      cases h1 : frames[i]? with
      | none => simp [Environment.chain, h1, h2]
      | some fr => simp [h1, h2] at hi
    | some fr2 =>
      cases h1 : frames[i]? with
      | none => simp [h1, h2] at hi
      | some fr =>
        simp [h1, h2] at hi
        cases hp : fr.parent with
        | none =>
          have hp2 : fr2.parent = none := by rw [hi, hp]
          simp [Environment.chain, h1, h2, hp, hp2]
        | some p =>
          have hp2 : fr2.parent = some p := by rw [hi, hp]
          simp [Environment.chain, h1, h2, hp, hp2, ih p]

theorem wellFormed_congr (frames frames2 : List Environment) (hwf : WellFormed frames)
    (h : ∀ (j : Nat), (frames2[j]?).map (fun (fr : Environment) => fr.parent) =
      (frames[j]?).map (fun (fr : Environment) => fr.parent)) :
    WellFormed frames2 := by
  intro i fr2 hfr2 p hp
  have hi := h i
  cases h1 : frames[i]? with
  | none => simp [h1, hfr2] at hi
  | some fr =>
    simp [h1, hfr2] at hi
    exact hwf i fr h1 p (by rw [← hi, hp])

theorem writeAt_wellFormed (frames : List Environment) (hwf : WellFormed frames) (t : Nat)
    (name : String) (v : Value) : WellFormed (writeAt frames t name v) :=
  wellFormed_congr frames _ hwf (fun j => writeAt_parent frames t j name v)

theorem writeAt_chainOf (frames : List Environment) (t i : Nat) (name : String) (v : Value) :
    chainOf (writeAt frames t name v) i = chainOf frames i :=
  chain_congr frames _ (fun j => writeAt_parent frames t j name v) (i + 1) i

theorem chainOf_head (frames : List Environment) (i : Nat) (hi : i < frames.length) :
    ∃ rest, chainOf frames i = i :: rest := by
  have hfr : frames[i]? = some frames[i] := List.getElem?_eq_getElem hi
  cases hp : frames[i].parent with
  | none => exact ⟨[], by simp [chainOf, Environment.chain, hfr, hp]⟩
  | some p => exact ⟨Environment.chain frames i p, by simp [chainOf, Environment.chain, hfr, hp]⟩

/-- The frame `set` writes to: the innermost binder, else the current frame. -/
theorem set_eq_writeAt (frames : List Environment) (hwf : WellFormed frames) (name : String)
    (v : Value) : ∀ (i : Nat), i < frames.length →
      Environment.set frames i name v =
        some (writeAt frames ((innermostBinder frames i name).getD i) name v) := by
  intro i
  induction i using Nat.strong_induction_on with
  | _ i ih =>
    intro hi
    have hfr : frames[i]? = some frames[i] := List.getElem?_eq_getElem hi
    cases hm : mapFind frames[i].vars_ name with
    | some w =>
      obtain ⟨rest, hc⟩ := chainOf_head frames i hi
      have hb : binds frames i name = true := by simp [binds, hfr, hm]
      rw [set_bound frames i name _ v w hfr hm]
      simp [innermostBinder, hc, hb]
    | none =>
      have hb : binds frames i name = false := by simp [binds, hfr, hm]
      cases hp : frames[i].parent with
      | none =>
        rw [set_root frames i name _ v hfr hm hp]
        simp [innermostBinder, chainOf_root frames i _ hfr hp, hb]
      | some p =>
        have hlt : p < i := hwf i _ hfr p hp
        have hpl : p < frames.length := by omega
        have hc := chainOf_parent frames hwf i p _ hfr hp
        have hg := get_eq_innermost frames hwf p name hpl
        cases hf : innermostBinder frames p name with
        | none =>
          rw [hf] at hg
          rw [set_parent_unbound frames hwf i p name _ v _ hfr hm hp hg]
          have : innermostBinder frames i name = none := by
            simp only [innermostBinder] at hf ⊢
            rw [hc, List.find?_cons_of_neg _ (by simp [hb])]
            exact hf
          simp [this]
        | some t =>
          rw [hf] at hg
          have hbt : binds frames t name = true := by
            simp only [innermostBinder] at hf
            have h2 := List.find?_some hf
            simpa using h2
          rw [binds_eq_isSome] at hbt
          obtain ⟨w, hw⟩ := Option.isSome_iff_exists.mp hbt
          simp only [hw, Option.map] at hg
          rw [set_parent_bound frames hwf i p name _ v w hfr hm hp hg, ih p hlt hpl, hf]
          have : innermostBinder frames i name = some t := by
            simp only [innermostBinder] at hf ⊢
            rw [hc, List.find?_cons_of_neg _ (by simp [hb])]
            exact hf
          simp [this]

theorem wellFormed_of_wfCheck (frames : List Environment) (h : wfCheck frames = true) :
    WellFormed frames := by
  intro i fr hfr p hp
  have hi : i < frames.length := (List.getElem?_eq_some_iff.mp hfr).1
  have := (List.all_eq_true.mp h) i (List.mem_range.mpr hi)
  simp [hfr, hp] at this
  exact this

/-! ## `Environment::set` and `Environment::get` (C1, C2) -/

/-- C1: in a well-formed chain, `Environment::set(name, v)` called on frame `i` writes `v` into
exactly one frame `t`: the innermost frame of the chain of `i` that already binds `name`, or
`i` itself when no frame of the chain binds `name`.  No frame is added and no parent pointer
changes, every binding other than that of `name` in `t` is unchanged (so `name` is not added to
frame `i` when an ancestor binds it), and a lookup of `name` from `i` afterwards returns `v`. -/
theorem C1_set_writes_innermost_binding (frames : List Environment) (i : Nat) (name : String)
    (v : Value) (hwf : WellFormed frames) (hi : i < frames.length) :
    ∃ frames2 t,
      Environment.set frames i name v = some frames2 ∧
      (innermostBinder frames i name = some t ∨
        (innermostBinder frames i name = none ∧ t = i)) ∧
      t ∈ chainOf frames i ∧
      frames2.length = frames.length ∧
      (∀ (j : Nat), (frames2[j]?).map (fun (fr : Environment) => fr.parent) =
        (frames[j]?).map (fun (fr : Environment) => fr.parent)) ∧
      (∀ (j : Nat) (n : String), (j ≠ t ∨ n ≠ name) →
        boundValue frames2 j n = boundValue frames j n) ∧
      boundValue frames2 t name = some v ∧
      (t ≠ i → boundValue frames2 i name = none) ∧
      Environment.get frames2 i name = some (.ok v) := by
  obtain ⟨rest, hc⟩ := chainOf_head frames i hi
  have hset := set_eq_writeAt frames hwf name v i hi
  -- the target frame lies on the chain, hence exists
  have htarget : ∀ t, (innermostBinder frames i name).getD i = t →
      t ∈ chainOf frames i ∧
      (innermostBinder frames i name = some t ∨
        (innermostBinder frames i name = none ∧ t = i)) := by
    intro t ht
    cases hf : innermostBinder frames i name with
    | none =>
      rw [hf] at ht
      simp at ht
      subst ht
      exact ⟨by rw [hc]; simp, Or.inr ⟨rfl, rfl⟩⟩
    | some u =>
      rw [hf] at ht
      simp at ht
      subst ht
      refine ⟨?_, Or.inl rfl⟩
      simp only [innermostBinder] at hf
      exact List.mem_of_find?_eq_some hf
  obtain ⟨htmem, hcase⟩ := htarget _ rfl
  generalize (innermostBinder frames i name).getD i = t at hset htmem hcase
  -- a frame of the chain is a frame of the list
  have hchain_lt : ∀ (fuel k : Nat) (j : Nat), j ∈ Environment.chain frames fuel k →
      j < frames.length := by
    intro fuel
    induction fuel with
    | zero => intro k j h; simp [Environment.chain] at h
    | succ fuel ih =>
      intro k j h
      cases hfr : frames[k]? with
      | none => simp [Environment.chain, hfr] at h
      | some fr =>
        have hk : k < frames.length := (List.getElem?_eq_some_iff.mp hfr).1
        cases hp : fr.parent with
        | none =>
          simp [Environment.chain, hfr, hp] at h
          omega
        | some p =>
          simp [Environment.chain, hfr, hp] at h
          rcases h with h | h
          · omega
          · exact ih p j h
  have htl : t < frames.length := hchain_lt (i + 1) i t htmem
  have hbv := writeAt_boundValue_self frames t name v htl
  have hother := fun (j : Nat) (n : String) (h : j ≠ t ∨ n ≠ name) =>
    writeAt_boundValue_other frames t j name n v h
  -- the innermost binder after the write is `t`
  have hwf2 := writeAt_wellFormed frames hwf t name v
  have hinner2 : innermostBinder (writeAt frames t name v) i name = some t := by
    have hb2 : binds (writeAt frames t name v) t name = true := by
      rw [binds_eq_isSome, hbv]; rfl
    have hbo : ∀ j, j ≠ t → binds (writeAt frames t name v) j name = binds frames j name := by
      intro j hj
      rw [binds_eq_isSome, binds_eq_isSome, hother j name (Or.inl hj)]
    have key : ∀ (l : List Nat),
        (l.find? (fun j => binds frames j name) = some t ∨
          (l.find? (fun j => binds frames j name) = none ∧ ∃ r, l = t :: r)) →
        l.find? (fun j => binds (writeAt frames t name v) j name) = some t := by
      intro l
      induction l with
      | nil => intro h; simp at h
      | cons a r ih =>
        intro h
        by_cases hat : a = t
        · subst hat; simp [hb2]
        · rcases h with h | h
          · have hba : binds frames a name = false := by
              cases hba : binds frames a name with
              | false => rfl
              | true => simp [List.find?_cons, hba] at h; exact absurd h hat
            rw [List.find?_cons_of_neg _ (by simp [hbo a hat, hba])]
            rw [List.find?_cons_of_neg _ (by simp [hba])] at h
            exact ih (Or.inl h)
          · obtain ⟨_, r2, hr⟩ := h
            simp at hr
            exact absurd hr.1 hat
    simp only [innermostBinder, writeAt_chainOf]
    apply key
    rcases hcase with h | ⟨h, hti⟩
    · exact Or.inl h
    · subst hti
      exact Or.inr ⟨h, rest, hc⟩
  refine ⟨writeAt frames t name v, t, hset, hcase, htmem, writeAt_length frames t name v,
    fun j => writeAt_parent frames t j name v, hother, hbv, ?_, ?_⟩
  · intro hne
    rw [hother i name (Or.inl (Ne.symm hne))]
    rcases hcase with h | ⟨_, h⟩
    · -- `i` does not bind `name`, otherwise it would be the innermost binder
      cases hbi : boundValue frames i name with
      | none => rfl
      | some w =>
        have hb : binds frames i name = true := by rw [binds_eq_isSome, hbi]; rfl
        simp [innermostBinder, hc, hb] at h
        exact absurd h.symm hne
    · exact absurd h hne
  · have hi2 : i < (writeAt frames t name v).length := by
      rw [writeAt_length]; exact hi
    rw [get_eq_innermost _ hwf2 i name hi2, hinner2]
    simp [hbv]

/-- C1, at a concrete chain: `set` of `x` from the child frame `1` writes into frame `0`. -/
theorem C1_set_witness :
    WellFormed exampleFrames ∧ 1 < exampleFrames.length ∧
    innermostBinder exampleFrames 1 "x" = some 0 ∧
    (Environment.set exampleFrames 1 "x" (.number 7)).map (fun fs => boundValue fs 1 "x")
      = some none := by
  refine ⟨wellFormed_of_wfCheck _ (by decide), by decide, by decide, ?_⟩
  obtain ⟨frames2, t, hset, hcase, _, _, _, _, _, hcur, _⟩ :=
    C1_set_writes_innermost_binding exampleFrames 1 "x" (.number 7)
      (wellFormed_of_wfCheck _ (by decide)) (by decide)
  have ht : t = 0 := by
    rcases hcase with h | ⟨h, _⟩
    · have h0 : innermostBinder exampleFrames 1 "x" = some 0 := by decide
      rw [h0] at h
      exact (Option.some.inj h).symm
    · have h0 : innermostBinder exampleFrames 1 "x" = some 0 := by decide
      rw [h0] at h
      exact absurd h (by simp)
  rw [hset]
  simp [hcur (by omega)]

/-- C2: in a well-formed chain, `Environment::get(name)` called on frame `i` returns the value
bound to `name` in the innermost frame of the chain of `i` that binds it, and throws the
undefined-variable error if and only if no frame of the chain binds `name`. -/
theorem C2_get_innermost_or_undefined (frames : List Environment) (i : Nat) (name : String)
    (hwf : WellFormed frames) (hi : i < frames.length) :
    (∀ t, innermostBinder frames i name = some t →
      ∃ v, boundValue frames t name = some v ∧
        Environment.get frames i name = some (.ok v)) ∧
    ((∃ what, Environment.get frames i name = some (.error what)) ↔
      ∀ j ∈ chainOf frames i, binds frames j name = false) ∧
    ((∀ j ∈ chainOf frames i, binds frames j name = false) →
      Environment.get frames i name =
        some (.error ("Undefined variable '" ++ name ++ "'"))) := by
  have hg := get_eq_innermost frames hwf i name hi
  have hnone : innermostBinder frames i name = none ↔
      ∀ j ∈ chainOf frames i, binds frames j name = false := by
    simp [innermostBinder, List.find?_eq_none]
  refine ⟨?_, ?_, ?_⟩
  · intro t ht
    rw [ht] at hg
    have hbt : binds frames t name = true := by
      simp only [innermostBinder] at ht
      have h2 := List.find?_some ht
      simpa using h2
    rw [binds_eq_isSome] at hbt
    obtain ⟨w, hw⟩ := Option.isSome_iff_exists.mp hbt
    exact ⟨w, hw, by simp only [hw, Option.map] at hg; exact hg⟩
  · constructor
    · rintro ⟨what, hwhat⟩
      cases hf : innermostBinder frames i name with
      | none => exact hnone.mp hf
      | some t =>
        rw [hf, hwhat] at hg
        cases hbv : boundValue frames t name <;> simp [hbv] at hg
    · intro h
      rw [hnone.mpr h] at hg
      exact ⟨_, hg⟩
  · intro h
    rw [hnone.mpr h] at hg
    exact hg

/-- C2, at a concrete chain: from the child frame `1`, `x` is found in frame `0`, `y` in frame
`1` itself. -/
theorem C2_get_witness :
    WellFormed exampleFrames ∧ 1 < exampleFrames.length ∧
    innermostBinder exampleFrames 1 "x" = some 0 ∧
    Environment.get exampleFrames 1 "x" = some (.ok (.number 1)) := by
  refine ⟨wellFormed_of_wfCheck _ (by decide), by decide, by decide, ?_⟩
  obtain ⟨v, hbv, hget⟩ :=
    (C2_get_innermost_or_undefined exampleFrames 1 "x"
      (wellFormed_of_wfCheck _ (by decide)) (by decide)).1 0 (by decide)
  have h0 : boundValue exampleFrames 0 "x" = some (.number 1) := rfl
  rw [h0] at hbv
  rw [hget, ← Option.some.inj hbv]

/-! ### Chains and the two constructors -/

theorem chain_lt (frames : List Environment) :
    ∀ (fuel k j : Nat), j ∈ Environment.chain frames fuel k → j < frames.length := by
  intro fuel
  induction fuel with
  | zero => intro k j h; simp [Environment.chain] at h
  | succ fuel ih =>
    intro k j h
    cases hfr : frames[k]? with
    | none => simp [Environment.chain, hfr] at h
    | some fr =>
      have hk : k < frames.length := (List.getElem?_eq_some_iff.mp hfr).1
      cases hp : fr.parent with
      | none =>
        simp [Environment.chain, hfr, hp] at h
        omega
      | some p =>
        simp [Environment.chain, hfr, hp] at h
        rcases h with h | h
        · omega
        · exact ih p j h

theorem chain_append (frames ys : List Environment) (hwf : WellFormed frames) :
    ∀ (fuel i : Nat), i < frames.length →
      Environment.chain (frames ++ ys) fuel i = Environment.chain frames fuel i := by
  intro fuel
  induction fuel with
  | zero => intro i _; rfl
  | succ fuel ih =>
    intro i hi
    have h1 : (frames ++ ys)[i]? = frames[i]? := List.getElem?_append_left hi
    have hfr : frames[i]? = some frames[i] := List.getElem?_eq_getElem hi
    cases hp : frames[i].parent with
    | none => simp [Environment.chain, h1, hfr, hp]
    | some p =>
      have hlt : p < i := hwf i _ hfr p hp
      simp [Environment.chain, h1, hfr, hp, ih p (by omega)]

theorem child_wellFormed (frames : List Environment) (hwf : WellFormed frames) (c : Nat)
    (hc : c < frames.length) : WellFormed (Environment.child frames c).1 := by
  intro i fr hfr p hp
  simp only [Environment.child] at hfr
  by_cases hi : i < frames.length
  · rw [List.getElem?_append_left hi] at hfr
    exact hwf i fr hfr p hp
  · have hil : i < (frames ++ [({ vars_ := [], parent := some c } : Environment)]).length :=
      (List.getElem?_eq_some_iff.mp hfr).1
    simp at hil
    have hie : i = frames.length := by omega
    subst hie
    simp at hfr
    subst hfr
    simp at hp
    omega

theorem copy_wellFormed (frames fs : List Environment) (hwf : WellFormed frames) (i n : Nat)
    (h : Environment.copy frames i = some (fs, n)) : WellFormed fs := by
  unfold Environment.copy at h
  cases hfr : frames[i]? with
  | none => simp [hfr] at h
  | some fr0 =>
    simp [hfr] at h
    obtain ⟨h1, _⟩ := h
    subst h1
    have hi0 : i < frames.length := (List.getElem?_eq_some_iff.mp hfr).1
    intro j fr hj p hp
    by_cases hjl : j < frames.length
    · rw [List.getElem?_append_left hjl] at hj
      exact hwf j fr hj p hp
    · have hjl2 := (List.getElem?_eq_some_iff.mp hj).1
      simp at hjl2
      have hje : j = frames.length := by omega
      subst hje
      simp at hj
      subst hj
      simp at hp
      have := hwf i fr0 hfr p hp
      omega

/-! ### A sequence of writes -/

theorem foldl_writeAt_length (tgt : String → Nat) (l : List (String × Value)) :
    ∀ (fs0 : List Environment),
      (l.foldl (fun fs na => writeAt fs (tgt na.1) na.1 na.2) fs0).length = fs0.length := by
  induction l with
  | nil => intro fs0; rfl
  | cons na r ih =>
    intro fs0
    simp only [List.foldl_cons]
    rw [ih, writeAt_length]

theorem foldl_writeAt_other (tgt : String → Nat) (j : Nat) (m : String)
    (l : List (String × Value)) :
    ∀ (fs0 : List Environment), (∀ na ∈ l, na.1 = m → tgt m ≠ j) →
      boundValue (l.foldl (fun fs na => writeAt fs (tgt na.1) na.1 na.2) fs0) j m =
        boundValue fs0 j m := by
  induction l with
  | nil => intro fs0 _; rfl
  | cons na r ih =>
    intro fs0 h
    simp only [List.foldl_cons]
    rw [ih _ (fun q hq => h q (List.mem_cons_of_mem _ hq))]
    apply writeAt_boundValue_other
    by_cases hn : m = na.1
    · left
      have := h na (List.mem_cons_self _ _) hn.symm
      rw [hn] at this
      exact fun e => this e.symm
    · right; exact hn

theorem foldl_writeAt_last (tgt : String → Nat) (pre post : List (String × Value))
    (n : String) (a : Value) (fs0 : List Environment) (ht : tgt n < fs0.length)
    (hpost : ∀ q ∈ post, q.1 ≠ n) :
    boundValue ((pre ++ (n, a) :: post).foldl
      (fun fs na => writeAt fs (tgt na.1) na.1 na.2) fs0) (tgt n) n = some a := by
  rw [List.foldl_append, List.foldl_cons]
  rw [foldl_writeAt_other tgt (tgt n) n post _ (fun q hq e => absurd e (hpost q hq))]
  apply writeAt_boundValue_self
  rw [foldl_writeAt_length]
  exact ht

/-! ### The parameter loop of `FunctionValue::invoke` -/

theorem find_congr_mem (l : List Nat) (p q : Nat → Bool) (h : ∀ j ∈ l, p j = q j) :
    l.find? p = l.find? q := by
  induction l with
  | nil => rfl
  | cons a r ih =>
    have ha := h a (List.mem_cons_self _ _)
    have hr := ih (fun j hj => h j (List.mem_cons_of_mem _ hj))
    simp [List.find?_cons, ha, hr]

/-- The frames during the parameter loop: the activation frame is the last one, its parent is
the closure, older frames bind the names they bound before the call, and the activation frame
binds only names the closure chain does not bind. -/
theorem bindParams_eq_foldl (frames : List Environment) (hwf : WellFormed frames) (c : Nat)
    (hc : c < frames.length) :
    ∀ (names : List String) (args : List Value) (fs : List Environment),
      fs.length = frames.length + 1 →
      (∀ (j : Nat), (fs[j]?).map (fun (fr : Environment) => fr.parent) =
        ((Environment.child frames c).1[j]?).map (fun (fr : Environment) => fr.parent)) →
      (∀ (j : Nat) (m : String), j < frames.length → binds fs j m = binds frames j m) →
      (∀ (m : String), binds fs frames.length m = true → innermostBinder frames c m = none) →
      bindParams frames.length names args fs =
        some ((names.zip args).foldl
          (fun fs na => writeAt fs ((innermostBinder frames c na.1).getD frames.length) na.1 na.2)
          fs) := by
  intro names
  induction names with
  | nil => intro args fs _ _ _ _; cases args <;> simp [bindParams]
  | cons n names ih =>
    intro args fs h1 h2 h3 h4
    cases args with
    | nil => simp [bindParams]
    | cons a args =>
      have hwf0 := child_wellFormed frames hwf c hc
      have hwfs : WellFormed fs := wellFormed_congr _ fs hwf0 h2
      have hL : frames.length < fs.length := by omega
      -- the chain of the activation frame
      have hfrL : fs[frames.length]? = some fs[frames.length] := List.getElem?_eq_getElem hL
      have hpar : fs[frames.length].parent = some c := by
        have := h2 frames.length
        simp [hfrL, Environment.child] at this
        exact this
      have hchain : chainOf fs frames.length = frames.length :: chainOf frames c := by
        rw [chainOf_parent fs hwfs frames.length c _ hfrL hpar]
        congr 1
        have e1 : chainOf fs c = chainOf (Environment.child frames c).1 c :=
          chain_congr _ fs h2 (c + 1) c
        rw [e1]
        exact chain_append frames _ hwf (c + 1) c hc
      have hmem : ∀ j ∈ chainOf frames c, j < frames.length :=
        fun j hj => chain_lt frames (c + 1) c j hj
      have hfind : (chainOf frames c).find? (fun j => binds fs j n) =
          innermostBinder frames c n := by
        simp only [innermostBinder]
        exact find_congr_mem _ _ _ (fun j hj => h3 j n (hmem j hj))
      have htgt : (innermostBinder fs frames.length n).getD frames.length =
          (innermostBinder frames c n).getD frames.length := by
        cases hb : binds fs frames.length n with
        | true =>
          rw [h4 n hb]
          simp [innermostBinder, hchain, hb]
        | false =>
          have : innermostBinder fs frames.length n = innermostBinder frames c n := by
            rw [← hfind]
            simp only [innermostBinder, hchain]
            rw [List.find?_cons_of_neg _ (by simp [hb])]
          rw [this]
      have hset := set_eq_writeAt fs hwfs n a frames.length hL
      rw [htgt] at hset
      simp only [bindParams, hset, List.zip_cons_cons, List.foldl_cons]
      -- the invariant after the write
      have hbinder : ∀ t, innermostBinder frames c n = some t →
          t < frames.length ∧ binds frames t n = true := by
        intro t ht
        simp only [innermostBinder] at ht
        refine ⟨hmem t (List.mem_of_find?_eq_some ht), ?_⟩
        have h5 := List.find?_some ht
        simpa using h5
      apply ih
      · rw [writeAt_length]; exact h1
      · intro j
        rw [writeAt_parent]; exact h2 j
      · intro j m hj
        by_cases hjm : j = (innermostBinder frames c n).getD frames.length ∧ m = n
        · obtain ⟨hj2, hm2⟩ := hjm
          subst hm2
          cases hf : innermostBinder frames c m with
          | none => rw [hf] at hj2; simp at hj2; omega
          | some t =>
            rw [hf] at hj2
            simp at hj2
            subst hj2
            rw [(hbinder j hf).2, binds_eq_isSome]
            simp only [Option.getD_some]
            rw [writeAt_boundValue_self fs j m a (by omega)]
            rfl
        · rw [binds_eq_isSome, writeAt_boundValue_other fs _ j n m a (by
            by_cases e : j = (innermostBinder frames c n).getD frames.length
            · right; exact fun e2 => hjm ⟨e, e2⟩
            · left; exact e), ← binds_eq_isSome]
          exact h3 j m hj
      · intro m hm
        by_cases hjm : frames.length = (innermostBinder frames c n).getD frames.length ∧ m = n
        · obtain ⟨hj2, hm2⟩ := hjm
          subst hm2
          cases hf : innermostBinder frames c m with
          | none => rfl
          | some t =>
            rw [hf] at hj2
            simp at hj2
            have := (hbinder t hf).1
            omega
        · rw [binds_eq_isSome, writeAt_boundValue_other fs _ frames.length n m a (by
            by_cases e : frames.length = (innermostBinder frames c n).getD frames.length
            · right; exact fun e2 => hjm ⟨e, e2⟩
            · left; exact e), ← binds_eq_isSome] at hm
          exact h4 m hm

/-! ## Parameter binding (C3) -/

/-- C3, as the code behaves: the parameters of a call are bound by `Environment::set`
(define-or-update) on the new activation frame (index `frames.length`, parent the closure
`c`), not inserted into it.  A parameter whose name no frame of the closure chain binds becomes
an entry of the activation frame; a parameter whose name the closure chain binds is written
into the innermost frame of that chain binding it, overwriting the outer variable, and gets no
entry in the activation frame.  No other binding of any frame changes. -/
theorem C3_parameters_bound_through_set (frames : List Environment) (c : Nat)
    (names : List String) (args : List Value) (hwf : WellFormed frames)
    (hc : c < frames.length) :
    ∃ fs, bindParams frames.length names args (Environment.child frames c).1 = some fs ∧
      fs.length = frames.length + 1 ∧
      (∀ (j : Nat) (m : String), j < frames.length →
        (m ∉ names ∨ innermostBinder frames c m ≠ some j) →
        boundValue fs j m = boundValue frames j m) ∧
      (∀ (m : String), (m ∉ names ∨ innermostBinder frames c m ≠ none) →
        boundValue fs frames.length m = none) ∧
      (∀ (pre post : List (String × Value)) (n : String) (a : Value),
        names.zip args = pre ++ (n, a) :: post → (∀ q ∈ post, q.1 ≠ n) →
        (innermostBinder frames c n = none → boundValue fs frames.length n = some a) ∧
        (∀ t, innermostBinder frames c n = some t → boundValue fs t n = some a)) := by
  have hfold := bindParams_eq_foldl frames hwf c hc names args (Environment.child frames c).1
    (by simp [Environment.child]) (fun _ => rfl)
    (by
      intro j m hj
      simp [binds, Environment.child, List.getElem?_append_left hj])
    (by
      intro m hm
      simp [binds, Environment.child, mapFind] at hm)
  have hmemlt : ∀ (m : String) (t : Nat), innermostBinder frames c m = some t →
      t < frames.length := by
    intro m t ht
    simp only [innermostBinder] at ht
    exact chain_lt frames (c + 1) c t (List.mem_of_find?_eq_some ht)
  have hfst : ∀ na ∈ names.zip args, na.1 ∈ names := by
    intro na hna
    exact (List.of_mem_zip hna).1
  have hold : ∀ (j : Nat) (m : String), j < frames.length →
      boundValue (Environment.child frames c).1 j m = boundValue frames j m := by
    intro j m hj
    simp [boundValue, Environment.child, List.getElem?_append_left hj]
  have hnew : ∀ (m : String),
      boundValue (Environment.child frames c).1 frames.length m = none := by
    intro m
    simp [boundValue, Environment.child, mapFind]
  refine ⟨_, hfold, ?_, ?_, ?_, ?_⟩
  · exact (foldl_writeAt_length
      (fun m => (innermostBinder frames c m).getD frames.length) _ _).trans
      (by simp [Environment.child])
  · intro j m hj hcond
    refine (foldl_writeAt_other
      (fun m => (innermostBinder frames c m).getD frames.length) j m _ _ ?_).trans (hold j m hj)
    intro na hna hnam
    rcases hcond with h | h
    · exact absurd (hnam ▸ hfst na hna) h
    · show (innermostBinder frames c m).getD frames.length ≠ j
      intro e
      cases hf : innermostBinder frames c m with
      | none => rw [hf] at e; simp at e; omega
      | some t =>
        rw [hf] at e
        simp at e
        exact h (by rw [hf, e])
  · intro m hcond
    refine (foldl_writeAt_other
      (fun m => (innermostBinder frames c m).getD frames.length) frames.length m _ _ ?_).trans
      (hnew m)
    intro na hna hnam
    rcases hcond with h | h
    · exact absurd (hnam ▸ hfst na hna) h
    · show (innermostBinder frames c m).getD frames.length ≠ frames.length
      intro e
      cases hf : innermostBinder frames c m with
      | none => exact absurd hf h
      | some t =>
        rw [hf] at e
        simp at e
        have := hmemlt m t hf
        omega
  · intro pre post n a hz hpost
    constructor
    · intro hnone
      have := foldl_writeAt_last
        (fun m => (innermostBinder frames c m).getD frames.length) pre post n a
        (Environment.child frames c).1 (by simp [hnone, Environment.child]) hpost
      rw [hz]
      simpa [hnone] using this
    · intro t ht
      have := foldl_writeAt_last
        (fun m => (innermostBinder frames c m).getD frames.length) pre post n a
        (Environment.child frames c).1
        (by
          have := hmemlt n t ht
          simp [ht, Environment.child]; omega) hpost
      rw [hz]
      simpa [ht] using this

/-- C3, at concrete calls.  With the closure frame `1` of `exampleFrames`, the parameter `x`
(bound in frame `0`) is written into frame `0`, and the parameter `w` (bound nowhere) becomes
an entry of the activation frame `2`.  In the program `x = 7`, `function foo(x) return x end
function`, `foo(3)`, `print(x)` the closure of `foo` is the global frame: the call overwrites
the global `x`, and `3` is printed.  In the program of the test `ParameterShadowsGlobal` the
function is made by a literal, whose closure (frame `1`) is a copy of the global frame: the
call writes `3` into that copy and adds no entry to the activation frame `2`, and the global
frame keeps `7`. -/
theorem C3_parameters_witness :
    (WellFormed exampleFrames ∧ 1 < exampleFrames.length ∧
      (bindParams 2 ["x", "w"] [.number 10, .number 20] (Environment.child exampleFrames 1).1).map
          (fun fs => (boundValue fs 0 "x", boundValue fs 2 "x", boundValue fs 2 "w"))
        = some (some (.number 10), none, some (.number 20))) ∧
    (∀ fmt : ℚ → String, ∃ st : State,
      interpretText (printHost fmt) 30
          "x = 7\nfunction foo(x)\n return x\nend function\nfoo(3)\nprint(x)" =
        some (InterpretResult.returned true, st) ∧ st.output = "3") ∧
    (interpret bareHost 10 parameterShadowsGlobal).map
        (fun r => ((r.2.frames[2]?).map (fun fr => fr.parent), boundValue r.2.frames 1 "x",
          boundValue r.2.frames 2 "x", boundValue r.2.frames 0 "x"))
      = some (some (some 1), some (.number 3), none, some (.number 7)) := by
  refine ⟨⟨wellFormed_of_wfCheck _ (by decide), by decide, ?_⟩,
    fun fmt => ⟨_, by with_unfolding_all rfl, by with_unfolding_all rfl⟩,
    by with_unfolding_all rfl⟩
  obtain ⟨fs, hb, _, _, hact, hlast⟩ :=
    C3_parameters_bound_through_set exampleFrames 1 ["x", "w"] [.number 10, .number 20]
      (wellFormed_of_wfCheck _ (by decide)) (by decide)
  have hx : innermostBinder exampleFrames 1 "x" = some 0 := by decide
  have hw : innermostBinder exampleFrames 1 "w" = none := by decide
  have h1 := (hlast [] [("w", .number 20)] "x" (.number 10) rfl (by simp)).2 0 hx
  have h2 := hact "x" (Or.inr (by rw [hx]; simp))
  have h3 := (hlast [("x", .number 10)] [] "w" (.number 20) rfl (by simp)).1 hw
  have hlen : exampleFrames.length = 2 := rfl
  rw [hlen] at hb h2 h3
  rw [hb]
  simp [h1, h2, h3]

/-! ## One step of the evaluator -/

theorem andThen_value (v : Value) (st : State) (k : Value → State → Res) :
    Res.andThen (some (.value v, st)) k = k v st := rfl

theorem eval_number (H : Host) (fuel : Nat) (d : ℚ) (env : Nat) (st : State) :
    eval H (fuel + 1) (.NumberExpr d) env st = some (.value (.number d), st) := rfl

theorem eval_variable (H : Host) (fuel : Nat) (name : String) (env : Nat) (st : State) :
    eval H (fuel + 1) (.VariableExpr name) env st =
      match Environment.get st.frames env name with
      | none => none
      | some (.ok v) => some (.value v, st)
      | some (.error m) => some (.error m, st) := rfl

theorem eval_functionLiteral (H : Host) (fuel : Nat) (fnAST : FunctionAST) (env : Nat)
    (st : State) :
    eval H (fuel + 1) (.FunctionLiteralExpr fnAST) env st =
      match Environment.copy st.frames env with
      | none => none
      | some (fs, newEnv) =>
        some (.value (.func (.user fnAST newEnv)), { st with frames := fs }) := rfl

theorem eval_assignment (H : Host) (fuel : Nat) (name : String) (ex : ExprAST) (env : Nat)
    (st : State) :
    eval H (fuel + 1) (.AssignmentExpr name ex) env st =
      (eval H fuel ex env st).andThen (fun v st1 =>
        match Environment.set st1.frames env name v with
        | none => none
        | some fs =>
          match v with
          | .func (.user _ closure) =>
            match Environment.set fs closure name v with
            | none => none
            | some fs2 => some (.value v, { st1 with frames := fs2 })
          | .func (.builtin _) =>
            some (.undefinedBehaviour "null closure dereferenced", { st1 with frames := fs })
          | _ => some (.value v, { st1 with frames := fs })) := rfl

theorem eval_call (H : Host) (fuel : Nat) (callee : ExprAST) (args : List ExprAST) (env : Nat)
    (st : State) :
    eval H (fuel + 1) (.CallExpr callee args) env st =
      (eval H fuel callee env st).andThen (fun calleeVal st1 =>
        match calleeVal with
        | .func f =>
          match evalList (eval H fuel) env args st1 with
          | none => none
          | some (.error o, st2) => some (o, st2)
          | some (.ok argVals, st2) => f.invoke H (eval H fuel) argVals st2
        | _ => some (.error "Attempt to call a non-function value", st1)) := rfl

theorem eval_block (H : Host) (fuel : Nat) (stmts : List ExprAST) (env : Nat) (st : State) :
    eval H (fuel + 1) (.BlockExpr stmts) env st = evalBlock (eval H fuel) env stmts .nil st :=
  rfl

theorem eval_return (H : Host) (fuel : Nat) (ex : ExprAST) (env : Nat) (st : State) :
    eval H (fuel + 1) (.ReturnExpr ex) env st =
      (eval H fuel ex env st).andThen (fun v st1 => some (.returnSignal v, st1)) := rfl

theorem eval_binary (H : Host) (fuel : Nat) (op : TokenType) (lhs rhs : ExprAST) (env : Nat)
    (st : State) :
    eval H (fuel + 1) (.BinaryExpr op lhs rhs) env st =
      (eval H fuel lhs env st).andThen (fun L st1 =>
        (eval H fuel rhs env st1).andThen (fun R st2 =>
          match binaryOp H fuel op st2.lists L R with
          | none => none
          | some (o, ls) => some (o, { st2 with lists := ls }))) := rfl

theorem eval_if (H : Host) (fuel : Nat) (cond thenE : ExprAST) (elseE : Option ExprAST)
    (env : Nat) (st : State) :
    eval H (fuel + 1) (.IfExpr cond thenE elseE) env st =
      (eval H fuel cond env st).andThen (fun c st1 =>
        if c.asBool st1.lists then eval H fuel thenE env st1
        else
          match elseE with
          | some el => eval H fuel el env st1
          | none => some (.value .nil, st1)) := rfl

theorem eval_while (H : Host) (fuel : Nat) (cond body : ExprAST) (env : Nat) (st : State) :
    eval H (fuel + 1) (.WhileExpr cond body) env st =
      whileLoop (eval H fuel) cond body env fuel .nil st := rfl

theorem eval_list (H : Host) (fuel : Nat) (elements : List ExprAST) (env : Nat) (st : State) :
    eval H (fuel + 1) (.ListExpr elements) env st =
      match evalList (eval H fuel) env elements st with
      | none => none
      | some (.error o, st1) => some (o, st1)
      | some (.ok vals, st1) =>
        some (.value (allocList st1.lists vals).1,
          { st1 with lists := (allocList st1.lists vals).2 }) := rfl

theorem eval_index (H : Host) (fuel : Nat) (base index : ExprAST) (env : Nat) (st : State) :
    eval H (fuel + 1) (.IndexExpr base index) env st =
      (eval H fuel base env st).andThen (fun V st1 =>
        (eval H fuel index env st1).andThen (fun I st2 =>
          match asNumberInt I with
          | .error o => some (o, st2)
          | .ok i => some (V.atIndex st2.lists i, st2))) := rfl

/-! ### Lookups depend only on the frames of the chain -/

theorem getAux_congr_below (frames frames2 : List Environment) (name : String)
    (hwf : WellFormed frames) :
    ∀ (fuel i : Nat), (∀ j, j ≤ i → frames2[j]? = frames[j]?) →
      Environment.getAux frames2 fuel i name = Environment.getAux frames fuel i name := by
  intro fuel
  induction fuel with
  | zero => intro i _; rfl
  | succ fuel ih =>
    intro i h
    have hi := h i (Nat.le_refl i)
    cases hfr : frames[i]? with
    | none => simp [Environment.getAux, hi, hfr]
    | some fr =>
      cases hm : mapFind fr.vars_ name with
      | some w => simp [Environment.getAux, hi, hfr, hm]
      | none =>
        cases hp : fr.parent with
        | none => simp [Environment.getAux, hi, hfr, hm, hp]
        | some p =>
          have hlt : p < i := hwf i fr hfr p hp
          simp [Environment.getAux, hi, hfr, hm, hp,
            ih p (fun j hj => h j (by omega))]

theorem get_congr_below (frames frames2 : List Environment) (name : String)
    (hwf : WellFormed frames) (i : Nat) (h : ∀ j, j ≤ i → frames2[j]? = frames[j]?) :
    Environment.get frames2 i name = Environment.get frames i name :=
  getAux_congr_below frames frames2 name hwf (i + 1) i h

/-- After `set`, a lookup of the name from the same frame finds the value written; the frame
written to lies on the chain. -/
theorem get_after_set (frames : List Environment) (hwf : WellFormed frames) (i : Nat)
    (name : String) (v : Value) (hi : i < frames.length) :
    ∃ t, t ∈ chainOf frames i ∧
      Environment.set frames i name v = some (writeAt frames t name v) ∧
      Environment.get (writeAt frames t name v) i name = some (.ok v) := by
  obtain ⟨rest, hc⟩ := chainOf_head frames i hi
  have hset := set_eq_writeAt frames hwf name v i hi
  have hcases : ∃ t, (innermostBinder frames i name).getD i = t ∧ t ∈ chainOf frames i ∧
      (innermostBinder frames i name = some t ∨ (innermostBinder frames i name = none ∧ t = i))
      := by
    cases hf : innermostBinder frames i name with
    | none => exact ⟨i, rfl, by rw [hc]; simp, Or.inr ⟨rfl, rfl⟩⟩
    | some u =>
      refine ⟨u, rfl, ?_, Or.inl rfl⟩
      simp only [innermostBinder] at hf
      exact List.mem_of_find?_eq_some hf
  obtain ⟨t, ht, htmem, hcase⟩ := hcases
  rw [ht] at hset
  have htl : t < frames.length := chain_lt frames (i + 1) i t htmem
  have hbv := writeAt_boundValue_self frames t name v htl
  have hwf2 := writeAt_wellFormed frames hwf t name v
  have hb2 : binds (writeAt frames t name v) t name = true := by
    rw [binds_eq_isSome, hbv]; rfl
  have hbo : ∀ j, j ≠ t → binds (writeAt frames t name v) j name = binds frames j name := by
    intro j hj
    rw [binds_eq_isSome, binds_eq_isSome,
      writeAt_boundValue_other frames t j name name v (Or.inl hj)]
  have key : ∀ (l : List Nat),
      (l.find? (fun j => binds frames j name) = some t ∨
        (l.find? (fun j => binds frames j name) = none ∧ ∃ r, l = t :: r)) →
      l.find? (fun j => binds (writeAt frames t name v) j name) = some t := by
    intro l
    induction l with
    | nil => intro h; simp at h
    | cons a r ih =>
      intro h
      by_cases hat : a = t
      · subst hat; simp [hb2]
      · rcases h with h | h
        · have hba : binds frames a name = false := by
            cases hba : binds frames a name with
            | false => rfl
            | true => simp [List.find?_cons, hba] at h; exact absurd h hat
          rw [List.find?_cons_of_neg _ (by simp [hbo a hat, hba])]
          rw [List.find?_cons_of_neg _ (by simp [hba])] at h
          exact ih (Or.inl h)
        · obtain ⟨_, r2, hr⟩ := h
          simp at hr
          exact absurd hr.1 hat
  have hinner2 : innermostBinder (writeAt frames t name v) i name = some t := by
    simp only [innermostBinder, writeAt_chainOf]
    apply key
    rcases hcase with h | ⟨h, hti⟩
    · exact Or.inl h
    · subst hti
      exact Or.inr ⟨h, rest, hc⟩
  refine ⟨t, htmem, hset, ?_⟩
  have hi2 : i < (writeAt frames t name v).length := by
    rw [writeAt_length]; exact hi
  rw [get_eq_innermost _ hwf2 i name hi2, hinner2]
  simp [hbv]

/-- C5, the claim fails: in `function g() end function`, `x = 1`,
`f = function() x = g end function`, `f()` the global frame binds `x` to `1` before the call
of `f`, and the assignment in the body of `f` leaves the global `x` bound to the function `g`:
the value assigned is a function whose closure is the global frame, and the assignment also
binds the name in that closure. -/
theorem C5_counterexample :
    (interpret bareHost 20 (assignsGlobalFunction.take 3)).map
        (fun r => boundValue r.2.frames 0 "x") = some (some (.number 1)) ∧
    (interpret bareHost 20 assignsGlobalFunction).map
        (fun r => boundValue r.2.frames 0 "x") = some (some (.func (.user emptyGAST 0))) := by
  constructor <;> rfl

/-- Writing the value that a lookup already finds does not change what the lookup finds. -/
theorem get_writeAt_same_value (frames : List Environment) (hwf : WellFormed frames) (t : Nat)
    (x : String) (v : Value) :
    ∀ (i : Nat), Environment.get frames i x = some (.ok v) →
      Environment.get (writeAt frames t x v) i x = some (.ok v) := by
  intro i
  induction i using Nat.strong_induction_on with
  | _ i ih =>
    intro hget
    have hwf2 := writeAt_wellFormed frames hwf t x v
    cases hfr : frames[i]? with
    | none => simp [Environment.get, Environment.getAux, hfr] at hget
    | some fr =>
      by_cases hit : i = t
      · subst hit
        exact get_bound _ i x _ v (writeAt_getElem_self frames i x v fr hfr)
          (mapFind_mapAssign_same _ _ _)
      · have hfr2 : (writeAt frames t x v)[i]? = some fr := by
          rw [writeAt_getElem_ne frames t i x v hit]; exact hfr
        cases hm : mapFind fr.vars_ x with
        | some w =>
          rw [get_bound frames i x fr w hfr hm] at hget
          have hwv : w = v := by
            injection hget with h
            injection h
          subst hwv
          exact get_bound _ i x fr w hfr2 hm
        | none =>
          cases hp : fr.parent with
          | none =>
            rw [get_root frames i x fr hfr hm hp] at hget
            simp at hget
          | some p =>
            rw [get_parent frames hwf i p x fr hfr hm hp] at hget
            rw [get_parent _ hwf2 i p x fr hfr2 hm hp]
            exact ih p (hwf i fr hfr p hp) hget

/-- C5 (amended): let `c` be the closure frame of a function created by a literal evaluated at
top level (a frame without parent, distinct from the global frame `g`) and `a` an activation
frame of that function (a frame whose parent is `c`).  Take an assignment `x = e` evaluated in
`a` whose right side evaluates to a value `v` that is not a builtin function and, when it is a
user-defined function, is closed over a frame whose chain does not contain `g`.  The assignment
writes into `a`, `c` or the chain of that closure only: the global frame is as it was after
evaluating `e`, nothing but the frames changes, and a read of `x` from `a` after the assignment
returns the assigned value. -/
theorem C5_assignment_leaves_global (H : Host) (fuel : Nat) (e : ExprAST) (x : String)
    (g a c : Nat) (v : Value) (st st1 : State) (fra frc : Environment)
    (heval : eval H fuel e a st = some (.value v, st1))
    (hbuiltin : ∀ name, v ≠ .func (.builtin name))
    (hclosure : ∀ fn cl, v = .func (.user fn cl) →
      cl < st1.frames.length ∧ g ∉ chainOf st1.frames cl)
    (hwf : WellFormed st1.frames)
    (ha : st1.frames[a]? = some fra) (hpa : fra.parent = some c)
    (hc : st1.frames[c]? = some frc) (hpc : frc.parent = none)
    (hga : g ≠ a) (hgc : g ≠ c) :
    ∃ fs2,
      eval H (fuel + 1) (.AssignmentExpr x e) a st =
        some (.value v, { st1 with frames := fs2 }) ∧
      fs2[g]? = st1.frames[g]? ∧
      Environment.get fs2 a x = some (.ok v) := by
  have hal : a < st1.frames.length := (List.getElem?_eq_some_iff.mp ha).1
  obtain ⟨t, htmem, hset, hget⟩ := get_after_set st1.frames hwf a x v hal
  have hchain : chainOf st1.frames a = [a, c] := by
    rw [chainOf_parent st1.frames hwf a c fra ha hpa, chainOf_root st1.frames c frc hc hpc]
  rw [hchain] at htmem
  have htg : g ≠ t := by
    simp at htmem
    rcases htmem with h | h
    · rw [h]; exact hga
    · rw [h]; exact hgc
  have hg1 := writeAt_getElem_ne st1.frames t g x v htg
  cases v with
  | func f =>
    cases f with
    | builtin name => exact absurd rfl (hbuiltin name)
    | user fn cl =>
      obtain ⟨hcl, hgcl⟩ := hclosure fn cl rfl
      have hwf2 := writeAt_wellFormed st1.frames hwf t x (.func (.user fn cl))
      obtain ⟨t2, ht2mem, hset2, _⟩ :=
        get_after_set (writeAt st1.frames t x (.func (.user fn cl))) hwf2 cl x
          (.func (.user fn cl)) (by rw [writeAt_length]; exact hcl)
      rw [writeAt_chainOf] at ht2mem
      have ht2g : g ≠ t2 := fun h => hgcl (h ▸ ht2mem)
      refine ⟨writeAt (writeAt st1.frames t x (.func (.user fn cl))) t2 x (.func (.user fn cl)),
        ?_, ?_, get_writeAt_same_value _ hwf2 t2 x _ a hget⟩
      · rw [eval_assignment, heval, andThen_value, hset]
        simp only [hset2]
      · rw [writeAt_getElem_ne _ t2 g x _ ht2g, hg1]
  | nil => exact ⟨_, by rw [eval_assignment, heval, andThen_value, hset], hg1, hget⟩
  | number d => exact ⟨_, by rw [eval_assignment, heval, andThen_value, hset], hg1, hget⟩
  | bool b => exact ⟨_, by rw [eval_assignment, heval, andThen_value, hset], hg1, hget⟩
  | string s => exact ⟨_, by rw [eval_assignment, heval, andThen_value, hset], hg1, hget⟩
  | list p => exact ⟨_, by rw [eval_assignment, heval, andThen_value, hset], hg1, hget⟩

/-- C5 (amended), on the program of the test `LocalVariableDoesNotAffectGlobal`: inside the
call of `foo` the assignment `x = 50` leaves the global frame `0` with `x = 100` and a read of
`x` in the activation frame `2` gives `50`; `insideFooState` is the state the interpreter is in
when the body of `foo` starts (the program ends with the frames of that state after the write
into the closure frame `1`), and after the whole program the global `x` is still `100`. -/
theorem C5_assignment_witness :
    eval bareHost 1 (.NumberExpr 50) 2 insideFooState = some (.value (.number 50), insideFooState) ∧
    WellFormed insideFooState.frames ∧
    (eval bareHost 2 (.AssignmentExpr "x" (.NumberExpr 50)) 2 insideFooState).map
        (fun r => (boundValue r.2.frames 0 "x", Environment.get r.2.frames 2 "x"))
      = some (some (.number 100), some (.ok (.number 50))) ∧
    (interpret bareHost 20 localVariableDoesNotAffectGlobal).map
        (fun r => r.2.frames) = some (writeAt insideFooState.frames 1 "x" (.number 50)) ∧
    (interpret bareHost 20 localVariableDoesNotAffectGlobal).map
        (fun r => (boundValue r.2.frames 0 "x", boundValue r.2.frames 1 "x"))
      = some (some (.number 100), some (.number 50)) := by
  refine ⟨rfl, wellFormed_of_wfCheck _ (by decide), ?_, rfl, rfl⟩
  obtain ⟨fs2, hev, hg, hget⟩ :=
    C5_assignment_leaves_global bareHost 1 (.NumberExpr 50) "x" 0 2 1 (.number 50)
      insideFooState insideFooState _ _ rfl (fun _ h => Value.noConfusion h)
      (fun _ _ h => Value.noConfusion h) (wellFormed_of_wfCheck _ (by decide))
      rfl rfl rfl rfl (by decide) (by decide)
  rw [hev]
  have hb : boundValue fs2 0 "x" = some (.number 100) := by
    simp only [boundValue, hg]
    rfl
  simp only [Option.map_some']
  rw [hb, hget]

/-! ## The result of a call (C6) -/

theorem evalBlock_stops_at_return (ev : ExprAST → Nat → State → Res) (env : Nat)
    (s : ExprAST) (post : List ExprAST) (v : Value) (s2 : State) :
    ∀ (pre : List ExprAST) (last l : Value) (st s1 : State),
      evalBlock ev env pre last st = some (.value l, s1) →
      ev s env s1 = some (.returnSignal v, s2) →
      evalBlock ev env (pre ++ s :: post) last st = some (.returnSignal v, s2) := by
  intro pre
  induction pre with
  | nil =>
    intro last l st s1 h1 h2
    simp only [evalBlock] at h1
    injection h1 with h1
    injection h1 with _ h1
    subst h1
    simp [evalBlock, h2, Res.andThen]
  | cons p pre ih =>
    intro last l st s1 h1 h2
    simp only [evalBlock, List.cons_append] at h1 ⊢
    cases hp : ev p env st with
    | none => simp [hp, Res.andThen] at h1
    | some r =>
      obtain ⟨o, st3⟩ := r
      cases o with
      | value w =>
        rw [hp, andThen_value] at h1
        rw [andThen_value]
        exact ih w l st3 s1 h1 h2
      | error m => simp [hp, Res.andThen] at h1
      | breakSignal => simp [hp, Res.andThen] at h1
      | continueSignal => simp [hp, Res.andThen] at h1
      | returnSignal w => simp [hp, Res.andThen] at h1
      | undefinedBehaviour m => simp [hp, Res.andThen] at h1
      | outsideModel m => simp [hp, Res.andThen] at h1

/-- C6: a call of a user-defined function whose arity check and parameter binding succeeded
returns nil when the evaluation of the body ends with a value `w`, whatever `w` is, and returns
`v` when the evaluation of the body ends with the return signal carrying `v`; in both cases the
call stack is popped.  A `return e` statement signals the value of `e`, and a block whose
statement ends with a return signal ends with that signal in the state that statement left:
the statements after it are not evaluated. -/
theorem C6_call_returns_nil_or_returned_value (H : Host) (fuel : Nat) (fnAST : FunctionAST)
    (closure : Nat) (args : List Value) (st : State) (fs : List Environment)
    (harity : args.length = fnAST.getProto.Args.length)
    (hbind : bindParams st.frames.length fnAST.getProto.Args args
      (Environment.child st.frames closure).1 = some fs) :
    (∀ w st2,
      eval H fuel fnAST.getBody st.frames.length
        { st with callStack := st.callStack ++ [fnAST.getProto.Name], frames := fs }
        = some (.value w, st2) →
      FunctionValue.invoke H (eval H fuel) (.user fnAST closure) args st =
        some (.value .nil, popCallStack st2)) ∧
    (∀ v st2,
      eval H fuel fnAST.getBody st.frames.length
        { st with callStack := st.callStack ++ [fnAST.getProto.Name], frames := fs }
        = some (.returnSignal v, st2) →
      FunctionValue.invoke H (eval H fuel) (.user fnAST closure) args st =
        some (.value v, popCallStack st2)) ∧
    (∀ (e : ExprAST) (env : Nat) (v : Value) (s1 s2 : State),
      eval H fuel e env s1 = some (.value v, s2) →
      eval H (fuel + 1) (.ReturnExpr e) env s1 = some (.returnSignal v, s2)) ∧
    (∀ (pre post : List ExprAST) (s : ExprAST) (env : Nat) (l v : Value) (s0 s1 s2 : State),
      evalBlock (eval H fuel) env pre .nil s0 = some (.value l, s1) →
      eval H fuel s env s1 = some (.returnSignal v, s2) →
      eval H (fuel + 1) (.BlockExpr (pre ++ s :: post)) env s0 = some (.returnSignal v, s2)) := by
  refine ⟨?_, ?_, ?_, ?_⟩
  · intro w st2 hbody
    simp only [FunctionValue.invoke, harity, ne_eq, not_true_eq_false, if_false,
      Environment.child] at hbind ⊢
    rw [hbind]
    simp only []
    rw [hbody]
  · intro v st2 hbody
    simp only [FunctionValue.invoke, harity, ne_eq, not_true_eq_false, if_false,
      Environment.child] at hbind ⊢
    rw [hbind]
    simp only []
    rw [hbody]
  · intro e env v s1 s2 he
    rw [eval_return, he, andThen_value]
  · intro pre post s env l v s0 s1 s2 hpre hs
    rw [eval_block]
    exact evalBlock_stops_at_return (eval H fuel) env s post v s2 pre .nil l s0 s1 hpre hs

/-- C6, on the function of the test `NoReturnReturnsNil`: the last statement of the body has
the value `20` and the call returns nil. -/
theorem C6_call_witness :
    ([] : List Value).length = noRetAST.getProto.Args.length ∧
    bindParams emptyGlobalState.frames.length noRetAST.getProto.Args []
      (Environment.child emptyGlobalState.frames 0).1 =
        some [{ vars_ := [], parent := none }, { vars_ := [], parent := some 0 }] ∧
    (eval bareHost 5 noRetAST.getBody 1
        { emptyGlobalState with
          callStack := ["noRet"]
          frames := [{ vars_ := [], parent := none }, { vars_ := [], parent := some 0 }] }).map
      (fun r => r.1) = some (.value (.number 20)) ∧
    (FunctionValue.invoke bareHost (eval bareHost 5) (.user noRetAST 0) [] emptyGlobalState).map
      (fun r => (r.1, r.2.callStack)) = some (.value .nil, []) := by
  have hbody : ∃ st2, eval bareHost 5 noRetAST.getBody emptyGlobalState.frames.length
      { emptyGlobalState with
        callStack := emptyGlobalState.callStack ++ [noRetAST.getProto.Name]
        frames := [{ vars_ := [], parent := none }, { vars_ := [], parent := some 0 }] }
      = some (.value (.number 20), st2) ∧ st2.callStack = ["noRet"] :=
    ⟨_, by with_unfolding_all rfl, rfl⟩
  obtain ⟨st2, hst2, hcs⟩ := hbody
  have h := (C6_call_returns_nil_or_returned_value bareHost 5 noRetAST 0 [] emptyGlobalState
    [{ vars_ := [], parent := none }, { vars_ := [], parent := some 0 }] rfl rfl).1
    (.number 20) st2 hst2
  refine ⟨rfl, rfl, by with_unfolding_all rfl, ?_⟩
  rw [h]
  simp [popCallStack, hcs]

/-! ## The arity check (C10) -/

/-- C10: invoking a user-defined function with a number of arguments that differs from the
number of parameters of its prototype throws the arity error and leaves the whole state as it
was (no frame, no binding, no change of the call stack), whatever the body is: the body is not
evaluated.  When the numbers agree, the arity check throws nothing: the call pushes the name,
binds the parameters, and an error that leaves the call is an error the body threw. -/
theorem C10_arity_check (H : Host) (ev : ExprAST → Nat → State → Res) (fnAST : FunctionAST)
    (closure : Nat) (args : List Value) (st : State) :
    (args.length ≠ fnAST.getProto.Args.length →
      FunctionValue.invoke H ev (.user fnAST closure) args st =
        some (.error ("Function '" ++ fnAST.getProto.Name ++ "' expects " ++
          toString fnAST.getProto.Args.length ++ " arguments, got " ++
          toString args.length), st)) ∧
    (args.length = fnAST.getProto.Args.length →
      ∀ (what : String) (st2 : State),
        FunctionValue.invoke H ev (.user fnAST closure) args st = some (.error what, st2) →
        ∃ fs, bindParams st.frames.length fnAST.getProto.Args args
            (Environment.child st.frames closure).1 = some fs ∧
          ev fnAST.getBody st.frames.length
            { st with callStack := st.callStack ++ [fnAST.getProto.Name], frames := fs }
            = some (.error what, st2)) := by
  constructor
  · intro h
    simp [FunctionValue.invoke, h]
  · intro h what st2 hinv
    simp only [FunctionValue.invoke, h, ne_eq, not_true_eq_false, if_false,
      Environment.child] at hinv ⊢
    cases hb : bindParams st.frames.length fnAST.getProto.Args args
        (st.frames ++ [{ vars_ := [], parent := some closure }]) with
    | none => simp [hb] at hinv
    | some fs =>
      refine ⟨fs, rfl, ?_⟩
      simp only [hb] at hinv
      cases hbody : ev fnAST.getBody st.frames.length
          { frames := fs, lists := st.lists,
            callStack := st.callStack ++ [fnAST.getProto.Name], output := st.output } with
      | none => simp [hbody] at hinv
      | some r =>
        obtain ⟨o, st3⟩ := r
        cases o with
        | value w => simp [hbody] at hinv
        | returnSignal w => simp [hbody] at hinv
        | error m =>
          simp [hbody] at hinv
          obtain ⟨h1, h2⟩ := hinv
          rw [h1, h2]
        | breakSignal => simp [hbody] at hinv
        | continueSignal => simp [hbody] at hinv
        | undefinedBehaviour m => simp [hbody] at hinv
        | outsideModel m => simp [hbody] at hinv

/-- C10, on the call `func(1, 2)` of the test `ArgumentCountMismatch`: the call throws and the
state, with its empty call stack and its single frame, is unchanged. -/
theorem C10_arity_witness :
    FunctionValue.invoke bareHost (eval bareHost 5) (.user funcAST 0)
        [.number 1, .number 2] emptyGlobalState =
      some (.error "Function 'func' expects 1 arguments, got 2", emptyGlobalState) :=
  (C10_arity_check bareHost (eval bareHost 5) funcAST 0 [.number 1, .number 2]
    emptyGlobalState).1 (by decide)

/-! ### Lookups after a write of another name, and from a new activation frame -/

theorem getAux_congr_name (frames frames2 : List Environment) (name : String)
    (hp : ∀ (j : Nat), (frames2[j]?).map (fun (fr : Environment) => fr.parent) =
      (frames[j]?).map (fun (fr : Environment) => fr.parent))
    (hb : ∀ (j : Nat), boundValue frames2 j name = boundValue frames j name) :
    ∀ (fuel i : Nat),
      Environment.getAux frames2 fuel i name = Environment.getAux frames fuel i name := by
  intro fuel
  induction fuel with
  | zero => intro i; rfl
  | succ fuel ih =>
    intro i
    have hpi := hp i
    have hbi := hb i
    cases h2 : frames2[i]? with
    | none =>
      cases h1 : frames[i]? with
      | none => simp [Environment.getAux, h1, h2]
      | some fr => simp [h1, h2] at hpi
    | some fr2 =>
      cases h1 : frames[i]? with
      | none => simp [h1, h2] at hpi
      | some fr =>
        simp only [h1, h2, Option.map_some', Option.some.injEq] at hpi
        simp only [boundValue, h1, h2] at hbi
        simp only [Environment.getAux, h1, h2, hbi, hpi, ih]

theorem get_writeAt_other (frames : List Environment) (t i : Nat) (x m : String) (v : Value)
    (h : m ≠ x) :
    Environment.get (writeAt frames t x v) i m = Environment.get frames i m :=
  getAux_congr_name frames _ m (fun j => writeAt_parent frames t j x v)
    (fun j => writeAt_boundValue_other frames t j x m v (Or.inr h)) (i + 1) i

theorem get_child (frames : List Environment) (hwf : WellFormed frames) (c : Nat)
    (hc : c < frames.length) (m : String) :
    Environment.get (Environment.child frames c).1 frames.length m =
      Environment.get frames c m := by
  have hwf2 := child_wellFormed frames hwf c hc
  have hact : (Environment.child frames c).1[frames.length]? =
      some { vars_ := [], parent := some c } := by
    simp [Environment.child]
  rw [get_parent _ hwf2 frames.length c m _ hact rfl rfl]
  apply get_congr_below frames _ m hwf c
  intro j hj
  simp only [Environment.child]
  exact List.getElem?_append_left (by omega)

/-! ## Function literals capture a copy of the frame (C4) -/

theorem get_of_boundValue (frames : List Environment) (i : Nat) (name : String) (v : Value)
    (h : boundValue frames i name = some v) :
    Environment.get frames i name = some (.ok v) := by
  unfold boundValue at h
  cases hfr : frames[i]? with
  | none => simp [hfr] at h
  | some fr =>
    simp only [hfr] at h
    exact get_bound frames i name fr v hfr h

/-- The state in which the body of a call starts: the parameter is visible from the new
activation frame, names other than the parameter are looked up as from the closure, and older
frames keep their parent pointers and their bindings of other names. -/
theorem bind_one_param (frames : List Environment) (hwf : WellFormed frames) (c : Nat)
    (hc : c < frames.length) (x : String) (v : Value) :
    ∃ fs, bindParams frames.length [x] [v] (Environment.child frames c).1 = some fs ∧
      WellFormed fs ∧
      fs.length = frames.length + 1 ∧
      Environment.get fs frames.length x = some (.ok v) ∧
      (∀ m, m ≠ x → Environment.get fs frames.length m = Environment.get frames c m) ∧
      (∀ (j : Nat), j < frames.length →
        (fs[j]?).map (fun (fr : Environment) => fr.parent) =
          (frames[j]?).map (fun (fr : Environment) => fr.parent)) ∧
      (∀ (j : Nat) (m : String), j < frames.length → m ≠ x →
        boundValue fs j m = boundValue frames j m) := by
  have hwf1 := child_wellFormed frames hwf c hc
  have hlen1 : (Environment.child frames c).1.length = frames.length + 1 := by
    simp [Environment.child]
  obtain ⟨t, _, hset, hget⟩ :=
    get_after_set (Environment.child frames c).1 hwf1 frames.length x v (by omega)
  refine ⟨writeAt (Environment.child frames c).1 t x v, ?_, writeAt_wellFormed _ hwf1 t x v,
    ?_, hget, ?_, ?_, ?_⟩
  · simp only [bindParams, hset]
  · rw [writeAt_length, hlen1]
  · intro m hm
    rw [get_writeAt_other _ t _ x m v hm]
    exact get_child frames hwf c hc m
  · intro j hj
    rw [writeAt_parent]
    simp only [Environment.child]
    rw [List.getElem?_append_left hj]
  · intro j m hj hm
    rw [writeAt_boundValue_other _ t j x m v (Or.inr hm)]
    simp only [boundValue, Environment.child]
    rw [List.getElem?_append_left hj]

theorem invoke_of_return (H : Host) (ev : ExprAST → Nat → State → Res) (fnAST : FunctionAST)
    (closure : Nat) (args : List Value) (st st2 : State) (fs : List Environment) (v : Value)
    (harity : args.length = fnAST.getProto.Args.length)
    (hbind : bindParams st.frames.length fnAST.getProto.Args args
      (Environment.child st.frames closure).1 = some fs)
    (hbody : ev fnAST.getBody st.frames.length
      { st with callStack := st.callStack ++ [fnAST.getProto.Name], frames := fs }
        = some (.returnSignal v, st2)) :
    FunctionValue.invoke H ev (.user fnAST closure) args st =
      some (.value v, popCallStack st2) := by
  simp only [FunctionValue.invoke, harity, ne_eq, not_true_eq_false, if_false,
    Environment.child] at hbind ⊢
  rw [hbind]
  simp only []
  rw [hbody]

theorem invoke_of_value (H : Host) (ev : ExprAST → Nat → State → Res) (fnAST : FunctionAST)
    (closure : Nat) (args : List Value) (st st2 : State) (fs : List Environment) (w : Value)
    (harity : args.length = fnAST.getProto.Args.length)
    (hbind : bindParams st.frames.length fnAST.getProto.Args args
      (Environment.child st.frames closure).1 = some fs)
    (hbody : ev fnAST.getBody st.frames.length
      { st with callStack := st.callStack ++ [fnAST.getProto.Name], frames := fs }
        = some (.value w, st2)) :
    FunctionValue.invoke H ev (.user fnAST closure) args st =
      some (.value .nil, popCallStack st2) := by
  simp only [FunctionValue.invoke, harity, ne_eq, not_true_eq_false, if_false,
    Environment.child] at hbind ⊢
  rw [hbind]
  simp only []
  rw [hbody]

theorem factAST_body : factAST.getBody =
    .BlockExpr
      [.IfExpr (.BinaryExpr .Equal (.VariableExpr "n") (.NumberExpr 0))
        (.ReturnExpr (.NumberExpr 1))
        (some (.ReturnExpr (.BinaryExpr .Star (.VariableExpr "n")
          (.CallExpr (.VariableExpr "fact")
            [.BinaryExpr .Minus (.VariableExpr "n") (.NumberExpr 1)]))))] := rfl

theorem factAST_name : factAST.getProto.Name = "fact" := rfl

theorem roundDouble_factorial (n : Nat) (hn : n ≤ 22) :
    roundDouble (n.factorial : ℚ) = n.factorial := by
  rcases Nat.lt_or_ge n 19 with h | h
  · apply roundDouble_natCast
    calc n.factorial ≤ (18).factorial := Nat.factorial_le (by omega)
      _ ≤ 2 ^ 53 := by decide
  · interval_cases n
    · have := roundDouble_representable 1856156927625 16 (by norm_num) (by norm_num)
      norm_num [Nat.factorial] at this ⊢
      exact this
    · have := roundDouble_representable 9280784638125 18 (by norm_num) (by norm_num)
      norm_num [Nat.factorial] at this ⊢
      exact this
    · have := roundDouble_representable 194896477400625 18 (by norm_num) (by norm_num)
      norm_num [Nat.factorial] at this ⊢
      exact this
    · have := roundDouble_representable 2143861251406875 19 (by norm_num) (by norm_num)
      norm_num [Nat.factorial] at this ⊢
      exact this

/-- Up to `22` the rounded products are the factorials: each `k!` is a `double`. -/
theorem factDouble_eq_factorial : ∀ (k : Nat), k ≤ 22 → factDouble k = (k.factorial : ℚ) := by
  intro k
  induction k with
  | zero => intro _; simp [factDouble]
  | succ k ih =>
    intro hk
    rw [factDouble, ih (by omega), ← Nat.cast_mul, ← Nat.factorial_succ]
    exact roundDouble_factorial (k + 1) hk

/-- The product `23 * 22!` is no `double`: it is rounded to the nearest one. -/
theorem factDouble_23 : factDouble 23 = 25852016738884978212864 := by
  rw [factDouble, factDouble_eq_factorial 22 le_rfl]
  have e : (((22 + 1 : Nat) : ℚ) * ((Nat.factorial 22 : Nat) : ℚ)) = 25852016738884976640000 := by
    norm_num [Nat.factorial]
  rw [e, roundDouble_of_exponent 25852016738884976640000 74 (by norm_num) (by norm_num)
    (by norm_num)]
  have hr : roundHalfEven (25852016738884976640000 / 2 ^ ((74 : ℤ) - 52)) =
      6163601097794766 := by
    have hq : (25852016738884976640000 : ℚ) / 2 ^ ((74 : ℤ) - 52) =
        6163601097794765 + 5 / 8 := by norm_num
    have hf : ⌊(25852016738884976640000 : ℚ) / 2 ^ ((74 : ℤ) - 52)⌋ = 6163601097794765 := by
      rw [hq, Int.floor_eq_iff]
      norm_num
    unfold roundHalfEven
    simp only [ratFloor_eq, hf]
    rw [hq]
    norm_num
  rw [hr]
  norm_num

theorem factDouble_finite (k : Nat) (hk : k ≤ 23) : |factDouble k| < doubleOverflow := by
  rcases Nat.lt_or_ge k 23 with h | h
  · rw [factDouble_eq_factorial k (by omega), abs_of_nonneg (by positivity)]
    have h1 : k.factorial ≤ (22).factorial := Nat.factorial_le (by omega)
    have h2 : ((k.factorial : Nat) : ℚ) ≤ (((22).factorial : Nat) : ℚ) := by exact_mod_cast h1
    refine lt_of_le_of_lt h2 ?_
    unfold doubleOverflow
    norm_num [Nat.factorial]
  · have : k = 23 := by omega
    rw [this, factDouble_23]
    unfold doubleOverflow
    norm_num

/-- Every call `fact(k)` returns the rounded product `factDouble k`, as long as the products
up to it are finite, in every state in which the closure frame of `fact` has no parent and
binds `fact` to the function. -/
theorem fact_invoke (H : Host) (c : Nat) :
    ∀ (k : Nat) (st : State), (∀ j, j ≤ k → |factDouble j| < doubleOverflow) →
      FactClosure st.frames c →
      ∃ st2, FunctionValue.invoke H (eval H (5 * k + 7)) (.user factAST c) [.number k] st =
        some (.value (.number (factDouble k)), st2) := by
  intro k
  induction k with
  | zero =>
    intro st _ ⟨hwf, hpar, hfact⟩
    have hc : c < st.frames.length := by
      cases hfr : st.frames[c]? with
      | none => simp [hfr] at hpar
      | some fr => exact (List.getElem?_eq_some_iff.mp hfr).1
    obtain ⟨fs, hbind, _, _, hn, _, _, _⟩ := bind_one_param st.frames hwf c hc "n" (.number 0)
    have hbody : ∃ st2, eval H (5 * 0 + 7) factAST.getBody st.frames.length
        { st with callStack := st.callStack ++ [factAST.getProto.Name], frames := fs }
        = some (.returnSignal (.number (factDouble 0)), st2) := by
      rw [factAST_body]
      simp only [eval_block, evalBlock, eval_if, eval_binary, eval_variable, hn, eval_number,
        andThen_value, binaryOp, valueEq, Value.isNil, eval_return]
      simp [Value.asBool, Res.andThen, factDouble]
    obtain ⟨st2, h⟩ := hbody
    exact ⟨_, invoke_of_return H _ factAST c _ st st2 fs _ rfl hbind h⟩
  | succ k ih =>
    intro st hfin ⟨hwf, hpar, hfact⟩
    have hc : c < st.frames.length := by
      cases hfr : st.frames[c]? with
      | none => simp [hfr] at hpar
      | some fr => exact (List.getElem?_eq_some_iff.mp hfr).1
    obtain ⟨fs, hbind, hwfA, _, hn, hother, hparA, hbvA⟩ :=
      bind_one_param st.frames hwf c hc "n" (.number ((k + 1 : Nat) : ℚ))
    have hf : Environment.get fs st.frames.length "fact" =
        some (.ok (.func (.user factAST c))) := by
      rw [hother "fact" (by decide)]
      exact get_of_boundValue _ _ _ _ hfact
    have hinvA : FactClosure fs c :=
      ⟨hwfA, by rw [hparA c hc]; exact hpar, by rw [hbvA c "fact" hc (by decide)]; exact hfact⟩
    obtain ⟨st2, hrec⟩ := ih
      { frames := fs, lists := st.lists, callStack := st.callStack ++ ["fact"],
        output := st.output } (fun j hj => hfin j (by omega)) hinvA
    have hfin1 : |roundDouble (((k + 1 : Nat) : ℚ) * factDouble k)| < doubleOverflow :=
      hfin (k + 1) le_rfl
    have hsub : ((k + 1 : Nat) : ℚ) - 1 = (k : ℚ) := by push_cast; ring
    have hne : ¬ ((k + 1 : Nat) : ℚ) = 0 := by
      exact_mod_cast Nat.succ_ne_zero k
    have hbody : ∃ st3, eval H (5 * (k + 1) + 7) factAST.getBody st.frames.length
        { st with callStack := st.callStack ++ [factAST.getProto.Name], frames := fs }
        = some (.returnSignal (.number (factDouble (k + 1))), st3) := by
      rw [factAST_body, show 5 * (k + 1) + 7 = 5 * k + 12 from by ring]
      simp only [eval_block, evalBlock, eval_if, eval_binary, eval_variable, hn, eval_number,
        andThen_value, binaryOp, valueEq, Value.isNil, eval_return, eval_call, hf, evalList,
        opSub, numericBin, Value.asNumeric, hsub, Bool.or_self, Bool.false_eq_true, if_false,
        hne, decide_False, Value.asBool, Option.map_some', factAST_name]
      rw [hrec]
      simp only [andThen_value, opMul, numericBin, Value.asNumeric, doubleResult, if_pos hfin1]
      simp [factDouble, Res.andThen]
    obtain ⟨st3, h⟩ := hbody
    exact ⟨_, invoke_of_return H _ factAST c _ st st3 fs _ rfl hbind h⟩

/-- In a well-formed state whose global frame `0` has no parent, evaluating the top-level
assignment `fact = function(n) if n == 0 then return 1 else return n * fact(n - 1) end if end
function` succeeds, and afterwards every call `fact(n)` evaluated at top level returns the
rounded product `factDouble n` (with fuel `5 * n + 8`), as long as the products up to it are
finite.  The recursive call finds `fact` in the closure frame of the function, where the
assignment bound it. -/
theorem fact_after_assignment (H : Host) (st0 : State) (G : Environment)
    (h0 : st0.frames[0]? = some G) (hG : G.parent = none) (hwf : WellFormed st0.frames) :
    ∃ st1,
      eval H 2 (.AssignmentExpr "fact" (.FunctionLiteralExpr factAST)) 0 st0 =
        some (.value (.func (.user factAST st0.frames.length)), st1) ∧
      boundValue st1.frames st0.frames.length "fact" =
        some (.func (.user factAST st0.frames.length)) ∧
      ∀ (n : Nat), (∀ j, j ≤ n → |factDouble j| < doubleOverflow) → ∃ st2,
        eval H (5 * n + 8) (.CallExpr (.VariableExpr "fact") [.NumberExpr n]) 0 st1 =
          some (.value (.number (factDouble n)), st2) := by
  have hlen : 0 < st0.frames.length := (List.getElem?_eq_some_iff.mp h0).1
  have hcopy : Environment.copy st0.frames 0 =
      some (st0.frames ++ [{ vars_ := G.vars_, parent := G.parent }], st0.frames.length) := by
    simp [Environment.copy, h0]
  have hwf1 := copy_wellFormed st0.frames _ hwf 0 _ hcopy
  generalize hfs1 : st0.frames ++ [({ vars_ := G.vars_, parent := G.parent } : Environment)]
    = fs1 at hcopy hwf1
  have hlen1 : fs1.length = st0.frames.length + 1 := by rw [← hfs1]; simp
  have h01 : fs1[0]? = some G := by
    rw [← hfs1, List.getElem?_append_left hlen]; exact h0
  have hc1 : fs1[st0.frames.length]? = some { vars_ := G.vars_, parent := G.parent } := by
    rw [← hfs1]; simp
  -- the write into the global frame
  have hset1 : Environment.set fs1 0 "fact" (.func (.user factAST st0.frames.length)) =
      some (writeAt fs1 0 "fact" (.func (.user factAST st0.frames.length))) := by
    cases hm : mapFind G.vars_ "fact" with
    | some w => exact set_bound fs1 0 "fact" G _ w h01 hm
    | none => exact set_root fs1 0 "fact" G _ h01 hm hG
  have hwf2 := writeAt_wellFormed fs1 hwf1 0 "fact" (.func (.user factAST st0.frames.length))
  have hne : st0.frames.length ≠ 0 := by omega
  have hc2 : (writeAt fs1 0 "fact" (.func (.user factAST st0.frames.length)))[st0.frames.length]?
      = some { vars_ := G.vars_, parent := G.parent } := by
    rw [writeAt_getElem_ne fs1 0 _ "fact" _ hne, hc1]
  -- the write into the closure frame
  have hset2 : Environment.set (writeAt fs1 0 "fact" (.func (.user factAST st0.frames.length)))
      st0.frames.length "fact" (.func (.user factAST st0.frames.length)) =
      some (writeAt (writeAt fs1 0 "fact" (.func (.user factAST st0.frames.length)))
        st0.frames.length "fact" (.func (.user factAST st0.frames.length))) := by
    cases hm : mapFind G.vars_ "fact" with
    | some w => exact set_bound _ _ "fact" _ _ w hc2 hm
    | none => exact set_root _ _ "fact" _ _ hc2 hm hG
  generalize hfs2 : writeAt fs1 0 "fact" (.func (.user factAST st0.frames.length)) = fs2
    at hset1 hset2 hwf2 hc2
  have hlen2 : fs2.length = st0.frames.length + 1 := by rw [← hfs2, writeAt_length, hlen1]
  have hb2 : boundValue fs2 0 "fact" = some (.func (.user factAST st0.frames.length)) := by
    rw [← hfs2]
    exact writeAt_boundValue_self fs1 0 "fact" _ (by omega)
  have hwf3 := writeAt_wellFormed fs2 hwf2 st0.frames.length "fact"
    (.func (.user factAST st0.frames.length))
  have hb3 := writeAt_boundValue_self fs2 st0.frames.length "fact"
    (.func (.user factAST st0.frames.length)) (by omega)
  have hb0 : boundValue (writeAt fs2 st0.frames.length "fact"
      (.func (.user factAST st0.frames.length))) 0 "fact" =
      some (.func (.user factAST st0.frames.length)) := by
    rw [writeAt_boundValue_other fs2 _ 0 "fact" "fact" _ (Or.inl (Ne.symm hne))]
    exact hb2
  have hpar3 : ((writeAt fs2 st0.frames.length "fact"
      (.func (.user factAST st0.frames.length)))[st0.frames.length]?).map
      (fun (fr : Environment) => fr.parent) = some none := by
    rw [writeAt_parent, hc2]
    simp [hG]
  generalize hfs3 : writeAt fs2 st0.frames.length "fact"
    (.func (.user factAST st0.frames.length)) = fs3 at hset2 hwf3 hb3 hb0 hpar3
  refine ⟨{ st0 with frames := fs3 }, ?_, hb3, ?_⟩
  · rw [show (2 : Nat) = 1 + 1 from rfl, eval_assignment, eval_functionLiteral, hcopy]
    simp only [andThen_value, hset1, hset2]
  · intro n hfin
    obtain ⟨st2, hinv⟩ := fact_invoke H st0.frames.length n { st0 with frames := fs3 } hfin
      ⟨hwf3, hpar3, hb3⟩
    refine ⟨st2, ?_⟩
    have hget := get_of_boundValue fs3 0 "fact" _ hb0
    simp only [eval_call, eval_variable, hget, andThen_value, evalList, eval_number]
    exact hinv

/-- C7, as stated, fails: in the state in which `interpret` starts a program, after the
assignment of `fact` the call `fact(23)` returns `25852016738884978212864`, the `double`
nearest to `23 * 22!`, and not `23! = 25852016738884976640000`. -/
theorem C7_counterexample :
    ∃ st1 st2,
      eval bareHost 2 (.AssignmentExpr "fact" (.FunctionLiteralExpr factAST)) 0
          (initialState bareHost) = some (.value (.func (.user factAST 1)), st1) ∧
      eval bareHost (5 * 23 + 8) (.CallExpr (.VariableExpr "fact") [.NumberExpr (23 : Nat)]) 0
          st1 = some (.value (.number 25852016738884978212864), st2) ∧
      (25852016738884978212864 : ℚ) ≠ ((Nat.factorial 23 : Nat) : ℚ) := by
  obtain ⟨st1, h1, _, h2⟩ := fact_after_assignment bareHost (initialState bareHost)
    { vars_ := [], parent := none } rfl rfl (wellFormed_of_wfCheck _ (by decide))
  obtain ⟨st2, h3⟩ := h2 23 (fun j hj => factDouble_finite j hj)
  rw [factDouble_23] at h3
  refine ⟨st1, st2, h1, h3, ?_⟩
  norm_num [Nat.factorial]

/-- C7, amended: in a well-formed state whose global frame `0` has no parent, evaluating the
top-level assignment `fact = function(n) if n == 0 then return 1 else return n * fact(n - 1)
end if end function` succeeds, and afterwards, for every natural number `n` up to `22`, the
call `fact(n)` evaluated at top level returns `n!` (with fuel `5 * n + 8`): up to `22!` every
product is a `double`.  The recursive call finds `fact` in the closure frame of the function,
where the assignment bound it.  The depth of the host stack is outside the model. -/
theorem C7_factorial_by_self_reference (H : Host) (st0 : State) (G : Environment)
    (h0 : st0.frames[0]? = some G) (hG : G.parent = none) (hwf : WellFormed st0.frames) :
    ∃ st1,
      eval H 2 (.AssignmentExpr "fact" (.FunctionLiteralExpr factAST)) 0 st0 =
        some (.value (.func (.user factAST st0.frames.length)), st1) ∧
      boundValue st1.frames st0.frames.length "fact" =
        some (.func (.user factAST st0.frames.length)) ∧
      ∀ (n : Nat), n ≤ 22 → ∃ st2,
        eval H (5 * n + 8) (.CallExpr (.VariableExpr "fact") [.NumberExpr n]) 0 st1 =
          some (.value (.number (n.factorial : ℚ)), st2) := by
  obtain ⟨st1, h1, h2, h3⟩ := fact_after_assignment H st0 G h0 hG hwf
  refine ⟨st1, h1, h2, ?_⟩
  intro n hn
  obtain ⟨st2, h4⟩ := h3 n (fun j hj => factDouble_finite j (by omega))
  rw [factDouble_eq_factorial n hn] at h4
  exact ⟨st2, h4⟩

/-- C7, amended, in the state in which `interpret` starts a program: `fact(5)` returns `120`. -/
theorem C7_factorial_witness :
    (initialState bareHost).frames[0]? = some { vars_ := [], parent := none } ∧
    WellFormed (initialState bareHost).frames ∧
    ∃ st1 st2,
      eval bareHost 2 (.AssignmentExpr "fact" (.FunctionLiteralExpr factAST)) 0
          (initialState bareHost) = some (.value (.func (.user factAST 1)), st1) ∧
      eval bareHost 33 (.CallExpr (.VariableExpr "fact") [.NumberExpr 5]) 0 st1 =
        some (.value (.number 120), st2) := by
  refine ⟨rfl, wellFormed_of_wfCheck _ (by decide), ?_⟩
  obtain ⟨st1, h1, _, h2⟩ := C7_factorial_by_self_reference bareHost (initialState bareHost)
    { vars_ := [], parent := none } rfl rfl (wellFormed_of_wfCheck _ (by decide))
  obtain ⟨st2, h3⟩ := h2 5 (by norm_num)
  refine ⟨st1, st2, h1, ?_⟩
  have h5 : ((Nat.factorial 5 : Nat) : ℚ) = 120 := by norm_num [Nat.factorial]
  rw [← h5]
  exact h3

/-! ## Independent closures per call (C8) -/

theorem andThen_return (v : Value) (st : State) (k : Value → State → Res) :
    Res.andThen (some (.returnSignal v, st)) k = some (.returnSignal v, st) := rfl

theorem andThen_error (what : String) (st : State) (k : Value → State → Res) :
    Res.andThen (some (.error what, st)) k = some (.error what, st) := rfl

theorem counterInnerAST_body : counterInnerAST.getBody =
    .BlockExpr
      [.AssignmentExpr "count" (.BinaryExpr .Plus (.VariableExpr "count") (.NumberExpr 1)),
       .ReturnExpr (.VariableExpr "count")] := rfl

theorem boundValue_lt (frames : List Environment) (j : Nat) (name : String) (v : Value)
    (h : boundValue frames j name = some v) : j < frames.length := by
  unfold boundValue at h
  cases hfr : frames[j]? with
  | none => simp [hfr] at h
  | some fr => exact (List.getElem?_eq_some_iff.mp hfr).1

/-- A call of the inner function closed over frame `f` increments the `count` of frame `f`
and returns the new count; the frames afterwards are the old ones, the activation frame, and
that one write. -/
theorem counter_invoke (H : Host) (fuel : Nat) (st : State) (f k : Nat)
    (hwf : WellFormed st.frames)
    (hcount : boundValue st.frames f "count" = some (.number (k : ℚ))) :
    ∃ st2, FunctionValue.invoke H (eval H (fuel + 4)) (.user counterInnerAST f) [] st =
        some (.value (.number ((k + 1 : Nat) : ℚ)), st2) ∧
      st2.frames =
        writeAt (Environment.child st.frames f).1 f "count" (.number ((k + 1 : Nat) : ℚ)) := by
  have hf : f < st.frames.length := boundValue_lt _ _ _ _ hcount
  have hwf1 := child_wellFormed st.frames hwf f hf
  have hlen1 : (Environment.child st.frames f).1.length = st.frames.length + 1 := by
    simp [Environment.child]
  have hact : (Environment.child st.frames f).1[st.frames.length]? =
      some { vars_ := [], parent := some f } := by
    simp [Environment.child]
  have hg0 : Environment.get (Environment.child st.frames f).1 st.frames.length "count" =
      some (.ok (.number (k : ℚ))) := by
    rw [get_child st.frames hwf f hf]
    exact get_of_boundValue _ _ _ _ hcount
  have hgf : Environment.get (Environment.child st.frames f).1 f "count" =
      some (.ok (.number (k : ℚ))) := by
    rw [← hg0, get_parent _ hwf1 st.frames.length f "count" _ hact rfl rfl]
  have hbf : boundValue (Environment.child st.frames f).1 f "count" =
      some (.number (k : ℚ)) := by
    simp only [boundValue, Environment.child]
    rw [List.getElem?_append_left hf]
    exact hcount
  have hset : Environment.set (Environment.child st.frames f).1 st.frames.length "count"
      (.number ((k + 1 : Nat) : ℚ)) =
      some (writeAt (Environment.child st.frames f).1 f "count"
        (.number ((k + 1 : Nat) : ℚ))) := by
    rw [set_parent_bound _ hwf1 st.frames.length f "count" _ _ _ hact rfl rfl hgf]
    unfold boundValue at hbf
    cases hfr : (Environment.child st.frames f).1[f]? with
    | none => simp [hfr] at hbf
    | some fr =>
      simp only [hfr] at hbf
      exact set_bound _ f "count" fr _ _ hfr hbf
  have hwf2 := writeAt_wellFormed _ hwf1 f "count" (.number ((k + 1 : Nat) : ℚ))
  have hact2 : (writeAt (Environment.child st.frames f).1 f "count"
      (.number ((k + 1 : Nat) : ℚ)))[st.frames.length]? =
      some { vars_ := [], parent := some f } := by
    rw [writeAt_getElem_ne _ f _ "count" _ (by omega), hact]
  have hg2 : Environment.get (writeAt (Environment.child st.frames f).1 f "count"
      (.number ((k + 1 : Nat) : ℚ))) st.frames.length "count" =
      some (.ok (.number ((k + 1 : Nat) : ℚ))) := by
    rw [get_parent _ hwf2 st.frames.length f "count" _ hact2 rfl rfl]
    exact get_of_boundValue _ _ _ _ (writeAt_boundValue_self _ f "count" _ (by omega))
  have hcast : (k : ℚ) + 1 = ((k + 1 : Nat) : ℚ) := by push_cast; ring
  refine ⟨popCallStack { st with
    callStack := st.callStack ++ [counterInnerAST.getProto.Name]
    frames := writeAt (Environment.child st.frames f).1 f "count"
      (.number ((k + 1 : Nat) : ℚ)) }, ?_, rfl⟩
  apply invoke_of_return H _ counterInnerAST f [] st _ (Environment.child st.frames f).1 _ rfl
    (by simp [bindParams])
  rw [counterInnerAST_body]
  simp only [eval_block, evalBlock, eval_assignment, eval_binary, eval_variable, hg0,
    eval_number, andThen_value, binaryOp, opAdd, numericBin, Value.asNumeric, hcast, hset,
    eval_return, hg2, andThen_return]

theorem counter_frames_after (frames : List Environment) (hwf : WellFormed frames) (f : Nat)
    (v : Value) (hf : f < frames.length) :
    WellFormed (writeAt (Environment.child frames f).1 f "count" v) ∧
    (∀ m, m ≠ "count" →
      Environment.get (writeAt (Environment.child frames f).1 f "count" v) 0 m =
        Environment.get frames 0 m) ∧
    boundValue (writeAt (Environment.child frames f).1 f "count" v) f "count" = some v ∧
    (∀ j, j ≠ f → j < frames.length →
      boundValue (writeAt (Environment.child frames f).1 f "count" v) j "count" =
        boundValue frames j "count") := by
  have hwf1 := child_wellFormed frames hwf f hf
  refine ⟨writeAt_wellFormed _ hwf1 f "count" v, ?_, ?_, ?_⟩
  · intro m hm
    rw [get_writeAt_other _ f 0 "count" m v hm]
    apply get_congr_below frames _ m hwf 0
    intro j hj
    simp only [Environment.child]
    exact List.getElem?_append_left (by omega)
  · exact writeAt_boundValue_self _ f "count" v (by simp [Environment.child]; omega)
  · intro j hj hjl
    rw [writeAt_boundValue_other _ f j "count" "count" v (Or.inl hj)]
    simp only [boundValue, Environment.child]
    rw [List.getElem?_append_left hjl]

theorem counter_call_first (H : Host) (fuel : Nat) (st : State) (f1 f2 k1 k2 : Nat)
    (hinv : CounterInv st.frames f1 f2 k1 k2) :
    ∃ st2, eval H (fuel + 5) (counterCall true) 0 st =
        some (.value (.number ((k1 + 1 : Nat) : ℚ)), st2) ∧
      CounterInv st2.frames f1 f2 (k1 + 1) k2 := by
  obtain ⟨hwf, hne, hc1, hc2, hb1, hb2⟩ := hinv
  obtain ⟨st2, hinvoke, hframes⟩ := counter_invoke H fuel st f1 k1 hwf hb1
  have hf1 := boundValue_lt _ _ _ _ hb1
  have hf2 := boundValue_lt _ _ _ _ hb2
  obtain ⟨q1, q2, q3, q4⟩ := counter_frames_after st.frames hwf f1
    (.number ((k1 + 1 : Nat) : ℚ)) hf1
  refine ⟨st2, ?_, ?_⟩
  · simp only [counterCall, if_true, eval_call, eval_variable, hc1, andThen_value, evalList]
    exact hinvoke
  · rw [hframes]
    exact ⟨q1, hne, by rw [q2 "c1" (by decide)]; exact hc1,
      by rw [q2 "c2" (by decide)]; exact hc2, q3,
      by rw [q4 f2 (Ne.symm hne) hf2]; exact hb2⟩

theorem counter_call_second (H : Host) (fuel : Nat) (st : State) (f1 f2 k1 k2 : Nat)
    (hinv : CounterInv st.frames f1 f2 k1 k2) :
    ∃ st2, eval H (fuel + 5) (counterCall false) 0 st =
        some (.value (.number ((k2 + 1 : Nat) : ℚ)), st2) ∧
      CounterInv st2.frames f1 f2 k1 (k2 + 1) := by
  obtain ⟨hwf, hne, hc1, hc2, hb1, hb2⟩ := hinv
  obtain ⟨st2, hinvoke, hframes⟩ := counter_invoke H fuel st f2 k2 hwf hb2
  have hf1 := boundValue_lt _ _ _ _ hb1
  have hf2 := boundValue_lt _ _ _ _ hb2
  obtain ⟨q1, q2, q3, q4⟩ := counter_frames_after st.frames hwf f2
    (.number ((k2 + 1 : Nat) : ℚ)) hf2
  refine ⟨st2, ?_, ?_⟩
  · simp only [counterCall, Bool.false_eq_true, if_false, eval_call, eval_variable, hc2,
      andThen_value, evalList]
    exact hinvoke
  · rw [hframes]
    exact ⟨q1, hne, by rw [q2 "c1" (by decide)]; exact hc1,
      by rw [q2 "c2" (by decide)]; exact hc2,
      by rw [q4 f1 hne hf1]; exact hb1, q3⟩

theorem counter_interleaving (H : Host) (fuel : Nat) :
    ∀ (calls : List Bool) (st : State) (f1 f2 k1 k2 : Nat),
      CounterInv st.frames f1 f2 k1 k2 →
      ∃ st2, evalList (eval H (fuel + 5)) 0 (calls.map counterCall) st =
        some (.ok (tally k1 k2 calls), st2) := by
  intro calls
  induction calls with
  | nil => intro st f1 f2 k1 k2 _; exact ⟨st, rfl⟩
  | cons b rest ih =>
    intro st f1 f2 k1 k2 hinv
    cases b with
    | true =>
      obtain ⟨st1, hcall, hinv1⟩ := counter_call_first H fuel st f1 f2 k1 k2 hinv
      obtain ⟨st2, hrest⟩ := ih st1 f1 f2 (k1 + 1) k2 hinv1
      exact ⟨st2, by simp only [List.map_cons, evalList, hcall, hrest, tally]⟩
    | false =>
      obtain ⟨st1, hcall, hinv1⟩ := counter_call_second H fuel st f1 f2 k1 k2 hinv
      obtain ⟨st2, hrest⟩ := ih st1 f1 f2 k1 (k2 + 1) hinv1
      exact ⟨st2, by simp only [List.map_cons, evalList, hcall, hrest, tally]⟩

theorem counter_setup (H : Host) (fuel : Nat) (vars : List (String × Value))
    (ls : List (List Value)) (cs : List String) (out : String)
    (h1 : mapFind vars "count" = none) (h2 : mapFind vars "makeCounter" = none)
    (h3 : mapFind vars "c1" = none) (h4 : mapFind vars "c2" = none) :
    ∃ st3, runTopLevel H (fuel + 5) counterSetup
        { frames := [{ vars_ := vars, parent := none }], lists := ls, callStack := cs,
          output := out } = some (.value .nil, st3) ∧
      CounterInv st3.frames 3 5 0 0 := by
  simp [runTopLevel, counterSetup, topLevel, FunctionAST.getProto, FunctionAST.getBody,
    eval_assignment, eval_functionLiteral, eval_call, eval_variable, eval_block, eval_return,
    eval_number, andThen_value, andThen_return, evalList, evalBlock,
    Environment.copy, Environment.set, Environment.setAux, Environment.get,
    Environment.getAux, Environment.child, FunctionValue.invoke, bindParams, makeCounterAST,
    h1, h2, h3, h4, mapFind_mapAssign_same, mapFind_mapAssign_other, mapFind, mapAssign,
    popCallStack]
  refine ⟨wellFormed_of_wfCheck _ (by rfl), by decide, ?_, ?_, ?_, ?_⟩
  · simp [Environment.get, Environment.getAux, mapFind_mapAssign_same, mapFind_mapAssign_other]
  · simp [Environment.get, Environment.getAux, mapFind_mapAssign_same]
  · simp [boundValue, mapFind]
  · simp [boundValue, mapFind]

theorem tally_length : ∀ (calls : List Bool) (k1 k2 : Nat),
    (tally k1 k2 calls).length = calls.length := by
  intro calls
  induction calls with
  | nil => intro k1 k2; rfl
  | cons a rest ih =>
    intro k1 k2
    cases a <;> simp [tally, ih]

theorem tally_getElem : ∀ (calls : List Bool) (k1 k2 i : Nat) (b : Bool),
    calls[i]? = some b →
    (tally k1 k2 calls)[i]? =
      some (.number (((if b then k1 else k2) + (calls.take (i + 1)).count b : Nat) : ℚ)) := by
  intro calls
  induction calls with
  | nil => intro k1 k2 i b h; simp at h
  | cons a rest ih =>
    intro k1 k2 i b h
    cases i with
    | zero =>
      simp at h
      subst h
      cases a <;> simp [tally]
    | succ i =>
      simp at h
      cases a with
      | true =>
        simp only [tally, List.getElem?_cons_succ, ih (k1 + 1) k2 i b h]
        cases b <;> simp [List.count_cons]
        ring
      | false =>
        simp only [tally, List.getElem?_cons_succ, ih k1 (k2 + 1) i b h]
        cases b <;> simp [List.count_cons]
        ring

/-- C8: start a program with a single global frame that binds none of `count`, `makeCounter`,
`c1`, `c2` (as the builtins do not).  After the three statements of the scenario (`makeCounter
= function() count = 0 return function() count = count + 1 return count end function end
function`, `c1 = makeCounter()`, `c2 = makeCounter()`), every sequence of calls of `c1` (`true`)
and `c2` (`false`), evaluated in order at top level, returns one number per call, and the call
at position `i` returns how many calls of the same closure the sequence holds up to and
including position `i`: the `k`-th call of `c1` returns `k` and the `k`-th call of `c2` returns
`k`, whatever the interleaving. -/
theorem C8_independent_counters (H : Host) (fuel : Nat) (vars : List (String × Value))
    (ls : List (List Value)) (cs : List String) (out : String)
    (h1 : mapFind vars "count" = none) (h2 : mapFind vars "makeCounter" = none)
    (h3 : mapFind vars "c1" = none) (h4 : mapFind vars "c2" = none) :
    ∃ st3, runTopLevel H (fuel + 5) counterSetup
        { frames := [{ vars_ := vars, parent := none }], lists := ls, callStack := cs,
          output := out } = some (.value .nil, st3) ∧
      ∀ (calls : List Bool), ∃ vals st4,
        evalList (eval H (fuel + 5)) 0 (calls.map counterCall) st3 = some (.ok vals, st4) ∧
        vals.length = calls.length ∧
        ∀ (i : Nat) (b : Bool), calls[i]? = some b →
          vals[i]? = some (.number (((calls.take (i + 1)).count b : Nat) : ℚ)) := by
  obtain ⟨st3, hsetup, hinv⟩ := counter_setup H fuel vars ls cs out h1 h2 h3 h4
  refine ⟨st3, hsetup, ?_⟩
  intro calls
  obtain ⟨st4, hcalls⟩ := counter_interleaving H fuel calls st3 3 5 0 0 hinv
  refine ⟨tally 0 0 calls, st4, hcalls, tally_length calls 0 0, ?_⟩
  intro i b hb
  rw [tally_getElem calls 0 0 i b hb]
  cases b <;> simp

/-- C8, on the calls of the test `IndependentAdders` (`c1`, `c1`, `c2`, `c1`, `c2`) from the
state in which `interpret` starts: the fourth call, the third one of `c1`, returns `3`, and the
fifth call, the second one of `c2`, returns `2`. -/
theorem C8_counters_witness :
    mapFind ([] : List (String × Value)) "count" = none ∧
    ∃ st3 vals st4,
      runTopLevel bareHost 5 counterSetup (initialState bareHost) = some (.value .nil, st3) ∧
      evalList (eval bareHost 5) 0 ([true, true, false, true, false].map counterCall) st3 =
        some (.ok vals, st4) ∧
      vals[3]? = some (.number 3) ∧ vals[4]? = some (.number 2) := by
  refine ⟨rfl, ?_⟩
  obtain ⟨st3, hsetup, hcalls⟩ :=
    C8_independent_counters bareHost 0 [] [] [] "" rfl rfl rfl rfl
  obtain ⟨vals, st4, hev, _, hvals⟩ := hcalls [true, true, false, true, false]
  refine ⟨st3, vals, st4, hsetup, hev, ?_, ?_⟩
  · rw [hvals 3 true rfl]
    norm_num
  · rw [hvals 4 false rfl]
    norm_num

/-! ## One closure per evaluation of a literal (C9) -/

theorem whileLoop_step_true (ev : ExprAST → Nat → State → Res) (Cond Body : ExprAST)
    (env m : Nat) (result c v : Value) (st st1 st2 : State)
    (hc : ev Cond env st = some (.value c, st1)) (hb : c.asBool st1.lists = true)
    (hbody : ev Body env st1 = some (.value v, st2)) :
    whileLoop ev Cond Body env (m + 1) result st = whileLoop ev Cond Body env m v st2 := by
  simp only [whileLoop, hc, andThen_value, hb, if_true, hbody]

theorem whileLoop_step_false (ev : ExprAST → Nat → State → Res) (Cond Body : ExprAST)
    (env m : Nat) (result c : Value) (st st1 : State)
    (hc : ev Cond env st = some (.value c, st1)) (hb : c.asBool st1.lists = false) :
    whileLoop ev Cond Body env (m + 1) result st = some (.value result, st1) := by
  simp only [whileLoop, hc, andThen_value, hb, Bool.false_eq_true, if_false]

theorem loop_cond (H : Host) (w : Nat) (st : State) (A n j : Nat) (hinv : LoopInv st A n j) :
    eval H (w + 5) makeFuncsCond A st = some (.value (.bool (decide (j < n))), st) := by
  obtain ⟨_, frA, p, hA, hn, hi, _, _, _⟩ := hinv
  have gi := get_bound st.frames A "i" frA _ hA hi
  have gn := get_bound st.frames A "n" frA _ hA hn
  simp only [makeFuncsCond, eval_binary, eval_variable, gi, gn, andThen_value, binaryOp,
    valueLt, Value.isNil, Bool.or_self, Bool.false_eq_true, if_false, Option.map_some',
    boolOutcome, Nat.cast_lt]

theorem derefList_append_left (ls xs : List (List Value)) (p : Nat) (h : p < ls.length) :
    derefList (ls ++ xs) p = derefList ls p := by
  simp only [derefList]
  rw [List.getElem?_append_left h]

theorem derefList_append_self (ls : List (List Value)) (x : List Value) :
    derefList (ls ++ [x]) ls.length = x := by
  simp [derefList]

theorem loop_iteration (H : Host) (w : Nat) (st : State) (A n j : Nat)
    (hinv : LoopInv st A n j) :
    ∃ v st2, eval H (w + 5) makeFuncsLoopBody A st = some (.value v, st2) ∧
      LoopInv st2 A n (j + 1) := by
  obtain ⟨hwf, frA, p, hA, hn, hi, hl, hp, hlen, hgood⟩ := hinv
  have hAl : A < st.frames.length := (List.getElem?_eq_some_iff.mp hA).1
  have g_lst := get_bound st.frames A "lst" frA _ hA hl
  have hcopy : Environment.copy st.frames A =
      some (st.frames ++ [{ vars_ := frA.vars_, parent := frA.parent }], st.frames.length) := by
    simp [Environment.copy, hA]
  have hwf1 := copy_wellFormed st.frames _ hwf A _ hcopy
  have hA1 : (st.frames ++ [({ vars_ := frA.vars_, parent := frA.parent } : Environment)])[A]?
      = some frA := by
    rw [List.getElem?_append_left hAl]; exact hA
  have hc1 : (st.frames ++ [({ vars_ := frA.vars_, parent := frA.parent } : Environment)])[
      st.frames.length]? = some { vars_ := frA.vars_, parent := frA.parent } := by
    simp
  have hold1 : ∀ c, c < st.frames.length →
      boundValue (st.frames ++ [({ vars_ := frA.vars_, parent := frA.parent } : Environment)])
        c "i" = boundValue st.frames c "i" := by
    intro c hc
    simp only [boundValue]
    rw [List.getElem?_append_left hc]
  generalize hF1 : st.frames ++ [({ vars_ := frA.vars_, parent := frA.parent } : Environment)]
    = F1 at hcopy hwf1 hA1 hc1 hold1
  have hF1len : F1.length = st.frames.length + 1 := by rw [← hF1]; simp
  -- the first assignment
  have hset1 : Environment.set F1 A "lst" (.list (st.lists.length + 1)) =
      some (writeAt F1 A "lst" (.list (st.lists.length + 1))) :=
    set_bound F1 A "lst" frA _ _ hA1 hl
  have hwf2 := writeAt_wellFormed F1 hwf1 A "lst" (.list (st.lists.length + 1))
  have hA2 := writeAt_getElem_self F1 A "lst" (.list (st.lists.length + 1)) frA hA1
  generalize hF2 : writeAt F1 A "lst" (.list (st.lists.length + 1)) = F2 at hset1 hwf2 hA2
  have hi2 : mapFind (mapAssign frA.vars_ "lst" (.list (st.lists.length + 1))) "i" =
      some (.number (j : ℚ)) := by
    rw [mapFind_mapAssign_other _ _ _ _ (by decide)]; exact hi
  have g_i := get_bound F2 A "i" _ _ hA2 hi2
  -- the second assignment
  have hcast : (j : ℚ) + 1 = ((j + 1 : Nat) : ℚ) := by push_cast; ring
  have hset2 : Environment.set F2 A "i" (.number ((j + 1 : Nat) : ℚ)) =
      some (writeAt F2 A "i" (.number ((j + 1 : Nat) : ℚ))) :=
    set_bound F2 A "i" _ _ _ hA2 hi2
  have hwf3 := writeAt_wellFormed F2 hwf2 A "i" (.number ((j + 1 : Nat) : ℚ))
  have hA3 := writeAt_getElem_self F2 A "i" (.number ((j + 1 : Nat) : ℚ)) _ hA2
  refine ⟨.number ((j + 1 : Nat) : ℚ),
    { frames := writeAt F2 A "i" (.number ((j + 1 : Nat) : ℚ))
      lists := st.lists ++ [[.func (.user retIAST st.frames.length)]] ++
        [derefList st.lists p ++ [.func (.user retIAST st.frames.length)]]
      callStack := st.callStack
      output := st.output }, ?_, hwf3, _, st.lists.length + 1, hA3, ?_, ?_, ?_, ?_, ?_⟩
  · simp only [makeFuncsLoopBody, eval_block, evalBlock, eval_assignment, eval_binary,
      eval_variable, g_lst, andThen_value, eval_list, evalList, eval_functionLiteral, hcopy,
      allocList, binaryOp, opAdd, List.length_append, List.length_singleton, hset1, g_i,
      eval_number, numericBin, Value.asNumeric, hcast, hset2,
      derefList_append_left _ _ p hp, derefList_append_self]
  · rw [mapFind_mapAssign_other _ _ _ _ (by decide),
      mapFind_mapAssign_other _ _ _ _ (by decide)]
    exact hn
  · exact mapFind_mapAssign_same _ _ _
  · rw [mapFind_mapAssign_other _ _ _ _ (by decide)]
    exact mapFind_mapAssign_same _ _ _
  · simp
  · -- the list now holds one more function, closed over the copy just made
    have hd : derefList (st.lists ++ [[Value.func (.user retIAST st.frames.length)]] ++
        [derefList st.lists p ++ [.func (.user retIAST st.frames.length)]])
        (st.lists.length + 1) =
        derefList st.lists p ++ [.func (.user retIAST st.frames.length)] := by
      have := derefList_append_self (st.lists ++ [[Value.func (.user retIAST st.frames.length)]])
        (derefList st.lists p ++ [.func (.user retIAST st.frames.length)])
      simpa using this
    show GoodFuncs _ A (derefList _ _) (j + 1)
    rw [hd]
    have hglen := hlen
    have hgel := hgood
    have hb3 : ∀ c, c ≠ A →
        boundValue (writeAt F2 A "i" (.number ((j + 1 : Nat) : ℚ))) c "i" =
          boundValue F1 c "i" := by
      intro c hc
      rw [writeAt_boundValue_other F2 A c "i" "i" _ (Or.inl hc), ← hF2,
        writeAt_boundValue_other F1 A c "lst" "i" _ (Or.inl hc)]
    refine ⟨by simp [hglen], ?_⟩
    intro m hm
    by_cases hmj : m < j
    · obtain ⟨c, hc1', hc2, hc3⟩ := hgel m hmj
      refine ⟨c, ?_, hc2, ?_⟩
      · rw [List.getElem?_append_left (by omega)]; exact hc1'
      · rw [hb3 c hc2, hold1 c (boundValue_lt _ _ _ _ hc3)]; exact hc3
    · have hmeq : m = j := by omega
      subst hmeq
      refine ⟨st.frames.length, ?_, by omega, ?_⟩
      · rw [List.getElem?_append_right (by omega)]
        simp [hglen]
      · rw [hb3 _ (by omega)]
        simp only [boundValue, hc1]
        exact hi

theorem loop_run (H : Host) (w A n : Nat) :
    ∀ (r j : Nat) (st : State) (m : Nat) (result : Value),
      j + r = n → r + 1 ≤ m → LoopInv st A n j →
      ∃ v st2, whileLoop (eval H (w + 5)) makeFuncsCond makeFuncsLoopBody A m result st =
          some (.value v, st2) ∧ LoopInv st2 A n n := by
  intro r
  induction r with
  | zero =>
    intro j st m result hj hm hinv
    have hjn : j = n := by omega
    subst hjn
    obtain ⟨m2, hm2⟩ : ∃ m2, m = m2 + 1 := ⟨m - 1, by omega⟩
    subst hm2
    have hc := loop_cond H w st A j j hinv
    refine ⟨result, st, ?_, hinv⟩
    exact whileLoop_step_false _ _ _ A m2 result _ st st hc (by simp [Value.asBool])
  | succ r ih =>
    intro j st m result hj hm hinv
    obtain ⟨m2, hm2⟩ : ∃ m2, m = m2 + 1 := ⟨m - 1, by omega⟩
    subst hm2
    have hc := loop_cond H w st A n j hinv
    obtain ⟨v, st1, hbody, hinv1⟩ := loop_iteration H w st A n j hinv
    obtain ⟨v2, st2, hrest, hinv2⟩ := ih (j + 1) st1 m2 v (by omega) (by omega) hinv1
    refine ⟨v2, st2, ?_, hinv2⟩
    rw [whileLoop_step_true _ _ _ A m2 result _ v st st st1 hc
      (by simp [Value.asBool]; omega) hbody]
    exact hrest

theorem retIAST_body : retIAST.getBody = .BlockExpr [.ReturnExpr (.VariableExpr "i")] := rfl

/-- A call of the literal closed over a frame that binds `i` returns that value of `i`. -/
theorem retI_invoke (H : Host) (fuel : Nat) (st : State) (c : Nat) (v : Value)
    (hwf : WellFormed st.frames) (hb : boundValue st.frames c "i" = some v) :
    ∃ st2, FunctionValue.invoke H (eval H (fuel + 3)) (.user retIAST c) [] st =
      some (.value v, st2) := by
  have hc := boundValue_lt _ _ _ _ hb
  have hg : Environment.get (Environment.child st.frames c).1 st.frames.length "i" =
      some (.ok v) := by
    rw [get_child st.frames hwf c hc]
    exact get_of_boundValue _ _ _ _ hb
  have hbody : ∃ st2, eval H (fuel + 3) retIAST.getBody st.frames.length
      { st with callStack := st.callStack ++ [retIAST.getProto.Name]
                frames := (Environment.child st.frames c).1 } =
      some (.returnSignal v, st2) := by
    rw [retIAST_body]
    simp only [eval_block, evalBlock, eval_return, eval_variable, hg, andThen_value,
      andThen_return]
    exact ⟨_, rfl⟩
  obtain ⟨st2, h⟩ := hbody
  exact ⟨_, invoke_of_return H _ retIAST c [] st st2 (Environment.child st.frames c).1 v rfl
    (by simp [bindParams]) h⟩

theorem makeFuncsAST_body : makeFuncsAST.getBody =
    .BlockExpr
      [.AssignmentExpr "lst" (.ListExpr []),
       .AssignmentExpr "i" (.NumberExpr 0),
       .WhileExpr makeFuncsCond makeFuncsLoopBody,
       .ReturnExpr (.VariableExpr "lst")] := rfl

theorem makeFuncsAST_proto : makeFuncsAST.getProto = { Name := "makeFuncs", Args := ["n"] } :=
  rfl

theorem makeFuncs_call (H : Host) (n : Nat) (vars : List (String × Value))
    (ls : List (List Value)) (cs : List String) (out : String)
    (h1 : mapFind vars "n" = none) (h2 : mapFind vars "lst" = none)
    (h3 : mapFind vars "i" = none) :
    ∃ p st2,
      eval H (n + 8) (.CallExpr (.VariableExpr "makeFuncs") [.NumberExpr n]) 0
        { frames :=
            [{ vars_ := mapAssign vars "makeFuncs" (.func (.user makeFuncsAST 1)),
               parent := none },
             { vars_ := mapAssign vars "makeFuncs" (.func (.user makeFuncsAST 1)),
               parent := none }]
          lists := ls, callStack := cs, output := out } = some (.value (.list p), st2) ∧
      WellFormed st2.frames ∧
      GoodFuncs st2.frames 2 (derefList st2.lists p) n := by
  have hS : LoopInv
      { frames :=
          [{ vars_ := mapAssign vars "makeFuncs" (.func (.user makeFuncsAST 1)),
             parent := none },
           { vars_ := mapAssign vars "makeFuncs" (.func (.user makeFuncsAST 1)),
             parent := none },
           { vars_ := [("n", .number (n : ℚ)), ("lst", .list ls.length), ("i", .number 0)],
             parent := some 1 }]
        lists := ls ++ [[]], callStack := cs ++ ["makeFuncs"], output := out } 2 n 0 := by
    refine ⟨wellFormed_of_wfCheck _ (by rfl), _, ls.length, rfl, ?_, ?_, ?_, ?_, ?_, ?_⟩
    · simp [mapFind]
    · simp [mapFind]
    · simp [mapFind]
    · simp
    · simp [derefList]
    · intro m hm; omega
  obtain ⟨v, st1, hloop, hwf1, frA, p, hA, _, _, hl, _, hgood⟩ :=
    loop_run H n 2 n n 0 _ (n + 5) .nil (by omega) (by omega) hS
  have hg := get_bound st1.frames 2 "lst" frA _ hA hl
  refine ⟨p, popCallStack st1, ?_, hwf1, hgood⟩
  simp [eval_call, eval_variable, eval_number, andThen_value, evalList, Environment.get,
    Environment.getAux, mapFind_mapAssign_same, FunctionValue.invoke, makeFuncsAST_body,
    makeFuncsAST_proto, Environment.child, bindParams, Environment.set,
    Environment.setAux, mapFind_mapAssign_other, h1, h2, h3, mapFind, mapAssign,
    eval_block, evalBlock, eval_assignment, eval_list, allocList, eval_while, hloop,
    eval_return, andThen_return]
  simp [hA, hl, andThen_value, andThen_return]

/-- C9: start a program with a single global frame that binds none of `n`, `lst`, `i`,
`makeFuncs` (as the builtins do not).  After the definition of `makeFuncs` as in the test
(`lst = []`, `i = 0`, a while loop that appends `function() return i end function` to `lst`
and increments `i`, `return lst`), for every natural number `n` the call `makeFuncs(n)` returns
a list of `n` elements, each a function, and calling the `j`-th of them (from `0`) returns `j`:
every evaluation of the literal captured its own copy of the frame, with the value `i` had
then. -/
theorem C9_closure_per_iteration (H : Host) (vars : List (String × Value))
    (ls : List (List Value)) (cs : List String) (out : String)
    (h1 : mapFind vars "n" = none) (h2 : mapFind vars "lst" = none)
    (h3 : mapFind vars "i" = none) (h4 : mapFind vars "makeFuncs" = none) :
    ∃ st1,
      runTopLevel H 2
          [topLevel (.AssignmentExpr "makeFuncs" (.FunctionLiteralExpr makeFuncsAST))]
          { frames := [{ vars_ := vars, parent := none }], lists := ls, callStack := cs,
            output := out } = some (.value .nil, st1) ∧
      ∀ (n : Nat), ∃ p st2,
        eval H (n + 8) (.CallExpr (.VariableExpr "makeFuncs") [.NumberExpr n]) 0 st1 =
          some (.value (.list p), st2) ∧
        (derefList st2.lists p).length = n ∧
        ∀ j, j < n → ∃ f, (derefList st2.lists p)[j]? = some (.func f) ∧
          ∃ st3, FunctionValue.invoke H (eval H 3) f [] st2 =
            some (.value (.number (j : ℚ)), st3) := by
  refine ⟨
    { frames :=
        [{ vars_ := mapAssign vars "makeFuncs" (.func (.user makeFuncsAST 1)), parent := none },
         { vars_ := mapAssign vars "makeFuncs" (.func (.user makeFuncsAST 1)), parent := none }]
      lists := ls, callStack := cs, output := out }, ?_, ?_⟩
  · simp [runTopLevel, topLevel, FunctionAST.getProto, FunctionAST.getBody, eval_assignment,
      eval_functionLiteral, andThen_value, Environment.copy, Environment.set,
      Environment.setAux, h4]
  · intro n
    obtain ⟨p, st2, hcall, hwf2, hlen, hgood⟩ := makeFuncs_call H n vars ls cs out h1 h2 h3
    refine ⟨p, st2, hcall, hlen, ?_⟩
    intro j hj
    obtain ⟨c, hc1, _, hc3⟩ := hgood j hj
    obtain ⟨st3, hinv⟩ := retI_invoke H 0 st2 c _ hwf2 hc3
    exact ⟨.user retIAST c, hc1, st3, hinv⟩

/-- C9, on the call `makeFuncs(3)` of the test `ReturnListOfFunctions` from the state in which
`interpret` starts: the list has three elements and calling the last one returns `2`. -/
theorem C9_closures_witness :
    mapFind ([] : List (String × Value)) "i" = none ∧
    ∃ st1 p st2 f st3,
      runTopLevel bareHost 2
          [topLevel (.AssignmentExpr "makeFuncs" (.FunctionLiteralExpr makeFuncsAST))]
          (initialState bareHost) = some (.value .nil, st1) ∧
      eval bareHost 11 (.CallExpr (.VariableExpr "makeFuncs") [.NumberExpr 3]) 0 st1 =
        some (.value (.list p), st2) ∧
      (derefList st2.lists p).length = 3 ∧
      (derefList st2.lists p)[2]? = some (.func f) ∧
      FunctionValue.invoke bareHost (eval bareHost 3) f [] st2 = some (.value (.number 2), st3)
      := by
  refine ⟨rfl, ?_⟩
  obtain ⟨st1, hsetup, hcalls⟩ :=
    C9_closure_per_iteration bareHost [] [] [] "" rfl rfl rfl rfl
  obtain ⟨p, st2, hcall, hlen, hfun⟩ := hcalls 3
  obtain ⟨f, hf, st3, hinv⟩ := hfun 2 (by decide)
  exact ⟨st1, p, st2, f, st3, hsetup, hcall, hlen, hf, hinv⟩

/-! ## The call stack across a call (C11) -/

/-- C11, as the code behaves: a call of a user-defined function whose body leaves the call
stack as it found it (the prior stack with the function's name appended) ends with the prior
stack when the body completes normally or with a return signal; when the body ends with a
runtime error or with a break or continue signal, `FunctionValue::invoke` passes the outcome
on without `g_callStack.pop_back()`, and the stack after the call still holds the function's
name: it differs from the stack before the call. -/
theorem C11_call_stack_after_call (H : Host) (ev : ExprAST → Nat → State → Res)
    (fnAST : FunctionAST) (closure : Nat) (args : List Value) (st st2 : State)
    (fs : List Environment) (o : Outcome)
    (harity : args.length = fnAST.getProto.Args.length)
    (hbind : bindParams st.frames.length fnAST.getProto.Args args
      (Environment.child st.frames closure).1 = some fs)
    (hbody : ev fnAST.getBody st.frames.length
      { st with callStack := st.callStack ++ [fnAST.getProto.Name], frames := fs } =
        some (o, st2))
    (hstack : st2.callStack = st.callStack ++ [fnAST.getProto.Name]) :
    ∃ o3 st3, FunctionValue.invoke H ev (.user fnAST closure) args st = some (o3, st3) ∧
      ((∃ v, o = .value v ∨ o = .returnSignal v) → st3.callStack = st.callStack) ∧
      (((∃ what, o = .error what) ∨ o = .breakSignal ∨ o = .continueSignal) →
        o3 = o ∧ st3.callStack = st.callStack ++ [fnAST.getProto.Name] ∧
        st3.callStack ≠ st.callStack) := by
  have hpop : (popCallStack st2).callStack = st.callStack := by
    simp [popCallStack, hstack]
  have hne : st2.callStack ≠ st.callStack := by
    rw [hstack]
    intro h
    have := congrArg List.length h
    simp at this
  simp only [Environment.child] at hbind
  cases o with
  | value w =>
    refine ⟨.value .nil, popCallStack st2, ?_, fun _ => hpop, ?_⟩
    · simp [FunctionValue.invoke, harity, Environment.child, hbind, hbody]
    · rintro (⟨what, h⟩ | h | h) <;> cases h
  | returnSignal w =>
    refine ⟨.value w, popCallStack st2, ?_, fun _ => hpop, ?_⟩
    · simp [FunctionValue.invoke, harity, Environment.child, hbind, hbody]
    · rintro (⟨what, h⟩ | h | h) <;> cases h
  | error m =>
    refine ⟨.error m, st2, ?_, ?_, fun _ => ⟨rfl, hstack, hne⟩⟩
    · simp [FunctionValue.invoke, harity, Environment.child, hbind, hbody]
    · rintro ⟨v, h | h⟩ <;> cases h
  | breakSignal =>
    refine ⟨.breakSignal, st2, ?_, ?_, fun _ => ⟨rfl, hstack, hne⟩⟩
    · simp [FunctionValue.invoke, harity, Environment.child, hbind, hbody]
    · rintro ⟨v, h | h⟩ <;> cases h
  | continueSignal =>
    refine ⟨.continueSignal, st2, ?_, ?_, fun _ => ⟨rfl, hstack, hne⟩⟩
    · simp [FunctionValue.invoke, harity, Environment.child, hbind, hbody]
    · rintro ⟨v, h | h⟩ <;> cases h
  | undefinedBehaviour m =>
    refine ⟨.undefinedBehaviour m, st2, ?_, ?_, ?_⟩
    · simp [FunctionValue.invoke, harity, Environment.child, hbind, hbody]
    · rintro ⟨v, h | h⟩ <;> cases h
    · rintro (⟨what, h⟩ | h | h) <;> cases h
  | outsideModel m =>
    refine ⟨.outsideModel m, st2, ?_, ?_, ?_⟩
    · simp [FunctionValue.invoke, harity, Environment.child, hbind, hbody]
    · rintro ⟨v, h | h⟩ <;> cases h
    · rintro (⟨what, h⟩ | h | h) <;> cases h

/-- C11, on the call `f()` of `f = function() break end function` from an empty call stack:
the break signal leaves the call and the stack after the call is `["f"]`, not the empty stack
it was before; and after the program
`f = function() break end function  while true f() end while`, which ends normally, the
call stack still holds `"f"`. -/
theorem C11_call_stack_witness :
    (∃ o3 st3, FunctionValue.invoke bareHost (eval bareHost 3) (.user breakAST 0) []
        emptyGlobalState = some (o3, st3) ∧
      ((∃ v, Outcome.breakSignal = .value v ∨ Outcome.breakSignal = .returnSignal v) →
        st3.callStack = emptyGlobalState.callStack) ∧
      (((∃ what, Outcome.breakSignal = .error what) ∨ Outcome.breakSignal = .breakSignal ∨
          Outcome.breakSignal = .continueSignal) →
        o3 = .breakSignal ∧ st3.callStack = emptyGlobalState.callStack ++ ["f"] ∧
        st3.callStack ≠ emptyGlobalState.callStack)) ∧
    (interpret bareHost 6 breakLeavesCall).map (fun r => r.2.callStack) = some ["f"] ∧
    (interpret bareHost 6 breakLeavesCall).map
      (fun r => match r.1 with | .returned b => b | .escaped _ => false) = some true :=
  ⟨C11_call_stack_after_call bareHost (eval bareHost 3) breakAST 0 [] emptyGlobalState
    { emptyGlobalState with
      callStack := ["f"]
      frames := emptyGlobalState.frames ++ [{ vars_ := [], parent := some 0 }] }
    _ .breakSignal rfl rfl rfl rfl, rfl, rfl⟩

/-! ## Control signals at top level (C12) -/

theorem runTopLevel_append (H : Host) (fuel : Nat) (post : List FunctionAST) :
    ∀ (pre : List FunctionAST) (st st1 : State) (w : Value),
      runTopLevel H fuel pre st = some (.value w, st1) →
      runTopLevel H fuel (pre ++ post) st = runTopLevel H fuel post st1 := by
  intro pre
  induction pre with
  | nil =>
    intro st st1 w h
    simp only [runTopLevel, Option.some.injEq, Prod.mk.injEq] at h
    rw [h.2]
    rfl
  | cons fn rest ih =>
    intro st st1 w h
    simp only [List.cons_append, runTopLevel] at h ⊢
    by_cases hn : fn.getProto.Name = "__anon_expr"
    · simp only [hn, if_true] at h ⊢
      cases hb : eval H fuel fn.getBody 0 st with
      | none => simp [hb, Res.andThen] at h
      | some r =>
        obtain ⟨o, s⟩ := r
        cases o with
        | value v =>
          simp only [hb, Res.andThen] at h ⊢
          exact ih s st1 w h
        | error m => simp [hb, Res.andThen] at h
        | breakSignal => simp [hb, Res.andThen] at h
        | continueSignal => simp [hb, Res.andThen] at h
        | returnSignal v => simp [hb, Res.andThen] at h
        | undefinedBehaviour m => simp [hb, Res.andThen] at h
        | outsideModel m => simp [hb, Res.andThen] at h
    · simp only [hn, if_false] at h ⊢
      exact ih st st1 w h

/-- C12, as the code behaves: for every program in which a top-level statement ends with a
break, continue or return signal (the statements before it having completed), `interpret` does
not report a failure: the signal is not a `std::exception`, so it passes the one handler of
`interpret` and leaves it unhandled, where an error would be caught and reported.  `interpret`
returns neither `false` nor `true`, the state is the one the signalling statement left, so no
text beginning with "Error: " is written, and the statements after it are not evaluated. -/
theorem C12_control_signal_leaves_interpret (H : Host) (fuel : Nat)
    (pre post : List FunctionAST) (fn : FunctionAST) (fs : List Environment) (w : Value)
    (st1 st2 : State) (o : Outcome)
    (hreg : registerFunctions (pre ++ fn :: post) (initialState H).frames = some fs)
    (hpre : runTopLevel H fuel pre { initialState H with frames := fs } = some (.value w, st1))
    (hname : fn.getProto.Name = "__anon_expr")
    (hsig : eval H fuel fn.getBody 0 st1 = some (o, st2))
    (ho : o = .breakSignal ∨ o = .continueSignal ∨ ∃ v, o = .returnSignal v) :
    interpret H fuel (pre ++ fn :: post) = some (.escaped o, st2) := by
  have hrun : runTopLevel H fuel (pre ++ fn :: post) { initialState H with frames := fs } =
      some (o, st2) := by
    rw [runTopLevel_append H fuel (fn :: post) pre _ st1 w hpre]
    simp only [runTopLevel, hname, if_true, hsig]
    rcases ho with h | h | ⟨v, h⟩ <;> subst h <;> rfl
  simp only [interpret, hreg, hrun]
  rcases ho with h | h | ⟨v, h⟩ <;> subst h <;> rfl

/-- C12, on the program `break  x = 1`: the break signal leaves `interpret`, nothing is
written, and `x` is not assigned; and on the program text `break  print(2)`: the break
signal leaves `interpret`, and neither "Error: " nor `2` is written. -/
theorem C12_control_signal_witness :
    interpret bareHost 3 breakAtTopLevel =
      some (.escaped .breakSignal,
        { frames :=
            [⟨[("__anon_expr",
                .func (.user (topLevel (.AssignmentExpr "x" (.NumberExpr 1))) 0))], none⟩],
          lists := [], callStack := [], output := "" }) ∧
    (∀ fmt : ℚ → String, ∃ st : State,
      interpretText (printHost fmt) 30 "break\nprint(2)" =
        some (InterpretResult.escaped Outcome.breakSignal, st) ∧ st.output = "") :=
  ⟨C12_control_signal_leaves_interpret bareHost 3 []
      [topLevel (.AssignmentExpr "x" (.NumberExpr 1))]
      (topLevel .BreakExpr) _ .nil _ _ .breakSignal rfl rfl rfl rfl (Or.inl rfl),
    fun fmt => ⟨_, by with_unfolding_all rfl, by with_unfolding_all rfl⟩⟩

/-! ## Truthiness of conditions (C13) -/

/-- C13: `Value::asBool` maps a boolean to itself, a number to whether it is nonzero (`-1` to
true, `0` to false), a string and a list to whether it is non-empty, and nil to false; and the
`if` and `while` nodes apply it to whatever value the condition evaluates to, without raising:
`if` goes on with the branch the truthiness selects (nil without an `else`), `while` ends with
the value so far when the condition is falsy and evaluates the body when it is truthy. -/
theorem C13_truthiness_of_conditions (H : Host) (fuel : Nat) (cond thenE body : ExprAST)
    (elseE : Option ExprAST) (env : Nat) (st st1 : State) (c : Value)
    (hc : eval H (fuel + 1) cond env st = some (.value c, st1)) :
    ((∀ lists b, Value.asBool lists (.bool b) = b) ∧
      (∀ lists d, Value.asBool lists (.number d) = true ↔ d ≠ 0) ∧
      (∀ lists, Value.asBool lists (.number (-1)) = true) ∧
      (∀ lists, Value.asBool lists (.number 0) = false) ∧
      (∀ lists s, Value.asBool lists (.string s) = true ↔ s ≠ "") ∧
      (∀ lists p, Value.asBool lists (.list p) = true ↔ derefList lists p ≠ []) ∧
      (∀ lists, Value.asBool lists .nil = false)) ∧
    eval H (fuel + 2) (.IfExpr cond thenE elseE) env st =
      (if c.asBool st1.lists then eval H (fuel + 1) thenE env st1
       else match elseE with
        | some el => eval H (fuel + 1) el env st1
        | none => some (.value .nil, st1)) ∧
    (c.asBool st1.lists = false →
      eval H (fuel + 2) (.WhileExpr cond body) env st = some (.value .nil, st1)) ∧
    (c.asBool st1.lists = true →
      eval H (fuel + 2) (.WhileExpr cond body) env st =
        match eval H (fuel + 1) body env st1 with
        | none => none
        | some (.value v, st2) => whileLoop (eval H (fuel + 1)) cond body env fuel v st2
        | some (.continueSignal, st2) =>
          whileLoop (eval H (fuel + 1)) cond body env fuel .nil st2
        | some (.breakSignal, st2) => some (.value .nil, st2)
        | some other => some other) := by
  refine ⟨⟨fun _ _ => rfl, ?_, ?_, ?_, ?_, ?_, fun _ => rfl⟩, ?_, ?_, ?_⟩
  · intro lists d
    simp [Value.asBool]
  · intro lists
    simp [Value.asBool]
  · intro lists
    simp [Value.asBool]
  · intro lists s
    simp only [Value.asBool, Bool.not_eq_true', List.isEmpty_eq_true, ne_eq]
    constructor
    · intro h hs
      subst hs
      simp at h
    · intro h
      cases hd : s.data with
      | nil =>
        exfalso
        apply h
        cases s
        simp_all
      | cons x xs => rfl
  · intro lists p
    simp [Value.asBool]
  · rw [eval_if, hc, andThen_value]
  · intro hf
    rw [eval_while, whileLoop_step_false _ _ _ _ _ _ _ _ _ hc hf]
  · intro ht
    simp only [eval_while, whileLoop, hc, andThen_value, ht, if_true]

/-- C13, on the conditions of the test `NumericTruthiness`: `if -1 then 1 end if` takes the
branch, and a `while` whose condition is `0` ends at once. -/
theorem C13_truthiness_witness :
    eval bareHost 2 (.IfExpr (.NumberExpr (-1)) (.NumberExpr 1) none) 0 emptyGlobalState =
      some (.value (.number 1), emptyGlobalState) ∧
    eval bareHost 2 (.WhileExpr (.NumberExpr 0) (.NumberExpr 1)) 0 emptyGlobalState =
      some (.value .nil, emptyGlobalState) := by
  have h1 := (C13_truthiness_of_conditions bareHost 0 (.NumberExpr (-1)) (.NumberExpr 1)
    (.NumberExpr 1) none 0 emptyGlobalState emptyGlobalState (.number (-1)) rfl).2.1
  have h2 := (C13_truthiness_of_conditions bareHost 0 (.NumberExpr 0) (.NumberExpr 1)
    (.NumberExpr 1) none 0 emptyGlobalState emptyGlobalState (.number 0) rfl).2.2.1
  constructor
  · rw [h1]
    simp [Value.asBool, eval_number]
  · exact h2 (by simp [Value.asBool])

/-! ## Ordering and equality with nil (C14, C15) -/

theorem isNil_iff (v : Value) : v.isNil = true ↔ v = .nil := by
  cases v <;> simp [Value.isNil]

theorem valueLt_nil_left (lists : List (List Value)) (fuel : Nat) (v : Value) :
    valueLt lists (fuel + 1) .nil v = some (.ok false) := by
  simp [valueLt, Value.isNil]

theorem valueLt_nil_right (lists : List (List Value)) (fuel : Nat) (v : Value) :
    valueLt lists (fuel + 1) v .nil = some (.ok false) := by
  simp [valueLt, Value.isNil]

theorem valueEq_nil_left (lists : List (List Value)) (fuel : Nat) (v : Value) :
    valueEq lists (fuel + 1) .nil v = some v.isNil := by
  simp [valueEq, Value.isNil]

theorem valueEq_nil_right (lists : List (List Value)) (fuel : Nat) (v : Value) :
    valueEq lists (fuel + 1) v .nil = some v.isNil := by
  simp [valueEq, Value.isNil]

/-- C14, as stated, fails: the program `nil < 1` raises nothing; `interpret` returns `true`,
and the node evaluates to the boolean `false`. -/
theorem C14_counterexample :
    (interpret bareHost 3 nilLessOne).map
        (fun r => match r.1 with | .returned b => b | .escaped _ => false) = some true ∧
    eval bareHost 2 (.BinaryExpr .Less .NilExpr (.NumberExpr 1)) 0 emptyGlobalState =
      some (.value (.bool false), emptyGlobalState) :=
  ⟨rfl, rfl⟩

/-- C14, amended: for every value `v`, no ordering comparison that involves nil raises; each
yields a boolean: `nil < v` and `v < nil` are false, `nil >= v` and `v >= nil` are true,
`nil <= v` and `v <= nil` are true exactly when `v` is nil, and `nil > v` and `v > nil` are
true exactly when `v` is not nil. -/
theorem C14_ordering_with_nil (H : Host) (fuel : Nat) (lists : List (List Value)) (v : Value) :
    binaryOp H (fuel + 1) .Less lists .nil v = some (.value (.bool false), lists) ∧
    binaryOp H (fuel + 1) .Less lists v .nil = some (.value (.bool false), lists) ∧
    binaryOp H (fuel + 1) .LessEqual lists .nil v = some (.value (.bool v.isNil), lists) ∧
    binaryOp H (fuel + 1) .LessEqual lists v .nil = some (.value (.bool v.isNil), lists) ∧
    binaryOp H (fuel + 1) .Greater lists .nil v = some (.value (.bool (!v.isNil)), lists) ∧
    binaryOp H (fuel + 1) .Greater lists v .nil = some (.value (.bool (!v.isNil)), lists) ∧
    binaryOp H (fuel + 1) .GreaterEqual lists .nil v = some (.value (.bool true), lists) ∧
    binaryOp H (fuel + 1) .GreaterEqual lists v .nil = some (.value (.bool true), lists) ∧
    (v.isNil = true ↔ v = .nil) := by
  refine ⟨?_, ?_, ?_, ?_, ?_, ?_, ?_, ?_, isNil_iff v⟩ <;>
    simp [binaryOp, valueLe, valueGt, valueGe, valueLt_nil_left, valueLt_nil_right,
      valueEq_nil_left, valueEq_nil_right, boolOutcome, Except.map]

/-- C15: for every value `v`, `nil == v` and `v == nil` are true if and only if `v` is nil, so
nil differs from `0`, `false`, the empty string and every list; and for all values `a`, `b`
the `!=` node returns the negation of what the `==` node returns (and returns exactly when
`==` does). -/
theorem C15_nil_equality (H : Host) (fuel : Nat) (lists : List (List Value)) (v : Value) :
    binaryOp H (fuel + 1) .Equal lists .nil v = some (.value (.bool v.isNil), lists) ∧
    binaryOp H (fuel + 1) .Equal lists v .nil = some (.value (.bool v.isNil), lists) ∧
    (v.isNil = true ↔ v = .nil) ∧
    valueEq lists (fuel + 1) .nil (.number 0) = some false ∧
    valueEq lists (fuel + 1) .nil (.bool false) = some false ∧
    valueEq lists (fuel + 1) .nil (.string "") = some false ∧
    (∀ p, valueEq lists (fuel + 1) .nil (.list p) = some false) ∧
    (∀ (n : Nat) (a b : Value),
      valueNe lists n a b = (valueEq lists n a b).map (fun r => !r) ∧
      binaryOp H n .Equal lists a b =
        (valueEq lists n a b).map (fun r => (.value (.bool r), lists)) ∧
      binaryOp H n .NotEqual lists a b =
        (valueEq lists n a b).map (fun r => (.value (.bool (!r)), lists))) := by
  refine ⟨?_, ?_, isNil_iff v, ?_, ?_, ?_, ?_, ?_⟩
  · simp [binaryOp, valueEq_nil_left]
  · simp [binaryOp, valueEq_nil_right]
  · simp [valueEq_nil_left, Value.isNil]
  · simp [valueEq_nil_left, Value.isNil]
  · simp [valueEq_nil_left, Value.isNil]
  · intro p
    simp [valueEq_nil_left, Value.isNil]
  · intro n a b
    refine ⟨rfl, rfl, ?_⟩
    simp only [binaryOp, valueNe, Option.map_map]
    rfl

/-! ## Equality of functions, and when `==` returns (C16) -/

theorem allEq_total (eq : Value → Value → Option Bool) :
    ∀ (xs ys : List Value), (∀ x ∈ xs, ∀ y, ∃ r, eq x y = some r) →
      ∃ r, allEq eq xs ys = some r := by
  intro xs
  induction xs with
  | nil =>
    intro ys _
    exact ⟨true, by cases ys <;> rfl⟩
  | cons x xs ih =>
    intro ys h
    cases ys with
    | nil => exact ⟨true, rfl⟩
    | cons y ys =>
      obtain ⟨r, hr⟩ := h x (List.mem_cons_self x xs) y
      cases r with
      | false => exact ⟨false, by simp [allEq, hr]⟩
      | true =>
        obtain ⟨r2, hr2⟩ := ih ys (fun z hz => h z (List.mem_cons_of_mem x hz))
        exact ⟨r2, by simp [allEq, hr, hr2]⟩

theorem valueEq_total (lists : List (List Value)) (rank : Nat → Nat)
    (hrank : ∀ p q, Value.list q ∈ derefList lists p → rank q < rank p) :
    ∀ (fuel : Nat) (a b : Value), listDepth rank a < fuel →
      ∃ r, valueEq lists fuel a b = some r := by
  intro fuel
  induction fuel with
  | zero =>
    intro a b h
    exact absurd h (Nat.not_lt_zero _)
  | succ fuel ih =>
    intro a b h
    cases a with
    | nil => exact ⟨_, valueEq_nil_left lists fuel b⟩
    | number x => cases b <;> simp [valueEq, Value.isNil]
    | bool x => cases b <;> simp [valueEq, Value.isNil]
    | string x => cases b <;> simp [valueEq, Value.isNil]
    | func x => cases b <;> simp [valueEq, Value.isNil]
    | list p =>
      cases b with
      | list q =>
        simp only [valueEq, Value.isNil, Bool.or_self, Bool.false_eq_true, if_false]
        by_cases hl : (derefList lists p).length = (derefList lists q).length
        · simp only [hl, if_true]
          apply allEq_total
          intro x hx y
          apply ih
          simp only [listDepth] at h
          cases x with
          | list q2 =>
            have := hrank p q2 hx
            simp only [listDepth]
            omega
          | nil => simp only [listDepth]; omega
          | number d => simp only [listDepth]; omega
          | bool d => simp only [listDepth]; omega
          | string d => simp only [listDepth]; omega
          | func d => simp only [listDepth]; omega
        · simp [hl]
      | nil => simp [valueEq, Value.isNil]
      | number x => simp [valueEq, Value.isNil]
      | bool x => simp [valueEq, Value.isNil]
      | string x => simp [valueEq, Value.isNil]
      | func x => simp [valueEq, Value.isNil]

theorem valueEq_selfList_step (n : Nat) :
    valueEq selfList (n + 1) (.list 0) (.list 0) =
      allEq (valueEq selfList n) [.number 1, .list 0] [.number 1, .list 0] := by
  simp [valueEq, Value.isNil, selfList, derefList]

theorem valueEq_selfList (fuel : Nat) : valueEq selfList fuel (.list 0) (.list 0) = none := by
  induction fuel with
  | zero => rfl
  | succ n ih =>
    rw [valueEq_selfList_step]
    cases n with
    | zero => rfl
    | succ k =>
      have h1 : valueEq selfList (k + 1) (.number 1) (.number 1) = some true := by
        simp [valueEq, Value.isNil]
      simp only [allEq, h1, ih]

/-- C16, as stated, fails: after `a = [1]  push(a, a)` the comparison `a == a` returns no
boolean, whatever the fuel: `operator==` on the cell recurses into the same cell without
end. -/
theorem C16_counterexample :
    ¬ ∃ fuel r, valueEq selfList fuel (.list 0) (.list 0) = some r := by
  rintro ⟨fuel, r, h⟩
  rw [valueEq_selfList] at h
  cases h

/-- C16, amended: for every function value `f` and every value `v`, `f == v` and `v == f` are
false, `f == f` included; and for every pair of values of any kinds in a store of list cells
where no list contains itself, directly or through other lists (the cells have a rank that
decreases from a list to the lists it holds), `==` returns a boolean and does not raise. -/
theorem C16_function_equality (H : Host) (lists : List (List Value)) (rank : Nat → Nat)
    (hrank : ∀ p q, Value.list q ∈ derefList lists p → rank q < rank p) :
    (∀ (fuel : Nat) (f : FunctionValue) (v : Value),
      binaryOp H (fuel + 1) .Equal lists (.func f) v = some (.value (.bool false), lists) ∧
      binaryOp H (fuel + 1) .Equal lists v (.func f) = some (.value (.bool false), lists) ∧
      binaryOp H (fuel + 1) .Equal lists (.func f) (.func f) =
        some (.value (.bool false), lists)) ∧
    (∀ (a b : Value) (fuel : Nat), listDepth rank a < fuel →
      ∃ r, binaryOp H fuel .Equal lists a b = some (.value (.bool r), lists)) := by
  constructor
  · intro fuel f v
    refine ⟨?_, ?_, ?_⟩
    · cases v <;> simp [binaryOp, valueEq, Value.isNil]
    · cases v <;> simp [binaryOp, valueEq, Value.isNil]
    · simp [binaryOp, valueEq, Value.isNil]
  · intro a b fuel h
    obtain ⟨r, hr⟩ := valueEq_total lists rank hrank fuel a b h
    exact ⟨r, by simp [binaryOp, hr]⟩

/-- C16, amended, on the cells of `a = [1]  b = [a]`: a function differs from itself, and
`b == b` returns `true`. -/
theorem C16_function_equality_witness :
    binaryOp bareHost 1 .Equal [[.number 1], [.list 0]] (.func (.builtin "print"))
        (.func (.builtin "print")) =
      some (.value (.bool false), [[.number 1], [.list 0]]) ∧
    valueEq [[.number 1], [.list 0]] 3 (.list 1) (.list 1) = some true ∧
    ∃ r, binaryOp bareHost 3 .Equal [[.number 1], [.list 0]] (.list 1) (.list 1) =
      some (.value (.bool r), [[.number 1], [.list 0]]) := by
  have hrank : ∀ p q, Value.list q ∈ derefList [[.number 1], [.list 0]] p → id q < id p := by
    intro p q h
    match p, h with
    | 0, h => simp [derefList] at h
    | 1, h =>
      simp [derefList] at h
      simp [h]
    | p + 2, h => simp [derefList] at h
  have h := C16_function_equality bareHost [[.number 1], [.list 0]] id hrank
  refine ⟨(h.1 0 (.builtin "print") .nil).2.2, ?_, h.2 (.list 1) (.list 1) 3 (by decide)⟩
  simp [valueEq, Value.isNil, derefList, allEq]

/-! ## The logical operator nodes (C17, C18) -/

theorem eval_unary_not (H : Host) (fuel : Nat) (operand : ExprAST) (env : Nat) (st : State) :
    eval H (fuel + 1) (.UnaryExpr '!' operand) env st =
      (eval H fuel operand env st).andThen (fun V st1 =>
        some (.value (.bool (!(V.asBool st1.lists))), st1)) := rfl

theorem eval_and (H : Host) (fuel : Nat) (lhs rhs : ExprAST) (env : Nat) (st : State) :
    eval H (fuel + 1) (.BinaryExpr .And lhs rhs) env st =
      (eval H fuel lhs env st).andThen (fun L st1 =>
        (eval H fuel rhs env st1).andThen (fun R st2 => some (opAnd L R, st2))) := rfl

theorem eval_or (H : Host) (fuel : Nat) (lhs rhs : ExprAST) (env : Nat) (st : State) :
    eval H (fuel + 1) (.BinaryExpr .Or lhs rhs) env st =
      (eval H fuel lhs env st).andThen (fun L st1 =>
        (eval H fuel rhs env st1).andThen (fun R st2 => some (opOr L R, st2))) := rfl

/-- C17, as the code behaves: the nodes `a and b` and `a or b` raise ("&& only applies to
bool", "|| only applies to bool") whenever an operand evaluates to a non-boolean value and
return the boolean result when both are booleans; the node `not a` never raises: it applies
the truthiness `asBool` to whatever `a` evaluates to and returns the negation, so `not 5` is
`false` rather than an error (`operator!`, which raises on a non-boolean, is not called). -/
theorem C17_logical_nodes (H : Host) (fuel : Nat) (lhs rhs : ExprAST) (env : Nat)
    (st st1 st2 : State) (L R : Value)
    (hL : eval H fuel lhs env st = some (.value L, st1))
    (hR : eval H fuel rhs env st1 = some (.value R, st2)) :
    eval H (fuel + 1) (.BinaryExpr .And lhs rhs) env st = some (opAnd L R, st2) ∧
    eval H (fuel + 1) (.BinaryExpr .Or lhs rhs) env st = some (opOr L R, st2) ∧
    ((L.isBool = false ∨ R.isBool = false) →
      opAnd L R = .error "&& only applies to bool" ∧
      opOr L R = .error "|| only applies to bool") ∧
    (∀ x y, L = .bool x → R = .bool y →
      opAnd L R = .value (.bool (x && y)) ∧ opOr L R = .value (.bool (x || y))) ∧
    eval H (fuel + 1) (.UnaryExpr '!' lhs) env st =
      some (.value (.bool (!(L.asBool st1.lists))), st1) ∧
    (L.isBool = false → opNot L = .error "! only applies to bool") := by
  refine ⟨?_, ?_, ?_, ?_, ?_, ?_⟩
  · rw [eval_and, hL, andThen_value, hR, andThen_value]
  · rw [eval_or, hL, andThen_value, hR, andThen_value]
  · intro h
    cases L <;> cases R <;> simp_all [Value.isBool, opAnd, opOr]
  · intro x y hx hy
    subst hx hy
    exact ⟨rfl, rfl⟩
  · rw [eval_unary_not, hL, andThen_value]
  · intro h
    cases L <;> simp_all [Value.isBool, opNot]

/-- C17, on `5 and true` and `not 5`: the first raises, the second evaluates to `false`. -/
theorem C17_logical_nodes_witness :
    eval bareHost 2 (.BinaryExpr .And (.NumberExpr 5) (.BooleanExpr true)) 0
        emptyGlobalState = some (.error "&& only applies to bool", emptyGlobalState) ∧
    eval bareHost 2 (.UnaryExpr '!' (.NumberExpr 5)) 0 emptyGlobalState =
      some (.value (.bool false), emptyGlobalState) := by
  have h := C17_logical_nodes bareHost 1 (.NumberExpr 5) (.BooleanExpr true) 0
    emptyGlobalState emptyGlobalState emptyGlobalState (.number 5) (.bool true) rfl rfl
  refine ⟨h.1, ?_⟩
  rw [h.2.2.2.2.1]
  simp [Value.asBool]

/-- C18: `and` and `or` do not short-circuit: once the left operand has evaluated to a value,
whatever it is, the node goes on with the right operand in the state the left operand left,
and the state after the node is the state after the right operand; in particular with a
false left operand of `and`, or a true left operand of `or`, and a boolean right operand, the
node returns `false`, respectively `true`, in the state the right operand left. -/
theorem C18_no_short_circuit (H : Host) (fuel : Nat) (lhs rhs : ExprAST) (env : Nat)
    (st st1 : State) (L : Value)
    (hL : eval H fuel lhs env st = some (.value L, st1)) :
    eval H (fuel + 1) (.BinaryExpr .And lhs rhs) env st =
      (eval H fuel rhs env st1).andThen (fun R st2 => some (opAnd L R, st2)) ∧
    eval H (fuel + 1) (.BinaryExpr .Or lhs rhs) env st =
      (eval H fuel rhs env st1).andThen (fun R st2 => some (opOr L R, st2)) ∧
    (∀ (R : Value) (st2 : State), eval H fuel rhs env st1 = some (.value R, st2) →
      eval H (fuel + 1) (.BinaryExpr .And lhs rhs) env st = some (opAnd L R, st2) ∧
      eval H (fuel + 1) (.BinaryExpr .Or lhs rhs) env st = some (opOr L R, st2)) ∧
    (∀ (y : Bool) (st2 : State), eval H fuel rhs env st1 = some (.value (.bool y), st2) →
      (L = .bool false →
        eval H (fuel + 1) (.BinaryExpr .And lhs rhs) env st =
          some (.value (.bool false), st2)) ∧
      (L = .bool true →
        eval H (fuel + 1) (.BinaryExpr .Or lhs rhs) env st =
          some (.value (.bool true), st2))) := by
  have hand : eval H (fuel + 1) (.BinaryExpr .And lhs rhs) env st =
      (eval H fuel rhs env st1).andThen (fun R st2 => some (opAnd L R, st2)) := by
    rw [eval_and, hL, andThen_value]
  have hor : eval H (fuel + 1) (.BinaryExpr .Or lhs rhs) env st =
      (eval H fuel rhs env st1).andThen (fun R st2 => some (opOr L R, st2)) := by
    rw [eval_or, hL, andThen_value]
  refine ⟨hand, hor, ?_, ?_⟩
  · intro R st2 hR
    rw [hand, hor, hR, andThen_value, andThen_value]
    exact ⟨rfl, rfl⟩
  · intro y st2 hR
    constructor
    · intro h
      subst h
      rw [hand, hR, andThen_value]
      rfl
    · intro h
      subst h
      rw [hor, hR, andThen_value]
      rfl

/-- C18, on `false and (x = true)`: the node returns `false` and `x` is bound to `true`
afterwards. -/
theorem C18_no_short_circuit_witness :
    eval bareHost 3
        (.BinaryExpr .And (.BooleanExpr false) (.AssignmentExpr "x" (.BooleanExpr true))) 0
        emptyGlobalState =
      some (.value (.bool false),
        { emptyGlobalState with frames := [⟨[("x", .bool true)], none⟩] }) :=
  ((C18_no_short_circuit bareHost 2 (.BooleanExpr false)
      (.AssignmentExpr "x" (.BooleanExpr true)) 0 emptyGlobalState emptyGlobalState
      (.bool false) rfl).2.2.2 true _ rfl).1 rfl

/-! ## The operator `+` on mixed kinds and on lists (C19, C20) -/

theorem eval_plus (H : Host) (fuel : Nat) (lhs rhs : ExprAST) (env : Nat) (st : State) :
    eval H (fuel + 1) (.BinaryExpr .Plus lhs rhs) env st =
      (eval H fuel lhs env st).andThen (fun L st1 =>
        (eval H fuel rhs env st1).andThen (fun R st2 =>
          some ((opAdd st2.lists L R).1, { st2 with lists := (opAdd st2.lists L R).2 }))) := rfl

/-- C19: for every pair of values `a`, `b` of two different kinds among number, string, list,
function and nil (neither is a boolean and their type names differ), `a + b` raises the error
of `asNumeric` on the first operand that is not a number, in either operand order, and builds
no value: the `+` node ends with that error in the state the operands left. -/
theorem C19_add_mixed_kinds (H : Host) (fuel : Nat) (lhs rhs : ExprAST) (env : Nat)
    (st st1 st2 : State) (a b : Value)
    (hL : eval H fuel lhs env st = some (.value a, st1))
    (hR : eval H fuel rhs env st1 = some (.value b, st2))
    (ha : a.isBool = false) (hb : b.isBool = false) (hk : a.typeName ≠ b.typeName) :
    (∀ lists, opAdd lists a b =
      (.error ("Expected a number or bool but got '" ++
        (if a.isNumber then b else a).typeName ++ "'"), lists)) ∧
    (∀ lists, opAdd lists b a =
      (.error ("Expected a number or bool but got '" ++
        (if b.isNumber then a else b).typeName ++ "'"), lists)) ∧
    eval H (fuel + 1) (.BinaryExpr .Plus lhs rhs) env st =
      some (.error ("Expected a number or bool but got '" ++
        (if a.isNumber then b else a).typeName ++ "'"), st2) := by
  have h1 : ∀ lists, opAdd lists a b =
      (.error ("Expected a number or bool but got '" ++
        (if a.isNumber then b else a).typeName ++ "'"), lists) := by
    intro lists
    cases a <;> cases b <;>
      simp_all [opAdd, numericBin, Value.asNumeric, Value.isBool, Value.isNumber,
        Value.typeName]
  have h2 : ∀ lists, opAdd lists b a =
      (.error ("Expected a number or bool but got '" ++
        (if b.isNumber then a else b).typeName ++ "'"), lists) := by
    intro lists
    cases a <;> cases b <;>
      simp_all [opAdd, numericBin, Value.asNumeric, Value.isBool, Value.isNumber,
        Value.typeName]
  refine ⟨h1, h2, ?_⟩
  rw [eval_plus, hL, andThen_value, hR, andThen_value, h1]

/-- C19, on `123 + "string"` of the test `TypeMixing`: the node raises. -/
theorem C19_add_mixed_kinds_witness :
    eval bareHost 2 (.BinaryExpr .Plus (.NumberExpr 123) (.StringExpr "string")) 0
        emptyGlobalState =
      some (.error "Expected a number or bool but got 'string'", emptyGlobalState) :=
  (C19_add_mixed_kinds bareHost 1 (.NumberExpr 123) (.StringExpr "string") 0 emptyGlobalState
    emptyGlobalState emptyGlobalState (.number 123) (.string "string") rfl rfl rfl rfl
    (by decide)).2.2

/-- C20: for all lists `L` and `M` (valid pointers `p`, `q` into the list cells), `L + M` is a
list in a new cell, of length `len(L) + len(M)`, whose first `len(L)` elements are the
elements of `L` in order and whose remaining elements are the elements of `M` in order; every
cell that existed before, `L` and `M` among them, is unchanged. -/
theorem C20_list_concatenation (lists : List (List Value)) (p q : Nat)
    (hp : p < lists.length) (hq : q < lists.length) :
    ∃ r lists2, opAdd lists (.list p) (.list q) = (.value (.list r), lists2) ∧
      derefList lists2 r = derefList lists p ++ derefList lists q ∧
      (derefList lists2 r).length = (derefList lists p).length + (derefList lists q).length ∧
      (∀ i, i < (derefList lists p).length →
        (derefList lists2 r)[i]? = (derefList lists p)[i]?) ∧
      (∀ j, j < (derefList lists q).length →
        (derefList lists2 r)[(derefList lists p).length + j]? = (derefList lists q)[j]?) ∧
      r ≠ p ∧ r ≠ q ∧
      (∀ k, k < lists.length → derefList lists2 k = derefList lists k) ∧
      derefList lists2 p = derefList lists p ∧ derefList lists2 q = derefList lists q := by
  have hold : ∀ k, k < lists.length →
      derefList (lists ++ [derefList lists p ++ derefList lists q]) k = derefList lists k := by
    intro k hk
    exact derefList_append_left lists _ k hk
  have hnew : derefList (lists ++ [derefList lists p ++ derefList lists q]) lists.length =
      derefList lists p ++ derefList lists q := derefList_append_self lists _
  refine ⟨lists.length, lists ++ [derefList lists p ++ derefList lists q], rfl, hnew, ?_, ?_,
    ?_, ?_, ?_, hold, hold p hp, hold q hq⟩
  · rw [hnew, List.length_append]
  · intro i hi
    rw [hnew, List.getElem?_append_left hi]
  · intro j _
    rw [hnew, List.getElem?_append_right (Nat.le_add_right _ _), Nat.add_sub_cancel_left]
  · omega
  · omega

/-- C20, on `a = [1, 2]  b = [3, 4]  c = a + b` of the test `ListConcatenation`: `c` is a new
cell holding `1, 2, 3, 4`, and `a` and `b` are unchanged. -/
theorem C20_list_concatenation_witness :
    opAdd [[.number 1, .number 2], [.number 3, .number 4]] (.list 0) (.list 1) =
      (.value (.list 2), [[.number 1, .number 2], [.number 3, .number 4],
        [.number 1, .number 2, .number 3, .number 4]]) ∧
    ∃ r lists2, opAdd [[.number 1, .number 2], [.number 3, .number 4]] (.list 0) (.list 1) =
        (.value (.list r), lists2) ∧
      derefList lists2 r = [.number 1, .number 2, .number 3, .number 4] ∧
      derefList lists2 0 = [.number 1, .number 2] ∧
      derefList lists2 1 = [.number 3, .number 4] := by
  obtain ⟨r, lists2, h1, h2, _, _, _, _, _, _, h3, h4⟩ :=
    C20_list_concatenation [[.number 1, .number 2], [.number 3, .number 4]] 0 1
      (by decide) (by decide)
  exact ⟨rfl, r, lists2, h1, h2, h3, h4⟩

/-! ## String subtraction (C21) -/

theorem opSub_string_suffix (s t : String) (h : t.data <:+ s.data) :
    opSub (.string s) (.string t) =
      .value (.string ⟨s.data.take (s.length - t.length)⟩) := by
  have h1 : t.length ≤ s.length := h.length_le
  have h2 : s.data.drop (s.length - t.length) = t.data :=
    (List.suffix_iff_eq_drop.mp h).symm
  simp only [opSub]
  rw [if_pos ⟨h1, h2⟩]

theorem opSub_string_not_suffix (s t : String) (h : ¬ t.data <:+ s.data) :
    opSub (.string s) (.string t) = .value (.string s) := by
  simp only [opSub]
  rw [if_neg]
  rintro ⟨_, h2⟩
  exact h (List.suffix_iff_eq_drop.mpr h2.symm)

/-- C21: for all strings `s` and `t`, `(s + t) - t` equals `s`: the subtraction removes
exactly one trailing occurrence of `t` (whenever `t` is a suffix of a string, what is left is
the string without its last `len(t)` characters); and when `t` is not a suffix of `s`, `s - t`
is `s` unchanged. -/
theorem C21_string_subtraction (lists : List (List Value)) (s t : String) :
    opAdd lists (.string s) (.string t) = (.value (.string (s ++ t)), lists) ∧
    opSub (.string (s ++ t)) (.string t) = .value (.string s) ∧
    (t.data <:+ s.data →
      opSub (.string s) (.string t) =
        .value (.string ⟨s.data.take (s.data.length - t.data.length)⟩)) ∧
    (¬ t.data <:+ s.data → opSub (.string s) (.string t) = .value (.string s)) := by
  refine ⟨rfl, ?_, opSub_string_suffix s t, opSub_string_not_suffix s t⟩
  have hsuf : t.data <:+ (s ++ t).data := by
    rw [String.data_append]
    exact List.suffix_append _ _
  have hlen : (s ++ t).length - t.length = s.data.length := by
    rw [String.length_append, Nat.add_sub_cancel]
    rfl
  rw [opSub_string_suffix (s ++ t) t hsuf, hlen, String.data_append, List.take_left' rfl]

/-- C21, on `"abc" + "def" - "def"`, on `"abab" - "ab"` (one occurrence removed) and on
`"hello" - "he"` (not a suffix). -/
theorem C21_string_subtraction_witness :
    opSub (.string ("abc" ++ "def")) (.string "def") = .value (.string "abc") ∧
    opSub (.string "abab") (.string "ab") = .value (.string "ab") ∧
    opSub (.string "hello") (.string "he") = .value (.string "hello") :=
  ⟨(C21_string_subtraction [] "abc" "def").2.1,
    (C21_string_subtraction [] "abab" "ab").2.2.1 (by decide),
    (C21_string_subtraction [] "hello" "he").2.2.2 (by decide)⟩

/-! ## Repetition of strings and lists (C22) -/

theorem repeatAppend_eq_flatten {α : Type} (xs : List α) (k : Nat) :
    repeatAppend xs k = (List.replicate k xs).flatten := by
  induction k with
  | zero => rfl
  | succ k ih =>
    rw [repeatAppend, ih, List.replicate_succ']
    simp

theorem truncInt_of_nonneg (d : ℚ) (h : 0 ≤ d) : truncInt d = ⌊d⌋ := by
  simp only [truncInt, h, if_true]
  rfl

theorem staticCastInt_of_nonneg (d : ℚ) (h0 : 0 ≤ d) (h1 : d < 2147483648) :
    staticCastInt d = some ⌊d⌋ := by
  have h2 : (-2147483649 : ℚ) < d := by linarith
  simp only [staticCastInt, h2, h1, and_self, if_true, truncInt_of_nonneg d h0]

/-- The number of extra elements of a repetition with a count `n >= 0`, before its conversion
to `int`: it lies between `0` and the size. -/
theorem cut_bounds (n : ℚ) (size : Nat) (hs : size < 2147483648) :
    0 ≤ roundDouble (roundDouble (n - ⌊n⌋) * size) ∧
      roundDouble (roundDouble (n - ⌊n⌋) * size) ≤ size := by
  have hf0 : 0 ≤ n - ⌊n⌋ := sub_nonneg.mpr (Int.floor_le n)
  have hf1 : n - ⌊n⌋ ≤ ((1 : ℕ) : ℚ) := by
    have := Int.lt_floor_add_one n
    push_cast
    linarith
  have g0 := roundDouble_nonneg _ hf0
  have g1 := roundDouble_le_natCast _ 1 (by norm_num) hf1
  have hp0 : 0 ≤ roundDouble (n - ⌊n⌋) * (size : ℚ) := mul_nonneg g0 (Nat.cast_nonneg _)
  have hp1 : roundDouble (n - ⌊n⌋) * (size : ℚ) ≤ size := by
    have := mul_le_mul_of_nonneg_right g1 (Nat.cast_nonneg size : (0 : ℚ) ≤ size)
    simpa using this
  have hs53 : size ≤ 2 ^ 53 := le_trans (le_of_lt hs) (by norm_num)
  exact ⟨roundDouble_nonneg _ hp0, roundDouble_le_natCast _ size hs53 hp1⟩

theorem mulString_of_nonneg (s : String) (n : ℚ) (hn : 0 ≤ n) (hn2 : n < 2147483648)
    (hs : s.length < 2147483648) :
    mulString s n =
      .value (.string ⟨(List.replicate ⌊n⌋.toNat s.data).flatten ++
        s.data.take ⌊roundDouble (roundDouble (n - ⌊n⌋) * s.length)⌋.toNat⟩) := by
  obtain ⟨c0, c1⟩ := cut_bounds n s.length hs
  have hs2 : ((s.length : ℕ) : ℚ) < 2147483648 := by exact_mod_cast hs
  have hc := staticCastInt_of_nonneg _ c0 (lt_of_le_of_lt c1 hs2)
  have hcut : ¬ ⌊roundDouble (roundDouble (n - ⌊n⌋) * (s.length : ℚ))⌋ < 0 :=
    not_lt.mpr (Int.floor_nonneg.mpr c0)
  simp only [mulString, staticCastInt_of_nonneg n hn hn2, hc, hcut, if_false,
    repeatAppend_eq_flatten]

theorem mulList_of_nonneg (lists : List (List Value)) (p : Nat) (n : ℚ) (hn : 0 ≤ n)
    (hn2 : n < 2147483648) (hl : (derefList lists p).length < 2147483648) :
    mulList lists p n =
      (.value (.list lists.length),
        lists ++ [(List.replicate ⌊n⌋.toNat (derefList lists p)).flatten ++
          (derefList lists p).take
            ⌊roundDouble (roundDouble (n - ⌊n⌋) * (derefList lists p).length)⌋.toNat]) := by
  obtain ⟨c0, c1⟩ := cut_bounds n (derefList lists p).length hl
  have hs2 : (((derefList lists p).length : ℕ) : ℚ) < 2147483648 := by exact_mod_cast hl
  have hc := staticCastInt_of_nonneg _ c0 (lt_of_le_of_lt c1 hs2)
  have hcut : ¬ ⌊roundDouble (roundDouble (n - ⌊n⌋) * ((derefList lists p).length : ℚ))⌋ < 0 :=
    not_lt.mpr (Int.floor_nonneg.mpr c0)
  simp only [mulList, staticCastInt_of_nonneg n hn hn2, hc, hcut, if_false,
    repeatAppend_eq_flatten, allocList]

set_option maxRecDepth 10000 in
/-- C22, as stated, fails.  The number `6004799503160661 / 2^54` is a `double` (the one nearest
to `1/3`); the claimed count of extra characters of `"abc"` times it is
`floor(0.999...) = 0`, but the code rounds the product to the `double` `1`, and the result is
`"a"`; the program `print("abc" * (1/3))` writes `a`.  And `"a" * 3000000000` is not three
thousand million copies: the conversion of the count to `int` is undefined. -/
theorem C22_counterexample :
    roundDouble (6004799503160661 / 18014398509481984) =
      6004799503160661 / 18014398509481984 ∧
    ⌊((6004799503160661 / 18014398509481984 : ℚ) -
      ⌊(6004799503160661 / 18014398509481984 : ℚ)⌋) * (("abc".length : ℕ) : ℚ)⌋ = 0 ∧
    opMul [] (.string "abc") (.number (6004799503160661 / 18014398509481984)) =
      (.value (.string "a"), []) ∧
    (∀ fmt : ℚ → String, ∃ st : State,
      interpretText (printHost fmt) 30 "print(\"abc\" * (1/3))" =
        some (InterpretResult.returned true, st) ∧ st.output = "a") ∧
    opMul [] (.string "a") (.number 3000000000) =
      (.undefinedBehaviour "conversion of a double out of the range of int", []) := by
  refine ⟨by with_unfolding_all rfl, ?_, by with_unfolding_all rfl,
    fun fmt => ⟨_, by with_unfolding_all rfl, by with_unfolding_all rfl⟩,
    by with_unfolding_all rfl⟩
  have h0 : ⌊(6004799503160661 / 18014398509481984 : ℚ)⌋ = 0 := by
    rw [Int.floor_eq_iff]
    norm_num
  rw [h0, Int.floor_eq_iff]
  norm_num [String.length]

/-- C22, amended: for every string `s` shorter than `2^31` and every number `n` with
`0 <= n < 2^31`, `s * n` is `floor(n)` copies of `s` concatenated, followed by the first
`floor(r)` characters of `s`, where `r` is the product `(n - floor(n)) * len(s)` as the code
computes it, in `double` arithmetic (`roundDouble` of the difference, then of the product);
and `n * s` equals `s * n`.  The same holds for a list in place of the string, over its
elements, the result being a list in a new cell. -/
theorem C22_repetition (lists : List (List Value)) (s : String) (p : Nat) (n : ℚ)
    (hn : 0 ≤ n) (hn2 : n < 2147483648) (hs : s.length < 2147483648)
    (hl : (derefList lists p).length < 2147483648) :
    opMul lists (.string s) (.number n) =
      (.value (.string ⟨(List.replicate ⌊n⌋.toNat s.data).flatten ++
        s.data.take ⌊roundDouble (roundDouble (n - ⌊n⌋) * s.length)⌋.toNat⟩), lists) ∧
    opMul lists (.number n) (.string s) = opMul lists (.string s) (.number n) ∧
    opMul lists (.list p) (.number n) =
      (.value (.list lists.length),
        lists ++ [(List.replicate ⌊n⌋.toNat (derefList lists p)).flatten ++
          (derefList lists p).take
            ⌊roundDouble (roundDouble (n - ⌊n⌋) * (derefList lists p).length)⌋.toNat]) ∧
    opMul lists (.number n) (.list p) = opMul lists (.list p) (.number n) := by
  refine ⟨?_, rfl, ?_, rfl⟩
  · simp only [opMul, mulString_of_nonneg s n hn hn2 hs]
  · simp only [opMul, mulList_of_nonneg lists p n hn hn2 hl]

set_option maxRecDepth 10000 in
/-- C22, amended, on `"ab" * 2.5` of the test `StringRepeatFunction` and on `[1, 2] * 2` of the
test `ListRepetition`. -/
theorem C22_repetition_witness :
    opMul [[.number 1, .number 2]] (.string "ab") (.number (5 / 2)) =
      (.value (.string "ababa"), [[.number 1, .number 2]]) ∧
    opMul [[.number 1, .number 2]] (.list 0) (.number 2) =
      (.value (.list 1),
        [[.number 1, .number 2], [.number 1, .number 2, .number 1, .number 2]]) := by
  have h1 := (C22_repetition [[.number 1, .number 2]] "ab" 0 (5 / 2) (by norm_num)
    (by norm_num) (by decide) (by decide)).1
  have h2 := (C22_repetition [[.number 1, .number 2]] "ab" 0 2 (by norm_num)
    (by norm_num) (by decide) (by decide)).2.2.1
  exact ⟨h1.trans (by with_unfolding_all rfl), h2.trans (by with_unfolding_all rfl)⟩

/-! ## Division and remainder (C23) -/

theorem truncInt_ge_of_neg (x : ℚ) (h : x < 0) :
    x ≤ (truncInt x : ℚ) ∧ (truncInt x : ℚ) - x < 1 := by
  have h1 : truncInt x = -⌊-x⌋ := by
    simp only [truncInt, not_le.mpr h, if_false]
    rfl
  rw [h1]
  push_cast
  exact ⟨by linarith [Int.floor_le (-x)], by linarith [Int.lt_floor_add_one (-x)]⟩

theorem eval_compound (H : Host) (fuel : Nat) (op : TokenType) (name : String) (rhs : ExprAST)
    (env : Nat) (st : State) (old : Value)
    (hget : Environment.get st.frames env name = some (.ok old)) :
    eval H (fuel + 1) (.CompoundAssignmentExpr op name rhs) env st =
      (eval H fuel rhs env st).andThen (fun right st1 =>
        match compoundOp H op st1.lists old right with
        | (.value result, ls) =>
          match Environment.set st1.frames env name result with
          | none => none
          | some fs => some (.value result, { st1 with frames := fs, lists := ls })
        | (o, ls) => some (o, { st1 with lists := ls })) := by
  simp only [eval, hget]

/-- C24, as the code behaves: when `x` is bound to a number or boolean and `e` evaluates to a
value that coerces to `0`, the node `x %= e` raises no error: it calls `std::fmod` on the two
coerced operands without a zero test, and the result is the NaN that `fmod` returns for a zero
divisor (a value outside the exact model of numbers); the assignment `x = x % e` in the same
state raises "Division by zero". -/
theorem C24_percent_assign_zero (H : Host) (fuel : Nat) (x : String) (e : ExprAST) (env : Nat)
    (st st1 : State) (old right : Value) (da : ℚ)
    (hget : Environment.get st.frames env x = some (.ok old))
    (hold : old.asNumeric = .ok da)
    (he : eval H (fuel + 1) e env st = some (.value right, st1))
    (hzero : right.asNumeric = .ok 0) :
    eval H (fuel + 2) (.CompoundAssignmentExpr .PercentAssign x e) env st =
      some (.outsideModel "NaN", st1) ∧
    (∀ what s, eval H (fuel + 2) (.CompoundAssignmentExpr .PercentAssign x e) env st ≠
      some (.error what, s)) ∧
    eval H (fuel + 3) (.AssignmentExpr x (.BinaryExpr .Percent (.VariableExpr x) e)) env st =
      some (.error "Division by zero", st1) := by
  have h1 : eval H (fuel + 2) (.CompoundAssignmentExpr .PercentAssign x e) env st =
      some (.outsideModel "NaN", st1) := by
    rw [eval_compound H (fuel + 1) _ _ _ _ _ old hget, he, andThen_value]
    simp [compoundOp, numericBin, hold, hzero]
  refine ⟨h1, ?_, ?_⟩
  · intro what s h
    rw [h1] at h
    cases h
  · rw [eval_assignment, eval_binary, eval_variable, hget]
    simp only [andThen_value, he]
    simp [binaryOp, opMod, numericBin, hold, hzero, Res.andThen]

/-- C24, on `x %= 0` after `x = 5`: no error is raised, while `x = x % 0` raises. -/
theorem C24_percent_assign_witness :
    eval bareHost 2 (.CompoundAssignmentExpr .PercentAssign "x" (.NumberExpr 0)) 0
        xIsFiveState = some (.outsideModel "NaN", xIsFiveState) ∧
    eval bareHost 3
        (.AssignmentExpr "x" (.BinaryExpr .Percent (.VariableExpr "x") (.NumberExpr 0))) 0
        xIsFiveState = some (.error "Division by zero", xIsFiveState) := by
  have h := C24_percent_assign_zero bareHost 0 "x" (.NumberExpr 0) 0 xIsFiveState xIsFiveState
    (.number 5) (.number 0) 5 rfl rfl rfl rfl
  exact ⟨h.1, h.2.2⟩

/-! ## Indexing (C25) -/

theorem elementsToString_rest (render : Value → Option String) :
    ∀ (xs : List Value) (ts : List String),
      List.Forall₂ (fun x t => render x = some t) xs ts →
      ∃ R, elementsToString render xs false = some R ∧
        ∀ acc, String.intercalate.go acc ", " (List.zipWith elementPiece xs ts) = acc ++ R := by
  intro xs ts h
  induction h with
  | nil => exact ⟨"", rfl, fun acc => by simp [String.intercalate.go]⟩
  | @cons x t xs ts hx _ ih =>
    obtain ⟨R, hR, hgo⟩ := ih
    refine ⟨", " ++ elementPiece x t ++ R, ?_, ?_⟩
    · simp only [elementsToString, hx, hR, elementPiece]
      rfl
    · intro acc
      simp only [List.zipWith_cons_cons, String.intercalate.go, hgo, String.append_assoc]

theorem elementsToString_first (render : Value → Option String) (xs : List Value)
    (ts : List String) (h : List.Forall₂ (fun x t => render x = some t) xs ts) :
    elementsToString render xs true =
      some (", ".intercalate (List.zipWith elementPiece xs ts)) := by
  cases h with
  | nil => rfl
  | @cons x t xs ts hx hrest =>
    obtain ⟨R, hR, hgo⟩ := elementsToString_rest render xs ts hrest
    simp only [elementsToString, hx, hR, List.zipWith_cons_cons, String.intercalate, hgo]
    simp [elementPiece]

theorem toString_list (fmt : ℚ → String) (lists : List (List Value)) (fuel p : Nat)
    (ts : List String)
    (hts : List.Forall₂ (fun x t => Value.toString fmt lists fuel x = some t)
      (derefList lists p) ts) :
    Value.toString fmt lists (fuel + 1) (.list p) =
      some ((if (derefList lists p).length ≠ 1 then "[" else "") ++
        ", ".intercalate (List.zipWith elementPiece (derefList lists p) ts) ++
        (if (derefList lists p).length ≠ 1 then "]" else "")) := by
  simp only [Value.toString, elementsToString_first _ _ _ hts]

/-- C27, as stated, fails: the one-element list holding the string `a` renders as `"a"`, with
the double quotes, which is not the `toString` of its element (`a`); and the list of `1` and
the string `a` renders as `[1, "a"]`, not as the elements' `toString` joined (`[1, a]`). -/
theorem C27_counterexample :
    Value.toString (fun _ => "") [[.string "a"]] 2 (.list 0) = some "\"a\"" ∧
    Value.toString (fun _ => "") [[.string "a"]] 1 (.string "a") = some "a" ∧
    Value.toString (fun _ => "") [[.number 1, .string "a"]] 2 (.list 0) = some "[1, \"a\"]" ∧
    Value.toString (fun _ => "") [[.number 1, .string "a"]] 1 (.number 1) = some "1" := by
  refine ⟨rfl, rfl, ?_, ?_⟩
  · with_unfolding_all rfl
  · with_unfolding_all rfl

/-- C27, amended: for every list `xs`, `toString(xs)` is built only from the renderings of
its elements (given the `toString` of each element, with the fuel they take), an element
that is a string being written between double quotes and every other element as its own
`toString`: when `len(xs)` is not `1` it is "[" followed by these renderings joined by ", "
followed by "]" (so "[]" for the empty list), and when `len(xs)` is `1` it is exactly the
rendering of `xs[0]`, with no brackets. -/
theorem C27_list_toString (fmt : ℚ → String) (lists : List (List Value)) (fuel p : Nat)
    (ts : List String)
    (hts : List.Forall₂ (fun x t => Value.toString fmt lists fuel x = some t)
      (derefList lists p) ts) :
    ((derefList lists p).length ≠ 1 →
      Value.toString fmt lists (fuel + 1) (.list p) =
        some ("[" ++ ", ".intercalate (List.zipWith elementPiece (derefList lists p) ts) ++
          "]")) ∧
    (derefList lists p = [] → Value.toString fmt lists (fuel + 1) (.list p) = some "[]") ∧
    (∀ x t, derefList lists p = [x] → ts = [t] →
      Value.toString fmt lists (fuel + 1) (.list p) =
        some (if x.isString then "\"" ++ t ++ "\"" else t)) := by
  have h := toString_list fmt lists fuel p ts hts
  refine ⟨?_, ?_, ?_⟩
  · intro hn
    rw [h]
    simp only [hn, ne_eq, not_false_eq_true, if_true]
  · intro he
    rw [h, he]
    rfl
  · intro x t hx ht
    rw [h, hx, ht]
    simp [elementPiece, String.intercalate, String.intercalate.go]

/-- C27, amended, on `[1, 2, 3]`, on `[42]` and on the empty list. -/
theorem C27_list_toString_witness :
    Value.toString (fun _ => "") [[.number 1, .number 2, .number 3]] 2 (.list 0) =
      some ("[" ++ ", ".intercalate ["1", "2", "3"] ++ "]") ∧
    Value.toString (fun _ => "") [[.number 42]] 2 (.list 0) = some "42" ∧
    Value.toString (fun _ => "") [[]] 2 (.list 0) = some "[]" := by
  have e1 : Value.toString (fun _ => "") [[.number 1, .number 2, .number 3]] 1 (.number 1) =
      some "1" := by with_unfolding_all rfl
  have e2 : Value.toString (fun _ => "") [[.number 1, .number 2, .number 3]] 1 (.number 2) =
      some "2" := by with_unfolding_all rfl
  have e3 : Value.toString (fun _ => "") [[.number 1, .number 2, .number 3]] 1 (.number 3) =
      some "3" := by with_unfolding_all rfl
  have e42 : Value.toString (fun _ => "") [[.number 42]] 1 (.number 42) = some "42" := by
    with_unfolding_all rfl
  refine ⟨?_, ?_, ?_⟩
  · exact (C27_list_toString (fun _ => "") [[.number 1, .number 2, .number 3]] 1 0
      ["1", "2", "3"] (.cons e1 (.cons e2 (.cons e3 .nil)))).1 (by decide)
  · exact (C27_list_toString (fun _ => "") [[.number 42]] 1 0 ["42"]
      (.cons e42 .nil)).2.2 (.number 42) "42" rfl rfl
  · exact (C27_list_toString (fun _ => "") [[]] 1 0 [] .nil).2.1 rfl

/-- C28: in the rendering of a list, every element that is a string is written enclosed in
double quotes, its characters unchanged between the quotes, while every non-string element
is written as its own `toString`: the rendering is the bracketed (unless the list has one
element) joining by ", " of one piece per element, in order, where the piece of a string `s`
is `"s"` and the piece of any other element is its `toString`. -/
theorem C28_string_elements_quoted (fmt : ℚ → String) (lists : List (List Value))
    (fuel p : Nat) (ts : List String)
    (hts : List.Forall₂ (fun x t => Value.toString fmt lists (fuel + 1) x = some t)
      (derefList lists p) ts) :
    ∃ pieces : List String,
      Value.toString fmt lists (fuel + 2) (.list p) =
        some ((if (derefList lists p).length ≠ 1 then "[" else "") ++
          ", ".intercalate pieces ++ (if (derefList lists p).length ≠ 1 then "]" else "")) ∧
      pieces.length = (derefList lists p).length ∧
      ∀ (i : Nat) (x : Value), (derefList lists p)[i]? = some x →
        (∀ s, x = .string s → pieces[i]? = some ("\"" ++ s ++ "\"")) ∧
        (x.isString = false → pieces[i]? = Value.toString fmt lists (fuel + 1) x) := by
  refine ⟨List.zipWith elementPiece (derefList lists p) ts,
    toString_list fmt lists (fuel + 1) p ts hts, ?_, ?_⟩
  · rw [List.length_zipWith, hts.length_eq, Nat.min_self]
  · intro i x hx
    have hlen := hts.length_eq
    have hi : i < (derefList lists p).length := by
      rcases Nat.lt_or_ge i (derefList lists p).length with h | h
      · exact h
      · rw [List.getElem?_eq_none h] at hx
        cases hx
    have hit : i < ts.length := hlen ▸ hi
    have hxi : (derefList lists p)[i] = x := by
      rw [List.getElem?_eq_getElem hi] at hx
      exact Option.some.inj hx
    have ht : Value.toString fmt lists (fuel + 1) x = some ts[i] := by
      rw [← hxi]
      exact List.forall₂_iff_get.mp hts |>.2 i hi hit
    have hp : (List.zipWith elementPiece (derefList lists p) ts)[i]? =
        some (elementPiece x ts[i]) := by
      rw [List.getElem?_zipWith, List.getElem?_eq_getElem hi, List.getElem?_eq_getElem hit, hxi]
    constructor
    · intro s hs
      subst hs
      rw [hp]
      have : ts[i] = s := by
        simp only [Value.toString] at ht
        exact (Option.some.inj ht).symm
      rw [this]
      rfl
    · intro hns
      rw [hp, ht]
      simp [elementPiece, hns]

/-- C28, on the list of `123`, `10` and the string `WOW` of the test `PushAffectsAllAliases`:
it renders as `[123, 10, "WOW"]`. -/
theorem C28_string_elements_witness :
    Value.toString (fun _ => "") massCells 2 (.list 0) = some "[123, 10, \"WOW\"]" ∧
    ∃ pieces : List String,
      Value.toString (fun _ => "") massCells 2 (.list 0) =
        some ((if (derefList massCells 0).length ≠ 1 then "[" else "") ++
          ", ".intercalate pieces ++
          (if (derefList massCells 0).length ≠ 1 then "]" else "")) ∧
      pieces.length = (derefList massCells 0).length ∧
      ∀ (i : Nat) (x : Value), (derefList massCells 0)[i]? = some x →
        (∀ s, x = .string s → pieces[i]? = some ("\"" ++ s ++ "\"")) ∧
        (x.isString = false → pieces[i]? = Value.toString (fun _ => "") massCells 1 x) := by
  have e1 : Value.toString (fun _ => "") massCells 1 (.number 123) = some "123" := by
    with_unfolding_all rfl
  have e2 : Value.toString (fun _ => "") massCells 1 (.number 10) = some "10" := by
    with_unfolding_all rfl
  have e3 : Value.toString (fun _ => "") massCells 1 (.string "WOW") = some "WOW" := rfl
  refine ⟨?_, C28_string_elements_quoted (fun _ => "") massCells 0 0 ["123", "10", "WOW"]
    (.cons e1 (.cons e2 (.cons e3 .nil)))⟩
  with_unfolding_all rfl

/-! ## The membership test (C29) -/

theorem eval_in (H : Host) (fuel : Nat) (l r : ExprAST) (env : Nat) (st : State) :
    eval H (fuel + 1) (.InExpr l r) env st =
      (eval H fuel l env st).andThen (fun hayV st1 =>
        match hayV with
        | .string hay =>
          (eval H fuel r env st1).andThen (fun needleV st2 =>
            match needleV with
            | .string needle => some (.value (.bool (containsSub hay.data needle.data)), st2)
            | _ => some (.error "bad variant access", st2))
        | _ => some (.error "bad variant access", st1)) := rfl

theorem containsSub_iff (needle : List Char) :
    ∀ hay : List Char, containsSub hay needle = true ↔ needle <:+: hay := by
  intro hay
  induction hay with
  | nil => simp [containsSub]
  | cons c hay ih =>
    simp only [containsSub, Bool.or_eq_true, ih, List.infix_cons_iff, List.isPrefixOf_iff_prefix]

/-- C29, as the code behaves: the node `a in b` takes its left operand as the text searched
and its right operand as the text looked for, the reverse of a membership test.  It evaluates
without error exactly when both operands evaluate to strings, and is then the boolean that is
true if and only if `b` occurs inside `a` as a contiguous substring.  When `a` is not a string
the node raises before `b` is evaluated, and when `a` is a string and `b` is not, it raises
after `b`: no operand is converted to a string. -/
theorem C29_membership (H : Host) (fuel : Nat) (l r : ExprAST) (env : Nat) (st st1 : State)
    (a : Value) (hl : eval H fuel l env st = some (.value a, st1)) :
    (∀ s, a = .string s → ∀ b st2, eval H fuel r env st1 = some (.value b, st2) →
      (∀ t, b = .string t →
        eval H (fuel + 1) (.InExpr l r) env st =
          some (.value (.bool (containsSub s.data t.data)), st2) ∧
        (containsSub s.data t.data = true ↔ t.data <:+: s.data)) ∧
      (b.isString = false →
        ∃ what, eval H (fuel + 1) (.InExpr l r) env st = some (.error what, st2))) ∧
    (a.isString = false →
      ∃ what, eval H (fuel + 1) (.InExpr l r) env st = some (.error what, st1)) := by
  constructor
  · intro s hs b st2 hr
    subst hs
    constructor
    · intro t ht
      subst ht
      refine ⟨?_, containsSub_iff _ _⟩
      rw [eval_in, hl, andThen_value]
      simp only [hr, andThen_value]
    · intro hb
      refine ⟨"bad variant access", ?_⟩
      rw [eval_in, hl, andThen_value]
      simp only [hr, andThen_value]
      cases b <;> simp_all [Value.isString]
  · intro ha
    refine ⟨"bad variant access", ?_⟩
    rw [eval_in, hl, andThen_value]
    cases a <;> simp_all [Value.isString]

/-- C29, on `"abc" in "bc"`: the node is `true`, since `bc` occurs inside `abc`; on the
program texts `print("a" in "abc")` and `print("abc" in "a")`, which write `false` and `true`;
and on `1 in "1"`, which raises instead of comparing renderings. -/
theorem C29_membership_witness :
    (eval bareHost 2 (.InExpr (.StringExpr "abc") (.StringExpr "bc")) 0 emptyGlobalState =
        some (.value (.bool (containsSub "abc".data "bc".data)), emptyGlobalState) ∧
      (containsSub "abc".data "bc".data = true ↔ "bc".data <:+: "abc".data) ∧
      containsSub "abc".data "bc".data = true) ∧
    (∀ fmt : ℚ → String,
      (∃ st : State, interpretText (printHost fmt) 30 "print(\"a\" in \"abc\")" =
        some (InterpretResult.returned true, st) ∧ st.output = "false") ∧
      (∃ st : State, interpretText (printHost fmt) 30 "print(\"abc\" in \"a\")" =
        some (InterpretResult.returned true, st) ∧ st.output = "true")) ∧
    (∃ what, eval bareHost 2 (.InExpr (.NumberExpr 1) (.StringExpr "1")) 0 emptyGlobalState =
      some (.error what, emptyGlobalState)) :=
  ⟨⟨(((C29_membership bareHost 1 (.StringExpr "abc") (.StringExpr "bc") 0 emptyGlobalState
      emptyGlobalState (.string "abc") rfl).1 "abc" rfl (.string "bc") emptyGlobalState rfl).1
      "bc" rfl).1,
    (((C29_membership bareHost 1 (.StringExpr "abc") (.StringExpr "bc") 0 emptyGlobalState
      emptyGlobalState (.string "abc") rfl).1 "abc" rfl (.string "bc") emptyGlobalState rfl).1
      "bc" rfl).2, rfl⟩,
    fun fmt => ⟨⟨_, by with_unfolding_all rfl, by with_unfolding_all rfl⟩,
      ⟨_, by with_unfolding_all rfl, by with_unfolding_all rfl⟩⟩,
    ⟨_, rfl⟩⟩

/-! ## The `for` loop iterates over a snapshot (C30) -/

theorem eval_for (H : Host) (fuel : Nat) (x : String) (seq body : ExprAST) (env : Nat)
    (st : State) :
    eval H (fuel + 1) (.ForExpr x seq body) env st =
      (eval H fuel seq env st).andThen (fun seqV st1 =>
        match seqV with
        | .list p => forLoop (eval H fuel) x body env (derefList st1.lists p) .nil st1
        | _ => some (.error "For: ожидается список в выражении 'in'", st1)) := rfl

theorem forLoop_of_iterations (ev : ExprAST → Nat → State → Res) (x : String) (body : ExprAST)
    (env : Nat) :
    ∀ (els : List Value) (result : Value) (st stEnd : State),
      forIterations ev x body env els st stEnd →
      ∃ r, forLoop ev x body env els result st = some (.value r, stEnd) := by
  intro els
  induction els with
  | nil =>
    intro result st stEnd h
    simp only [forIterations] at h
    exact ⟨result, by rw [← h]; rfl⟩
  | cons el rest ih =>
    intro result st stEnd h
    obtain ⟨st2, ⟨fs, o, hset, hbody, ho⟩, hrest⟩ := h
    rcases ho with ho | ⟨v, ho⟩
    · subst ho
      obtain ⟨r, hr⟩ := ih result st2 stEnd hrest
      exact ⟨r, by simp only [forLoop, hset, hbody, hr]⟩
    · subst ho
      obtain ⟨r, hr⟩ := ih v st2 stEnd hrest
      exact ⟨r, by simp only [forLoop, hset, hbody, hr]⟩

/-- C30: when `L` evaluates to a list, the loop `for x in L ... end for` runs one pass per
element the list had when the loop started (the cell as it is right after `L` is evaluated),
in order, each pass binding `x` to that element and then evaluating the body, whatever the
body does to that same list meanwhile: if these passes (bodies that complete or end with
continue) lead to the state `stEnd`, the loop ends normally in `stEnd`.  When `L` evaluates
to a value that is not a list, a string included, the loop raises an error in the state `L`
left, without evaluating the body. -/
theorem C30_for_over_snapshot (H : Host) (fuel : Nat) (x : String) (seq body : ExprAST)
    (env : Nat) (st st1 stEnd : State) (seqV : Value)
    (hseq : eval H fuel seq env st = some (.value seqV, st1)) :
    (∀ p, seqV = .list p →
      forIterations (eval H fuel) x body env (derefList st1.lists p) st1 stEnd →
      ∃ r, eval H (fuel + 1) (.ForExpr x seq body) env st = some (.value r, stEnd)) ∧
    (seqV.isList = false →
      eval H (fuel + 1) (.ForExpr x seq body) env st =
        some (.error "For: ожидается список в выражении 'in'", st1)) := by
  constructor
  · intro p hp hiter
    subst hp
    obtain ⟨r, hr⟩ := forLoop_of_iterations (eval H fuel) x body env _ .nil st1 stEnd hiter
    exact ⟨r, by rw [eval_for, hseq, andThen_value]; exact hr⟩
  · intro hl
    rw [eval_for, hseq, andThen_value]
    cases seqV <;> simp_all [Value.isList]

/-- C30, on `for x in L  push(L, x)  end for` with `L = [1, 2]`: the body runs for `1` and for
`2` only, although the list grows to `[1, 2, 1, 2]` meanwhile; and on a loop over the string
`"ab"`, which raises. -/
theorem C30_for_witness :
    (∃ r, eval pushHost 5 pushingLoop 0 listLState =
      some (.value r,
        { listLState with
          frames := [⟨[("push", .func (.builtin "push")), ("L", .list 0),
            ("x", .number 2)], none⟩]
          lists := [[.number 1, .number 2, .number 1, .number 2]] })) ∧
    eval pushHost 2 (.ForExpr "x" (.StringExpr "ab") (.BlockExpr [])) 0 listLState =
      some (.error "For: ожидается список в выражении 'in'", listLState) :=
  ⟨(C30_for_over_snapshot pushHost 4 "x" (.VariableExpr "L") _ 0 listLState listLState _
      (.list 0) rfl).1 0 rfl
      ⟨_, ⟨_, _, rfl, rfl, Or.inr ⟨_, rfl⟩⟩, _, ⟨_, _, rfl, rfl, Or.inr ⟨_, rfl⟩⟩, rfl⟩,
    (C30_for_over_snapshot pushHost 1 "x" (.StringExpr "ab") (.BlockExpr []) 0 listLState
      listLState listLState (.string "ab") rfl).2 rfl⟩

/-! ## Increment and decrement (C31) -/

theorem get_some_lt (frames : List Environment) (i : Nat) (name : String)
    (r : Except String Value) (h : Environment.get frames i name = some r) :
    i < frames.length := by
  rcases Nat.lt_or_ge i frames.length with hlt | hge
  · exact hlt
  · simp [Environment.get, Environment.getAux, List.getElem?_eq_none hge] at h

theorem eval_prefix_var (H : Host) (fuel : Nat) (inc : Bool) (x : String) (env : Nat)
    (st : State) (old : Value) (n : ℚ) (fs : List Environment)
    (hget : Environment.get st.frames env x = some (.ok old)) (hn : old.asNumeric = .ok n)
    (hset : Environment.set st.frames env x
      (.number (roundDouble (n + (if inc then 1 else -1)))) = some fs) :
    eval H (fuel + 1) (.PrefixExpr inc (.VariableExpr x)) env st =
      some (.value (.number (roundDouble (n + (if inc then 1 else -1)))),
        { st with frames := fs }) := by
  simp only [eval, hget, hn, hset]

theorem eval_postfix_var (H : Host) (fuel : Nat) (inc : Bool) (x : String) (env : Nat)
    (st : State) (old : Value) (n : ℚ) (fs : List Environment)
    (hget : Environment.get st.frames env x = some (.ok old)) (hn : old.asNumeric = .ok n)
    (hset : Environment.set st.frames env x
      (.number (roundDouble (n + (if inc then 1 else -1)))) = some fs) :
    eval H (fuel + 1) (.PostfixExpr inc (.VariableExpr x)) env st =
      some (.value old, { st with frames := fs }) := by
  simp only [eval, hget, hn, hset]

/-- An integer of magnitude up to `2^53` is a `double`. -/
theorem roundDouble_intCast_le (k : ℤ) (hk : |k| ≤ 2 ^ 53) : roundDouble (k : ℚ) = k := by
  rcases hk.lt_or_eq with h | h
  · exact roundDouble_intCast k h
  · rcases abs_eq (by norm_num : (0 : ℤ) ≤ 2 ^ 53) |>.mp h with h1 | h1
    · have := roundDouble_representable (2 ^ 52) 1 (by norm_num) (by norm_num)
      rw [h1]
      norm_num at this ⊢
      exact this
    · have := roundDouble_representable (-2 ^ 52) 1 (by norm_num) (by norm_num)
      rw [h1]
      norm_num at this ⊢
      exact this

set_option maxRecDepth 10000 in
/-- C31, as stated, fails: with `x` bound to `9007199254740992 = 2^53`, `++x` evaluates to
`9007199254740992`, not to `9007199254740993`, and leaves `x` as it was: the sum is no `double`
and is rounded back.  The program `x = 9007199254740992  print(++x - 9007199254740992)` writes
`0`, not `1`. -/
theorem C31_counterexample :
    eval bareHost 1 (.PrefixExpr true (.VariableExpr "x")) 0
        { frames := [⟨[("x", .number 9007199254740992)], none⟩], lists := [], callStack := [],
          output := "" } =
      some (.value (.number 9007199254740992),
        { frames := [⟨[("x", .number 9007199254740992)], none⟩], lists := [], callStack := [],
          output := "" }) ∧
    (Value.number 9007199254740992 ≠ Value.number (9007199254740992 + 1)) ∧
    (∀ fmt : ℚ → String, ∃ st : State,
      interpretText (printHost fmt) 30
          "x = 9007199254740992\nprint(++x - 9007199254740992)" =
        some (InterpretResult.returned true, st) ∧
      st.output = "0") := by
  refine ⟨by with_unfolding_all rfl, ?_,
    fun fmt => ⟨_, by with_unfolding_all rfl, by with_unfolding_all rfl⟩⟩
  intro h
  injection h with h
  norm_num at h

/-- C31, amended: for every variable `x` bound (in a chain of frames) to a number or boolean
with numeric value `n`: `++x` evaluates to the `double` nearest to `n + 1` and `x++` to the old
value of `x`, and both leave `x` bound to that `double`; `--x` evaluates to the `double`
nearest to `n - 1` and `x--` to the old value, and both leave `x` bound to it.  That `double`
is `n + 1`, respectively `n - 1`, itself whenever `n` is an integer of magnitude below `2^53`.
When the operand is not a variable reference, evaluation raises an error and the whole state,
the environment included, is unchanged. -/
theorem C31_increment_decrement (H : Host) (fuel : Nat) (x : String) (env : Nat) (st : State)
    (old : Value) (n : ℚ) (hwf : WellFormed st.frames)
    (hget : Environment.get st.frames env x = some (.ok old))
    (hn : old.asNumeric = .ok n) :
    (∃ fs, eval H (fuel + 1) (.PrefixExpr true (.VariableExpr x)) env st =
        some (.value (.number (roundDouble (n + 1))), { st with frames := fs }) ∧
      eval H (fuel + 1) (.PostfixExpr true (.VariableExpr x)) env st =
        some (.value old, { st with frames := fs }) ∧
      Environment.get fs env x = some (.ok (.number (roundDouble (n + 1))))) ∧
    (∃ fs, eval H (fuel + 1) (.PrefixExpr false (.VariableExpr x)) env st =
        some (.value (.number (roundDouble (n - 1))), { st with frames := fs }) ∧
      eval H (fuel + 1) (.PostfixExpr false (.VariableExpr x)) env st =
        some (.value old, { st with frames := fs }) ∧
      Environment.get fs env x = some (.ok (.number (roundDouble (n - 1))))) ∧
    (∀ k : ℤ, n = k → |k| < 2 ^ 53 →
      roundDouble (n + 1) = n + 1 ∧ roundDouble (n - 1) = n - 1) ∧
    (∀ (inc : Bool) (operand : ExprAST), (∀ name, operand ≠ .VariableExpr name) →
      eval H (fuel + 1) (.PrefixExpr inc operand) env st =
        some (.error "Operand of prefix ++/-- must be a variable", st) ∧
      eval H (fuel + 1) (.PostfixExpr inc operand) env st =
        some (.error "Operand of postfix ++/-- must be a variable", st)) := by
  have hi := get_some_lt _ _ _ _ hget
  refine ⟨?_, ?_, ?_, ?_⟩
  · obtain ⟨t, _, hset, hg⟩ :=
      get_after_set st.frames hwf env x (.number (roundDouble (n + 1))) hi
    exact ⟨_, eval_prefix_var H fuel true x env st old n _ hget hn hset,
      eval_postfix_var H fuel true x env st old n _ hget hn hset, hg⟩
  · obtain ⟨t, _, hset, hg⟩ :=
      get_after_set st.frames hwf env x (.number (roundDouble (n - 1))) hi
    have hset2 : Environment.set st.frames env x
        (.number (roundDouble (n + (if false = true then 1 else -1)))) =
        some (writeAt st.frames t x (.number (roundDouble (n - 1)))) := by
      rw [← hset]
      simp [sub_eq_add_neg]
    have e1 := eval_prefix_var H fuel false x env st old n _ hget hn hset2
    have e2 := eval_postfix_var H fuel false x env st old n _ hget hn hset2
    refine ⟨_, ?_, e2, hg⟩
    rw [e1]
    simp [sub_eq_add_neg]
  · intro k hk hlt
    subst hk
    have hb := abs_lt.mp hlt
    have h1 := roundDouble_intCast_le (k + 1) (by rw [abs_le]; constructor <;> omega)
    have h2 := roundDouble_intCast_le (k - 1) (by rw [abs_le]; constructor <;> omega)
    push_cast at h1 h2
    exact ⟨h1, h2⟩
  · intro inc operand hne
    cases operand <;> first | exact ⟨rfl, rfl⟩ | exact absurd rfl (hne _)

/-- C31, amended, on `x = 5`: `++x` is `6`, `x++` is `5`, and `x` is bound to `6` afterwards;
`++5` raises. -/
theorem C31_increment_witness :
    (∃ fs, eval bareHost 1 (.PrefixExpr true (.VariableExpr "x")) 0 xIsFiveState =
        some (.value (.number 6), { xIsFiveState with frames := fs }) ∧
      eval bareHost 1 (.PostfixExpr true (.VariableExpr "x")) 0 xIsFiveState =
        some (.value (.number 5), { xIsFiveState with frames := fs }) ∧
      Environment.get fs 0 "x" = some (.ok (.number 6))) ∧
    eval bareHost 1 (.PrefixExpr true (.NumberExpr 5)) 0 xIsFiveState =
      some (.error "Operand of prefix ++/-- must be a variable", xIsFiveState) := by
  have h := C31_increment_decrement bareHost 0 "x" 0 xIsFiveState (.number 5) 5
    (wellFormed_of_wfCheck _ (by decide)) rfl rfl
  have h6 : roundDouble ((5 : ℚ) + 1) = 6 := by
    have := (h.2.2.1 5 (by norm_num) (by norm_num)).1
    rw [this]
    norm_num
  obtain ⟨fs, e1, e2, e3⟩ := h.1
  rw [h6] at e1 e3
  exact ⟨⟨fs, e1, e2, e3⟩, (h.2.2.2 true (.NumberExpr 5) (fun _ h => ExprAST.noConfusion h)).1⟩

/-! ## Compound assignment against plain assignment (C32) -/

theorem numericBin_number_not_func (g : ℚ → ℚ → Outcome) (a b : Value) (f : FunctionValue)
    (hg : ∀ x y, g x y ≠ .value (.func f)) : numericBin g a b ≠ .value (.func f) := by
  simp only [numericBin]
  cases ha : a.asNumeric with
  | error e => simp
  | ok da =>
    cases hb : b.asNumeric with
    | error e => simp
    | ok db => exact hg da db

theorem opAdd_not_func (lists : List (List Value)) (a b : Value) (f : FunctionValue) :
    (opAdd lists a b).1 ≠ .value (.func f) := by
  have hnum := numericBin_number_not_func (fun x y => .value (.number (x + y))) a b f
    (fun _ _ h => by cases h)
  cases a <;> cases b <;> first | exact hnum | simp [opAdd, allocList]

theorem opSub_not_func (a b : Value) (f : FunctionValue) : opSub a b ≠ .value (.func f) := by
  have hnum := numericBin_number_not_func (fun x y => .value (.number (x - y))) a b f
    (fun _ _ h => by cases h)
  cases a <;> cases b <;> first | exact hnum | (simp only [opSub]; split <;> simp)

theorem mulString_not_func (s : String) (t : ℚ) (f : FunctionValue) :
    mulString s t ≠ .value (.func f) := by
  unfold mulString
  split
  · simp
  · split <;> simp

theorem mulList_not_func (lists : List (List Value)) (p : Nat) (t : ℚ) (f : FunctionValue) :
    (mulList lists p t).1 ≠ .value (.func f) := by
  unfold mulList
  simp only []
  split
  · simp
  · split
    · simp
    · split <;> simp [allocList]

theorem doubleResult_not_func (x : ℚ) (f : FunctionValue) :
    doubleResult x ≠ .value (.func f) := by
  unfold doubleResult
  split <;> simp

theorem opMul_not_func (lists : List (List Value)) (a b : Value) (f : FunctionValue) :
    (opMul lists a b).1 ≠ .value (.func f) := by
  have hnum := numericBin_number_not_func (fun x y => doubleResult (x * y)) a b f
    (fun x y => doubleResult_not_func (x * y) f)
  cases a <;> cases b <;>
    first
    | exact hnum
    | (simp only [opMul]; exact mulList_not_func _ _ _ _)
    | (simp only [opMul]; exact mulString_not_func _ _ _)

theorem opDiv_not_func (a b : Value) (f : FunctionValue) : opDiv a b ≠ .value (.func f) :=
  numericBin_number_not_func _ a b f (fun x y => by split <;> simp)

theorem opPow_not_func (H : Host) (a b : Value) (f : FunctionValue) :
    opPow H a b ≠ .value (.func f) :=
  numericBin_number_not_func _ a b f (fun _ _ h => by cases h)

theorem eval_compound_plain (H : Host) (fuel : Nat) (opA op : TokenType) (x : String)
    (e : ExprAST) (env : Nat) (st : State)
    (hsame : ∀ lists old right,
      binaryOp H (fuel + 1) op lists old right = some (compoundOp H opA lists old right))
    (hnf : ∀ lists old right f,
      (compoundOp H opA lists old right).1 ≠ .value (.func f)) :
    eval H (fuel + 2) (.CompoundAssignmentExpr opA x e) env st =
      eval H (fuel + 3) (.AssignmentExpr x (.BinaryExpr op (.VariableExpr x) e)) env st := by
  rw [eval_assignment, eval_binary, eval_variable]
  cases hget : Environment.get st.frames env x with
  | none => simp [eval, hget, Res.andThen]
  | some r =>
    cases r with
    | error m => simp [eval, hget, Res.andThen]
    | ok old =>
      rw [eval_compound H (fuel + 1) opA x e env st old hget]
      simp only [andThen_value]
      cases he : eval H (fuel + 1) e env st with
      | none => rfl
      | some res =>
        obtain ⟨o, st1⟩ := res
        cases o with
        | value right =>
          simp only [andThen_value, hsame]
          have hnf2 := hnf st1.lists old right
          rcases hc : compoundOp H opA st1.lists old right with ⟨o2, ls⟩
          rw [hc] at hnf2
          cases o2 with
          | value v =>
            simp only [andThen_value]
            cases hs : Environment.set st1.frames env x v with
            | none => rfl
            | some fs =>
              cases v with
              | func f => exact absurd rfl (hnf2 f)
              | nil => rfl
              | number d => rfl
              | bool b => rfl
              | string s => rfl
              | list p => rfl
          | error m => rfl
          | breakSignal => rfl
          | continueSignal => rfl
          | returnSignal v => rfl
          | undefinedBehaviour m => rfl
          | outsideModel m => rfl
        | error m => rfl
        | breakSignal => rfl
        | continueSignal => rfl
        | returnSignal v => rfl
        | undefinedBehaviour m => rfl
        | outsideModel m => rfl

/-- C32: for each operator among `+`, `-`, `*`, `/` and `^`, every variable name `x`, every
expression `e` and every state, the compound assignment `x op= e` and the plain assignment
`x = x op e` evaluate alike: the same outcome (result value or error) and the same final
state, the environment included. -/
theorem C32_compound_assignment (H : Host) (fuel : Nat) (x : String) (e : ExprAST) (env : Nat)
    (st : State) :
    eval H (fuel + 2) (.CompoundAssignmentExpr .PlusAssign x e) env st =
      eval H (fuel + 3) (.AssignmentExpr x (.BinaryExpr .Plus (.VariableExpr x) e)) env st ∧
    eval H (fuel + 2) (.CompoundAssignmentExpr .MinusAssign x e) env st =
      eval H (fuel + 3) (.AssignmentExpr x (.BinaryExpr .Minus (.VariableExpr x) e)) env st ∧
    eval H (fuel + 2) (.CompoundAssignmentExpr .StarAssign x e) env st =
      eval H (fuel + 3) (.AssignmentExpr x (.BinaryExpr .Star (.VariableExpr x) e)) env st ∧
    eval H (fuel + 2) (.CompoundAssignmentExpr .SlashAssign x e) env st =
      eval H (fuel + 3) (.AssignmentExpr x (.BinaryExpr .Slash (.VariableExpr x) e)) env st ∧
    eval H (fuel + 2) (.CompoundAssignmentExpr .CaretAssign x e) env st =
      eval H (fuel + 3) (.AssignmentExpr x (.BinaryExpr .Caret (.VariableExpr x) e)) env st :=
  ⟨eval_compound_plain H fuel _ _ x e env st (fun _ _ _ => rfl)
      (fun l a b f => opAdd_not_func l a b f),
    eval_compound_plain H fuel _ _ x e env st (fun _ _ _ => rfl)
      (fun _ a b f => opSub_not_func a b f),
    eval_compound_plain H fuel _ _ x e env st (fun _ _ _ => rfl)
      (fun l a b f => opMul_not_func l a b f),
    eval_compound_plain H fuel _ _ x e env st (fun _ _ _ => rfl)
      (fun _ a b f => opDiv_not_func a b f),
    eval_compound_plain H fuel _ _ x e env st (fun _ _ _ => rfl)
      (fun _ a b f => opPow_not_func H a b f)⟩

/-! ## Lists are shared between the variables that hold them (C33) -/

theorem derefList_set_self (ls : List (List Value)) (p : Nat) (xs : List Value)
    (hp : p < ls.length) : derefList (ls.set p xs) p = xs := by
  simp [derefList, List.getElem?_set, hp]

/-- C33: assigning a list value to another variable copies the reference, not the elements:
after `b = a`, where `a` is bound to a list (the cell `p`) of length `n`, the list cells are as
before and `b` is bound to the same cell; a `push` of any `v` on that list then leaves the
frames alone and makes the list read through `b` (and through `a`) have length `n + 1` with
`v` as its last element. -/
theorem C33_list_aliasing (fuel : Nat) (a b : String) (env p : Nat) (st : State)
    (hwf : WellFormed st.frames)
    (ha : Environment.get st.frames env a = some (.ok (.list p)))
    (hp : p < st.lists.length) :
    ∃ st1, eval pushHost (fuel + 2) (.AssignmentExpr b (.VariableExpr a)) env st =
        some (.value (.list p), st1) ∧
      st1.lists = st.lists ∧
      Environment.get st1.frames env b = some (.ok (.list p)) ∧
      ∀ (ev : ExprAST → Nat → State → Res) (v : Value),
        ∃ st2, FunctionValue.invoke pushHost ev (.builtin "push") [.list p, v] st1 =
            some (.value .nil, st2) ∧
          st2.frames = st1.frames ∧
          Environment.get st2.frames env b = some (.ok (.list p)) ∧
          derefList st2.lists p = derefList st.lists p ++ [v] ∧
          (derefList st2.lists p).length = (derefList st.lists p).length + 1 ∧
          (derefList st2.lists p).getLast? = some v := by
  have hi := get_some_lt _ _ _ _ ha
  obtain ⟨t, _, hset, hg⟩ := get_after_set st.frames hwf env b (.list p) hi
  refine ⟨{ st with frames := writeAt st.frames t b (.list p) }, ?_, rfl, hg, ?_⟩
  · rw [eval_assignment, eval_variable, ha]
    simp only [andThen_value, hset]
  · intro ev v
    refine ⟨{ st with frames := writeAt st.frames t b (.list p),
                      lists := st.lists.set p (derefList st.lists p ++ [v]) }, ?_, rfl, hg, ?_⟩
    · simp [FunctionValue.invoke, pushHost]
    · have hd : derefList (st.lists.set p (derefList st.lists p ++ [v])) p =
          derefList st.lists p ++ [v] := derefList_set_self _ _ _ hp
      refine ⟨hd, ?_, ?_⟩
      · show (derefList (st.lists.set p (derefList st.lists p ++ [v])) p).length = _
        rw [hd, List.length_append]
        rfl
      · show (derefList (st.lists.set p (derefList st.lists p ++ [v])) p).getLast? = _
        rw [hd, List.getLast?_append]
        rfl

/-- C33, on the program of the test `PushAffectsAllAliases`: after
`mass = [123, 10]  mass1 = mass  push(mass, "WOW")` the variable `mass1` holds the cell that
now contains `123`, `10` and `"WOW"`. -/
theorem C33_list_aliasing_witness :
    (interpret pushHost 6 pushAffectsAllAliases).map
        (fun r => (r.2.lists, Environment.get r.2.frames 0 "mass1")) =
      some ([[.number 123, .number 10, .string "WOW"]], some (.ok (.list 0))) ∧
    ∃ st1, eval pushHost 2 (.AssignmentExpr "b" (.VariableExpr "L")) 0 listLState =
        some (.value (.list 0), st1) ∧
      st1.lists = listLState.lists ∧
      Environment.get st1.frames 0 "b" = some (.ok (.list 0)) ∧
      ∀ (ev : ExprAST → Nat → State → Res) (v : Value),
        ∃ st2, FunctionValue.invoke pushHost ev (.builtin "push") [.list 0, v] st1 =
            some (.value .nil, st2) ∧
          st2.frames = st1.frames ∧
          Environment.get st2.frames 0 "b" = some (.ok (.list 0)) ∧
          derefList st2.lists 0 = derefList listLState.lists 0 ++ [v] ∧
          (derefList st2.lists 0).length = (derefList listLState.lists 0).length + 1 ∧
          (derefList st2.lists 0).getLast? = some v :=
  ⟨rfl, C33_list_aliasing 0 "L" "b" 0 0 listLState (wellFormed_of_wfCheck _ (by decide)) rfl
    (by decide)⟩

/-! ## The builtin `sort` (C34, C35) -/

theorem insertionStdSort_isStdSort : IsStdSort insertionStdSort := by
  intro key l
  have htotal : IsTotal Value (fun a b => decide (key b < key a) = false) :=
    ⟨fun a b => by
      simp only [decide_eq_false_iff_not, not_lt]
      exact le_total (key a) (key b)⟩
  have htrans : IsTrans Value (fun a b => decide (key b < key a) = false) :=
    ⟨fun a b c h1 h2 => by
      simp only [decide_eq_false_iff_not, not_lt] at h1 h2 ⊢
      exact le_trans h1 h2⟩
  refine ⟨List.perm_insertionSort _ l, ?_⟩
  have hs := List.sorted_insertionSort (fun a b => decide (key b < key a) = false) l
  exact hs.imp (fun h => by simpa using h)

theorem keys_eq_of_sorted_perm (key : Value → String) (l1 l2 : List Value)
    (hp : l1.Perm l2) (h1 : l1.Pairwise (fun a b => ¬ key b < key a))
    (h2 : l2.Pairwise (fun a b => ¬ key b < key a)) :
    l1.map key = l2.map key := by
  have s1 : (l1.map key).Sorted (· ≤ ·) :=
    (List.pairwise_map.mpr (h1.imp (fun h => not_lt.mp h)))
  have s2 : (l2.map key).Sorted (· ≤ ·) :=
    (List.pairwise_map.mpr (h2.imp (fun h => not_lt.mp h)))
  exact List.eq_of_perm_of_sorted (hp.map key) s1 s2

theorem eq_of_map_eq_of_injOn (key : Value → String) :
    ∀ (l1 l2 : List Value), l1.map key = l2.map key →
      (∀ a ∈ l1, ∀ b ∈ l2, key a = key b → a = b) → l1 = l2 := by
  intro l1
  induction l1 with
  | nil =>
    intro l2 h _
    cases l2 with
    | nil => rfl
    | cons b l2 => simp at h
  | cons a l1 ih =>
    intro l2 h hinj
    cases l2 with
    | nil => simp at h
    | cons b l2 =>
      simp only [List.map_cons, List.cons.injEq] at h
      have hab : a = b := hinj a (List.mem_cons_self _ _) b (List.mem_cons_self _ _) h.1
      rw [hab, ih l2 h.2 (fun x hx y hy =>
        hinj x (List.mem_cons_of_mem _ hx) y (List.mem_cons_of_mem _ hy))]

theorem renderKey_plain (fmt : ℚ → String) (lists : List (List Value)) (fuel : Nat) (x : Value)
    (hx : x.isNumber = true ∨ x.isString = true) :
    Value.toString fmt lists (fuel + 1) x = some (renderKey fmt [] 1 x) := by
  cases x <;> simp_all [Value.isNumber, Value.isString, Value.toString, renderKey]

theorem renderKey_string_inj (fmt : ℚ → String) (a b : Value) (ha : a.isString = true)
    (hb : b.isString = true) (h : renderKey fmt [] 1 a = renderKey fmt [] 1 b) : a = b := by
  cases a <;> cases b <;> simp_all [Value.isString, renderKey, Value.toString]

theorem sortBuiltin_list (stdSort : (Value → Value → Bool) → List Value → List Value)
    (fmt : ℚ → String) (fuel : Nat) (lists : List (List Value)) (p : Nat)
    (hrender : ∀ x ∈ derefList lists p, (Value.toString fmt lists fuel x).isSome = true) :
    sortBuiltin stdSort fmt fuel [.list p] lists =
      some (.value (.list lists.length),
        lists ++ [stdSort (lessByToString fmt lists fuel) (derefList lists p)]) := by
  have hall : (derefList lists p).all (fun x => (Value.toString fmt lists fuel x).isSome) =
      true := List.all_eq_true.mpr hrender
  simp only [sortBuiltin, hall, or_true, if_true, allocList]

theorem sort_plain (stdSort : (Value → Value → Bool) → List Value → List Value)
    (hstd : IsStdSort stdSort) (fmt : ℚ → String) (fuel : Nat) (lists : List (List Value))
    (l : List Value) (hl : ∀ x ∈ l, x.isNumber = true ∨ x.isString = true) :
    (stdSort (lessByToString fmt lists (fuel + 1)) l).Perm l ∧
    (stdSort (lessByToString fmt lists (fuel + 1)) l).Pairwise
      (fun a b => ¬ renderKey fmt [] 1 b < renderKey fmt [] 1 a) := by
  obtain ⟨hperm, hsorted⟩ := hstd (renderKey fmt lists (fuel + 1)) l
  refine ⟨hperm, ?_⟩
  have hkey : ∀ x ∈ stdSort (lessByToString fmt lists (fuel + 1)) l,
      renderKey fmt lists (fuel + 1) x = renderKey fmt [] 1 x := by
    intro x hx
    have := renderKey_plain fmt lists fuel x (hl x (hperm.subset hx))
    simp only [renderKey, this, Option.getD_some]
  exact List.Pairwise.imp_of_mem (fun {a b} ha hb h => by
    rw [← hkey a ha, ← hkey b hb]
    exact h) hsorted

theorem reversingStdSort_isStdSort : IsStdSort reversingStdSort := by
  intro key l
  obtain ⟨hp, hs⟩ := insertionStdSort_isStdSort key l.reverse
  exact ⟨hp.trans (List.reverse_perm l), hs⟩

theorem numberToString_of_not_integral (fmt : ℚ → String) (d : ℚ) (h : (⌊d⌋ : ℚ) ≠ d) :
    numberToString fmt d = fmt d := by
  unfold numberToString
  rw [if_neg]
  exact h

/-- C34, as stated, fails.  The numbers `0.3` and `0.1 + 0.2` are two different `double`s,
`5404319552844595 / 2^54` and `5404319552844596 / 2^54`, which the stream format, with its six
significant digits, both writes as `0.3`.  Under every number format that writes the two
alike, and under a `std::sort` that meets the standard's contract (insertion sort of the
reversed input), `sort` of the list of the two gives them in the reverse order, and `sort` of
that list gives the first order back: `sort(sort(L))` is not the same sequence as
`sort(L)`. -/
theorem C34_counterexample :
    IsStdSort reversingStdSort ∧
    Value.number (5404319552844595 / 18014398509481984) ≠
      Value.number (5404319552844596 / 18014398509481984) ∧
    ∀ fmt : ℚ → String,
      fmt (5404319552844595 / 18014398509481984) = fmt (5404319552844596 / 18014398509481984) →
      sortBuiltin reversingStdSort fmt 1 [.list 0]
          [[.number (5404319552844595 / 18014398509481984),
            .number (5404319552844596 / 18014398509481984)]] =
        some (.value (.list 1),
          [[.number (5404319552844595 / 18014398509481984),
            .number (5404319552844596 / 18014398509481984)],
           [.number (5404319552844596 / 18014398509481984),
            .number (5404319552844595 / 18014398509481984)]]) ∧
      sortBuiltin reversingStdSort fmt 1 [.list 1]
          [[.number (5404319552844595 / 18014398509481984),
            .number (5404319552844596 / 18014398509481984)],
           [.number (5404319552844596 / 18014398509481984),
            .number (5404319552844595 / 18014398509481984)]] =
        some (.value (.list 2),
          [[.number (5404319552844595 / 18014398509481984),
            .number (5404319552844596 / 18014398509481984)],
           [.number (5404319552844596 / 18014398509481984),
            .number (5404319552844595 / 18014398509481984)],
           [.number (5404319552844595 / 18014398509481984),
            .number (5404319552844596 / 18014398509481984)]]) := by
  refine ⟨reversingStdSort_isStdSort, ?_, ?_⟩
  · intro h
    injection h with h
    norm_num at h
  · intro fmt hf
    have ha : numberToString fmt (5404319552844595 / 18014398509481984) =
        fmt (5404319552844596 / 18014398509481984) := by
      rw [numberToString_of_not_integral, hf]
      rw [show ⌊(5404319552844595 / 18014398509481984 : ℚ)⌋ = 0 by
        rw [Int.floor_eq_iff]; norm_num]
      norm_num
    have hb : numberToString fmt (5404319552844596 / 18014398509481984) =
        fmt (5404319552844596 / 18014398509481984) := by
      rw [numberToString_of_not_integral]
      rw [show ⌊(5404319552844596 / 18014398509481984 : ℚ)⌋ = 0 by
        rw [Int.floor_eq_iff]; norm_num]
      norm_num
    constructor <;>
      simp [sortBuiltin, derefList, allocList, reversingStdSort, insertionStdSort,
        lessByToString, renderKey, Value.toString, ha, hb, List.insertionSort,
        List.orderedInsert]

/-- C34, amended: for every list `L` whose elements are all numbers or all strings, `sort(L)`
returns a new list and leaves `L` unchanged, and `sort(sort(L))` has the same sequence of
`toString` texts as `sort(L)`; the two are the same sequence whenever elements of `L` with the
same text are equal, which is always so for strings (`std::sort`, a parameter that meets the
standard's contract, leaves the order of elements with equal texts open). -/
theorem C34_sort_idempotent (stdSort : (Value → Value → Bool) → List Value → List Value)
    (hstd : IsStdSort stdSort) (fmt : ℚ → String) (fuel : Nat) (lists : List (List Value))
    (p : Nat) (hp : p < lists.length)
    (hkind : (∀ x ∈ derefList lists p, x.isNumber = true) ∨
      (∀ x ∈ derefList lists p, x.isString = true)) :
    ∃ s1 s2 : List Value,
      sortBuiltin stdSort fmt (fuel + 1) [.list p] lists =
        some (.value (.list lists.length), lists ++ [s1]) ∧
      sortBuiltin stdSort fmt (fuel + 1) [.list lists.length] (lists ++ [s1]) =
        some (.value (.list (lists.length + 1)), lists ++ [s1] ++ [s2]) ∧
      s2.map (renderKey fmt [] 1) = s1.map (renderKey fmt [] 1) ∧
      ((∀ x ∈ derefList lists p, x.isString = true) → s2 = s1) ∧
      ((∀ a ∈ derefList lists p, ∀ b ∈ derefList lists p,
        renderKey fmt [] 1 a = renderKey fmt [] 1 b → a = b) → s2 = s1) ∧
      lists.length ≠ p ∧
      derefList (lists ++ [s1]) p = derefList lists p ∧
      derefList (lists ++ [s1] ++ [s2]) p = derefList lists p := by
  have hplain : ∀ x ∈ derefList lists p, x.isNumber = true ∨ x.isString = true := by
    intro x hx
    rcases hkind with h | h
    · exact Or.inl (h x hx)
    · exact Or.inr (h x hx)
  have hr1 : ∀ x ∈ derefList lists p,
      (Value.toString fmt lists (fuel + 1) x).isSome = true := by
    intro x hx
    rw [renderKey_plain fmt lists fuel x (hplain x hx)]
    rfl
  obtain ⟨hperm1, hsorted1⟩ := sort_plain stdSort hstd fmt fuel lists _ hplain
  have hplain1 : ∀ x ∈ stdSort (lessByToString fmt lists (fuel + 1)) (derefList lists p),
      x.isNumber = true ∨ x.isString = true := fun x hx => hplain x (hperm1.subset hx)
  have hd1 : derefList (lists ++ [stdSort (lessByToString fmt lists (fuel + 1))
      (derefList lists p)]) lists.length =
      stdSort (lessByToString fmt lists (fuel + 1)) (derefList lists p) :=
    derefList_append_self _ _
  have hr2 : ∀ x ∈ derefList (lists ++ [stdSort (lessByToString fmt lists (fuel + 1))
      (derefList lists p)]) lists.length,
      (Value.toString fmt (lists ++ [stdSort (lessByToString fmt lists (fuel + 1))
        (derefList lists p)]) (fuel + 1) x).isSome = true := by
    intro x hx
    rw [hd1] at hx
    rw [renderKey_plain fmt _ fuel x (hplain1 x hx)]
    rfl
  obtain ⟨hperm2, hsorted2⟩ := sort_plain stdSort hstd fmt fuel
    (lists ++ [stdSort (lessByToString fmt lists (fuel + 1)) (derefList lists p)]) _ hplain1
  have hkeys := keys_eq_of_sorted_perm (renderKey fmt [] 1) _ _ hperm2 hsorted2 hsorted1
  have hinj : (∀ a ∈ derefList lists p, ∀ b ∈ derefList lists p,
      renderKey fmt [] 1 a = renderKey fmt [] 1 b → a = b) →
      stdSort (lessByToString fmt (lists ++ [stdSort (lessByToString fmt lists (fuel + 1))
        (derefList lists p)]) (fuel + 1))
        (stdSort (lessByToString fmt lists (fuel + 1)) (derefList lists p)) =
      stdSort (lessByToString fmt lists (fuel + 1)) (derefList lists p) := by
    intro h
    apply eq_of_map_eq_of_injOn (renderKey fmt [] 1) _ _ hkeys
    intro a ha b hb hab
    exact h a (hperm1.subset (hperm2.subset ha)) b (hperm1.subset hb) hab
  refine ⟨_, _, sortBuiltin_list stdSort fmt (fuel + 1) lists p hr1, ?_, hkeys, ?_, hinj,
    by omega, derefList_append_left _ _ _ hp, ?_⟩
  · have h2 := sortBuiltin_list stdSort fmt (fuel + 1) _ lists.length hr2
    rw [hd1] at h2
    rw [h2]
    simp
  · intro hstr
    apply hinj
    intro a ha b hb hab
    exact renderKey_string_inj fmt a b (hstr a ha) (hstr b hb) hab
  · rw [derefList_append_left _ _ _ (by simp; omega), derefList_append_left _ _ _ hp]

/-- C34, amended, on `lst = ["b", "aa", "c"]` of the test `SortEdgeCases`, with insertion sort as
`std::sort`: `sort(lst)` is `["aa", "b", "c"]`, and sorting that again gives the same. -/
theorem C34_sort_witness :
    sortBuiltin insertionStdSort (fun _ => "") 1 [.list 0]
        [[.string "b", .string "aa", .string "c"]] =
      some (.value (.list 1), [[.string "b", .string "aa", .string "c"],
        [.string "aa", .string "b", .string "c"]]) ∧
    ∃ s1 s2 : List Value,
      sortBuiltin insertionStdSort (fun _ => "") 1 [.list 0]
          [[.string "b", .string "aa", .string "c"]] =
        some (.value (.list 1), [[.string "b", .string "aa", .string "c"]] ++ [s1]) ∧
      sortBuiltin insertionStdSort (fun _ => "") 1 [.list 1]
          ([[.string "b", .string "aa", .string "c"]] ++ [s1]) =
        some (.value (.list 2), [[.string "b", .string "aa", .string "c"]] ++ [s1] ++ [s2]) ∧
      s2 = s1 := by
  obtain ⟨s1, s2, h1, h2, _, h3, _⟩ := C34_sort_idempotent insertionStdSort
    insertionStdSort_isStdSort (fun _ => "") 0 [[.string "b", .string "aa", .string "c"]] 0
    (by decide) (Or.inr (by simp [derefList, Value.isString]))
  refine ⟨?_, s1, s2, h1, h2, h3 (by simp [derefList, Value.isString])⟩
  simp [sortBuiltin, derefList, Value.toString, allocList, insertionStdSort, lessByToString,
    renderKey, List.insertionSort, List.orderedInsert]
  rw [if_neg (by decide), if_pos (by decide)]

theorem renderKey_nine : renderKey (fun _ => "") [] 1 (.number 9) = "9" := by
  with_unfolding_all rfl

theorem renderKey_ten : renderKey (fun _ => "") [] 1 (.number 10) = "10" := by
  with_unfolding_all rfl

/-- C35, as stated, fails: on the list of `9` and `10`, `sort` returns `10` before `9`, under
every `std::sort` that meets the standard's contract, because the text `10` is smaller than
the text `9`; and `10 <= 9` is false under the language's numeric comparison. -/
theorem C35_counterexample :
    (∀ stdSort, IsStdSort stdSort →
      sortBuiltin stdSort (fun _ => "") 1 [.list 0] [[.number 9, .number 10]] =
        some (.value (.list 1), [[.number 9, .number 10], [.number 10, .number 9]])) ∧
    valueLe [] 1 (.number 10) (.number 9) = some (.ok false) := by
  constructor
  · intro stdSort hstd
    have hplain : ∀ x ∈ [Value.number 9, Value.number 10],
        x.isNumber = true ∨ x.isString = true := by
      intro x hx
      simp only [List.mem_cons, List.mem_singleton, List.not_mem_nil, or_false] at hx
      rcases hx with h | h <;> subst h <;> exact Or.inl rfl
    obtain ⟨hperm, hsorted⟩ := sort_plain stdSort hstd (fun _ => "") 0
      [[.number 9, .number 10]] [.number 9, .number 10] hplain
    have hperm2 : (stdSort (lessByToString (fun _ => "") [[.number 9, .number 10]] 1)
        [.number 9, .number 10]).Perm [.number 10, .number 9] :=
      hperm.trans (List.Perm.swap _ _ _)
    have hs2 : [Value.number 10, Value.number 9].Pairwise
        (fun a b => ¬ renderKey (fun _ => "") [] 1 b < renderKey (fun _ => "") [] 1 a) := by
      simp only [List.pairwise_cons, List.mem_singleton, forall_eq, List.not_mem_nil,
        false_implies, implies_true, List.Pairwise.nil, and_true, renderKey_nine,
        renderKey_ten, String.lt_iff_toList_lt]
      decide
    have hkeys := keys_eq_of_sorted_perm _ _ _ hperm2 hsorted hs2
    have heq := eq_of_map_eq_of_injOn _ _ _ hkeys (by
      intro a ha b hb hab
      have ha2 := hperm.subset ha
      simp only [List.mem_cons, List.mem_singleton, List.not_mem_nil, or_false] at ha2 hb
      rcases ha2 with h | h <;> rcases hb with h2 | h2 <;> subst h <;> subst h2
      · rw [renderKey_nine, renderKey_ten] at hab
        exact absurd hab (by decide)
      · rfl
      · rfl
      · rw [renderKey_nine, renderKey_ten] at hab
        exact absurd hab (by decide))
    have h := sortBuiltin_list stdSort (fun _ => "") 1 [[.number 9, .number 10]] 0 (by
      intro x hx
      have := renderKey_plain (fun _ => "") [[.number 9, .number 10]] 0 x (hplain x hx)
      rw [this]
      rfl)
    rw [h]
    have hd : derefList [[Value.number 9, Value.number 10]] 0 =
        [Value.number 9, Value.number 10] := rfl
    rw [hd, heq]
    rfl
  · simp [valueLe, valueLt, valueEq, Value.isNil]
    norm_num

/-- C35, amended: for every list `L` of numbers, `sort(L)` is a permutation of `L` arranged in
non-decreasing order of the elements' `toString` texts under the comparison of strings (no
element's text is smaller than the text of an element before it), which is the numeric order
only where the two agree; the result is a new list. -/
theorem C35_sort_orders_by_text (stdSort : (Value → Value → Bool) → List Value → List Value)
    (hstd : IsStdSort stdSort) (fmt : ℚ → String) (fuel : Nat) (lists : List (List Value))
    (p : Nat) (hnum : ∀ x ∈ derefList lists p, x.isNumber = true) :
    ∃ s : List Value,
      sortBuiltin stdSort fmt (fuel + 1) [.list p] lists =
        some (.value (.list lists.length), lists ++ [s]) ∧
      s.Perm (derefList lists p) ∧
      s.Pairwise (fun a b => ¬ renderKey fmt [] 1 b < renderKey fmt [] 1 a) ∧
      (∀ x ∈ s, ∃ d, x = .number d ∧ renderKey fmt [] 1 x = numberToString fmt d ∧
        Value.toString fmt lists (fuel + 1) x = some (numberToString fmt d)) := by
  have hplain : ∀ x ∈ derefList lists p, x.isNumber = true ∨ x.isString = true :=
    fun x hx => Or.inl (hnum x hx)
  obtain ⟨hperm, hsorted⟩ := sort_plain stdSort hstd fmt fuel lists _ hplain
  refine ⟨_, sortBuiltin_list stdSort fmt (fuel + 1) lists p ?_, hperm, hsorted, ?_⟩
  · intro x hx
    rw [renderKey_plain fmt lists fuel x (hplain x hx)]
    rfl
  · intro x hx
    have hn := hnum x (hperm.subset hx)
    cases x with
    | number d => exact ⟨d, rfl, rfl, rfl⟩
    | nil => simp [Value.isNumber] at hn
    | bool b => simp [Value.isNumber] at hn
    | string s => simp [Value.isNumber] at hn
    | list q => simp [Value.isNumber] at hn
    | func f => simp [Value.isNumber] at hn

/-- C35, amended, on `lst = [3, 1, 2]` of the test `SortEdgeCases`, with insertion sort as
`std::sort`. -/
theorem C35_sort_witness :
    ∃ s : List Value,
      sortBuiltin insertionStdSort (fun _ => "") 1 [.list 0]
          [[.number 3, .number 1, .number 2]] =
        some (.value (.list 1), [[.number 3, .number 1, .number 2]] ++ [s]) ∧
      s.Perm [.number 3, .number 1, .number 2] ∧
      s.Pairwise (fun a b =>
        ¬ renderKey (fun _ => "") [] 1 b < renderKey (fun _ => "") [] 1 a) := by
  obtain ⟨s, h1, h2, h3, _⟩ := C35_sort_orders_by_text insertionStdSort
    insertionStdSort_isStdSort (fun _ => "") 0 [[.number 3, .number 1, .number 2]] 0
    (by simp [derefList, Value.isNumber])
  exact ⟨s, h1, h2, h3⟩

/-! ## The builtin `max` (C36) -/

theorem doubleMin_pos : 0 < doubleMin := by
  simp only [doubleMin]
  positivity

theorem maxLoop_numbers : ∀ (xs : List ℚ) (m : ℚ),
    maxLoop (xs.map Value.number) m = .ok (xs.foldl max m) := by
  intro xs
  induction xs with
  | nil => intro m; rfl
  | cons x xs ih =>
    intro m
    simp only [List.map_cons, maxLoop, Value.asNumeric, List.foldl_cons]
    exact ih (max m x)

theorem foldl_max_ge : ∀ (xs : List ℚ) (m : ℚ),
    m ≤ xs.foldl max m ∧ ∀ a ∈ xs, a ≤ xs.foldl max m := by
  intro xs
  induction xs with
  | nil => intro m; exact ⟨le_rfl, fun a h => by cases h⟩
  | cons x xs ih =>
    intro m
    obtain ⟨h1, h2⟩ := ih (max m x)
    refine ⟨le_trans (le_max_left m x) h1, ?_⟩
    intro a ha
    rw [List.mem_cons] at ha
    rcases ha with rfl | ha
    · exact le_trans (le_max_right m a) h1
    · exact h2 a ha

theorem foldl_max_mem : ∀ (xs : List ℚ) (m : ℚ),
    xs.foldl max m = m ∨ xs.foldl max m ∈ xs := by
  intro xs
  induction xs with
  | nil => intro m; exact Or.inl rfl
  | cons x xs ih =>
    intro m
    rcases ih (max m x) with h | h
    · rcases max_choice m x with hm | hm
      · exact Or.inl (by rw [List.foldl_cons, h, hm])
      · exact Or.inr (by rw [List.foldl_cons, h, hm]; exact List.mem_cons_self _ _)
    · exact Or.inr (List.mem_cons_of_mem _ h)

/-- C36, as the code behaves: for every sequence of numeric arguments (or a single list
argument with those elements), `max` returns the greatest of `2^-1022` (the constant
`std::numeric_limits<double>::min()` the loop starts from) and the arguments.  When some
argument is at least that constant the result is the greatest argument; when every argument
is smaller, as when all are negative or zero, the result is `2^-1022`, which is none of the
arguments. -/
theorem C36_max_starts_from_double_min (as : List ℚ) (lists : List (List Value)) (p : Nat)
    (hp : derefList lists p = as.map Value.number) :
    maxBuiltin (as.map Value.number) lists = .value (.number (as.foldl max doubleMin)) ∧
    maxBuiltin [.list p] lists = .value (.number (as.foldl max doubleMin)) ∧
    ((∃ a ∈ as, doubleMin ≤ a) →
      as.foldl max doubleMin ∈ as ∧ ∀ a ∈ as, a ≤ as.foldl max doubleMin) ∧
    ((∀ a ∈ as, a < doubleMin) →
      as.foldl max doubleMin = doubleMin ∧ as.foldl max doubleMin ∉ as) := by
  have hargs : maxBuiltin (as.map Value.number) lists =
      .value (.number (as.foldl max doubleMin)) := by
    have hm := maxLoop_numbers as doubleMin
    cases as with
    | nil => rfl
    | cons a rest =>
      rw [List.map_cons] at hm ⊢
      simp only [maxBuiltin, hm]
  have hlist : maxBuiltin [.list p] lists = .value (.number (as.foldl max doubleMin)) := by
    simp only [maxBuiltin, hp, maxLoop_numbers]
  refine ⟨hargs, hlist, ?_, ?_⟩
  · rintro ⟨a, ha, hge⟩
    have hall := (foldl_max_ge as doubleMin).2
    refine ⟨?_, hall⟩
    rcases foldl_max_mem as doubleMin with h | h
    · have h1 := hall a ha
      rw [h] at h1
      have : a = doubleMin := le_antisymm h1 hge
      rw [h, ← this]
      exact ha
    · exact h
  · intro hlt
    have hmem : as.foldl max doubleMin ∉ as := by
      intro hin
      exact absurd (hlt _ hin) (not_lt.mpr (foldl_max_ge as doubleMin).1)
    rcases foldl_max_mem as doubleMin with h | h
    · exact ⟨h, hmem⟩
    · exact absurd h hmem

/-- C36, on `max(-1, -2)`: the result is `2^-1022`, not `-1`; and on `max(3, 7, 5)` of the test
`MaxOfThreeFunction`, where it is `7`. -/
theorem C36_max_witness :
    maxBuiltin [.number (-1), .number (-2)] [[.number (-1), .number (-2)]] =
      .value (.number doubleMin) ∧
    maxBuiltin [.list 0] [[.number (-1), .number (-2)]] = .value (.number doubleMin) ∧
    maxBuiltin [.number 3, .number 7, .number 5] [[.number 3, .number 7, .number 5]] =
      .value (.number 7) := by
  have h1 := C36_max_starts_from_double_min [-1, -2] [[.number (-1), .number (-2)]] 0 rfl
  have h2 := C36_max_starts_from_double_min [3, 7, 5] [[.number 3, .number 7, .number 5]] 0 rfl
  have hneg : ∀ a ∈ [(-1 : ℚ), -2], a < doubleMin := by
    intro a ha
    have hpos := doubleMin_pos
    simp only [List.mem_cons, List.mem_singleton, List.not_mem_nil, or_false] at ha
    rcases ha with h | h <;> rw [h] <;> linarith
  have hsmall : doubleMin ≤ 1 := by
    simp only [doubleMin]
    rw [div_le_one (by positivity)]
    exact one_le_pow₀ (by norm_num)
  have e2 : [(3 : ℚ), 7, 5].foldl max doubleMin = 7 := by
    obtain ⟨hmem, hge⟩ := h2.2.2.1 ⟨3, List.mem_cons_self _ _, by linarith⟩
    have h7 := hge 7 (by simp)
    simp only [List.mem_cons, List.mem_singleton, List.not_mem_nil, or_false] at hmem
    rcases hmem with h | h | h
    · rw [h] at h7
      norm_num at h7
    · exact h
    · rw [h] at h7
      norm_num at h7
  refine ⟨?_, ?_, ?_⟩
  · have := h1.1
    rw [(h1.2.2.2 hneg).1] at this
    exact this
  · have := h1.2.1
    rw [(h1.2.2.2 hneg).1] at this
    exact this
  · have := h2.1
    rw [e2] at this
    exact this

/-! ## Complementary slices (C38) -/

/-- C39, as the code behaves: when the right-hand side of an assignment evaluates to a builtin
function value, `AssignmentExprAST::eval` binds the name and then runs its self-reference
step `fv.closure->set(VarName, v)` on the builtin's closure, which is the null pointer: the
evaluation does not complete with the builtin as its value but ends in the undefined
behaviour of dereferencing a null `shared_ptr`. -/
theorem C39_assign_builtin (H : Host) (fuel : Nat) (name b : String) (e : ExprAST) (env : Nat)
    (st st1 : State) (hwf : WellFormed st1.frames) (henv : env < st1.frames.length)
    (he : eval H fuel e env st = some (.value (.func (.builtin b)), st1)) :
    ∃ fs, Environment.set st1.frames env name (.func (.builtin b)) = some fs ∧
      eval H (fuel + 1) (.AssignmentExpr name e) env st =
        some (.undefinedBehaviour "null closure dereferenced", { st1 with frames := fs }) ∧
      eval H (fuel + 1) (.AssignmentExpr name e) env st ≠
        some (.value (.func (.builtin b)), { st1 with frames := fs }) := by
  obtain ⟨t, _, hset, _⟩ := get_after_set st1.frames hwf env name (.func (.builtin b)) henv
  have h : eval H (fuel + 1) (.AssignmentExpr name e) env st =
      some (.undefinedBehaviour "null closure dereferenced",
        { st1 with frames := writeAt st1.frames t name (.func (.builtin b)) }) := by
    rw [eval_assignment, he, andThen_value]
    simp only [hset]
  refine ⟨_, hset, h, ?_⟩
  rw [h]
  intro hc
  cases hc

/-- C39, on `p = print` in a global frame that binds `print` to the builtin. -/
theorem C39_assign_builtin_witness :
    eval bareHost 2 (.AssignmentExpr "p" (.VariableExpr "print")) 0 printBoundState =
      some (.undefinedBehaviour "null closure dereferenced",
        { printBoundState with
          frames := [⟨[("print", .func (.builtin "print")),
            ("p", .func (.builtin "print"))], none⟩] }) := by
  obtain ⟨fs, hset, h, _⟩ := C39_assign_builtin bareHost 1 "p" "print" (.VariableExpr "print") 0
    printBoundState printBoundState (wellFormed_of_wfCheck _ (by decide)) (by decide) rfl
  rw [h]
  have : fs = [⟨[("print", .func (.builtin "print")), ("p", .func (.builtin "print"))],
      none⟩] := by
    have h2 : Environment.set printBoundState.frames 0 "p" (.func (.builtin "print")) =
        some [⟨[("print", .func (.builtin "print")), ("p", .func (.builtin "print"))],
          none⟩] := rfl
    rw [h2] at hset
    exact (Option.some.inj hset).symm
  rw [this]

/-! ## A negative repeat count (C40) -/

theorem truncInt_nonpos_of_neg (x : ℚ) (h : x < 0) : truncInt x ≤ 0 := by
  have h1 : truncInt x = -⌊-x⌋ := by
    simp only [truncInt, not_le.mpr h, if_false]
    rfl
  rw [h1]
  have : 0 ≤ ⌊-x⌋ := Int.floor_nonneg.mpr (by linarith)
  omega

/-- C40, as the code behaves: for every string `s` shorter than `2^31` and every number `n`
with `-2^31 - 1 < n < 0`, `s * n` (and `n * s`) has no full copy of `s`; what follows is
decided by `cut`, the conversion to `int` of the product, in `double` arithmetic, of the
fractional part of `n` and the length of `s`, which is never positive: when `cut` is `0`, as
for every integral `n`, the result is the empty string, and when `cut` is negative,
`substr(0, cut)` converts it to a huge unsigned count and the result is the whole string
`s`. -/
theorem C40_negative_repeat (lists : List (List Value)) (s : String) (n : ℚ) (hn : n < 0)
    (hn2 : -2147483649 < n) (hs : s.length < 2147483648) :
    opMul lists (.number n) (.string s) = opMul lists (.string s) (.number n) ∧
    ∃ cut : Int,
      staticCastInt (roundDouble (roundDouble (n - truncInt n) * s.length)) = some cut ∧
      cut ≤ 0 ∧
      (cut = 0 → opMul lists (.string s) (.number n) = (.value (.string ""), lists)) ∧
      (cut < 0 → opMul lists (.string s) (.number n) = (.value (.string s), lists)) ∧
      ((truncInt n : ℚ) = n → cut = 0) := by
  have hfull : staticCastInt n = some (truncInt n) := by
    have h2 : n < 2147483648 := by linarith
    simp only [staticCastInt, hn2, h2, and_self, if_true]
  have hnat : (truncInt n).toNat = 0 := Int.toNat_eq_zero.mpr (truncInt_nonpos_of_neg n hn)
  obtain ⟨t1, t2⟩ := truncInt_ge_of_neg n hn
  have hx0 : n - truncInt n ≤ 0 := by linarith
  have hx1 : -((1 : ℕ) : ℚ) ≤ n - truncInt n := by
    push_cast
    linarith
  have f0 := roundDouble_nonpos _ hx0
  have f1 := roundDouble_ge_neg_natCast _ 1 (by norm_num) hx1
  have hlen : (0 : ℚ) ≤ (s.length : ℚ) := Nat.cast_nonneg _
  have hy0 : roundDouble (n - truncInt n) * (s.length : ℚ) ≤ 0 :=
    mul_nonpos_of_nonpos_of_nonneg f0 hlen
  have hy1 : -((s.length : ℕ) : ℚ) ≤ roundDouble (n - truncInt n) * (s.length : ℚ) := by
    have := mul_le_mul_of_nonneg_right f1 hlen
    push_cast at this
    linarith
  have hs53 : s.length ≤ 2 ^ 53 := le_trans (le_of_lt hs) (by norm_num)
  have r0 := roundDouble_nonpos _ hy0
  have r1 := roundDouble_ge_neg_natCast _ s.length hs53 hy1
  have hs2 : ((s.length : ℕ) : ℚ) < 2147483648 := by exact_mod_cast hs
  have hcast : staticCastInt (roundDouble (roundDouble (n - truncInt n) * (s.length : ℚ))) =
      some (truncInt (roundDouble (roundDouble (n - truncInt n) * (s.length : ℚ)))) := by
    have h1 : (-2147483649 : ℚ) < roundDouble (roundDouble (n - truncInt n) * (s.length : ℚ)) := by
      linarith
    have h2 : roundDouble (roundDouble (n - truncInt n) * (s.length : ℚ)) < 2147483648 := by
      linarith
    simp only [staticCastInt, h1, h2, and_self, if_true]
  have hcut : truncInt (roundDouble (roundDouble (n - truncInt n) * (s.length : ℚ))) ≤ 0 := by
    rcases r0.lt_or_eq with h | h
    · exact truncInt_nonpos_of_neg _ h
    · rw [h, truncInt_of_nonneg 0 le_rfl]
      simp
  refine ⟨rfl, _, hcast, hcut, ?_, ?_, ?_⟩
  · intro h0
    simp only [opMul, mulString, hfull, hcast, hnat, h0, repeatAppend, lt_self_iff_false,
      if_false, Int.toNat_zero, List.take_zero, List.append_nil]
  · intro hneg
    simp only [opMul, mulString, hfull, hcast, hnat, hneg, repeatAppend, if_true,
      List.nil_append]
  · intro hint
    rw [hint, sub_self, roundDouble_zero, zero_mul, roundDouble_zero,
      truncInt_of_nonneg 0 le_rfl]
    simp

set_option maxRecDepth 10000 in
/-- C40, on `"abcd" * -0.5`, which is `"abcd"`, on `"abcd" * -2`, which is empty, and on the
program `n = -0.5  print("abcd" * n)`, which writes `abcd`. -/
theorem C40_negative_repeat_witness :
    opMul [] (.string "abcd") (.number (-1 / 2)) = (.value (.string "abcd"), []) ∧
    opMul [] (.string "abcd") (.number (-2)) = (.value (.string ""), []) ∧
    (∀ fmt : ℚ → String, ∃ st : State,
      interpretText (printHost fmt) 30 "n = -0.5\nprint(\"abcd\" * n)" =
        some (InterpretResult.returned true, st) ∧ st.output = "abcd") := by
  obtain ⟨_, c1, hc1, _, _, hneg, _⟩ :=
    C40_negative_repeat [] "abcd" (-1 / 2) (by norm_num) (by norm_num) (by decide)
  obtain ⟨_, c2, hc2, _, hzero, _, _⟩ :=
    C40_negative_repeat [] "abcd" (-2) (by norm_num) (by norm_num) (by decide)
  have e1 : staticCastInt (roundDouble (roundDouble ((-1 / 2 : ℚ) - truncInt (-1 / 2 : ℚ)) *
      (("abcd".length : ℕ) : ℚ))) = some (-2) := by with_unfolding_all rfl
  have e2 : staticCastInt (roundDouble (roundDouble ((-2 : ℚ) - truncInt (-2 : ℚ)) *
      (("abcd".length : ℕ) : ℚ))) = some 0 := by with_unfolding_all rfl
  rw [e1] at hc1
  rw [e2] at hc2
  have k1 : c1 = -2 := (Option.some.inj hc1).symm
  have k2 : c2 = 0 := (Option.some.inj hc2).symm
  exact ⟨hneg (by rw [k1]; decide), hzero k2,
    fun fmt => ⟨_, by with_unfolding_all rfl, by with_unfolding_all rfl⟩⟩

/-- C37 (fails on the code): a lexical error does not make `interpret` fail when the
erroneous token stands where a statement could begin.  `Lexer::errorToken` gives its token
the tag `EndOfFile`, at which `parseModule` ends its loop and returns `true`; so for the
texts `print(239)` followed on the next line by `$`, by `1e` or by an unterminated string,
`interpret` evaluates the statement before the error, writes `239` and returns `true`.  On
the text of the test `InvalidExponentialLiteral`, where the error stands inside an
assignment, `interpret` returns `false` and writes nothing. -/
theorem C37_lexical_error_after_statements (fmt : ℚ → String) :
    (∀ (l : Lexer) (message : String), (l.errorToken message).type = TokenType.EndOfFile) ∧
    ((Parser.start "$").CurTok.literal = Literal.string "Unknown operator" ∧
      (Parser.start "1e\n").CurTok.literal =
        Literal.string "Malformed number literal: expected digits after exponent" ∧
      (Parser.start "\"abc").CurTok.literal = Literal.string "Unclosed string") ∧
    (∃ st : State, interpretText (printHost fmt) 30 "print(239)\n$" =
        some (InterpretResult.returned true, st) ∧ st.output = "239") ∧
    (∃ st : State, interpretText (printHost fmt) 30 "print(239)\n1e\n" =
        some (InterpretResult.returned true, st) ∧ st.output = "239") ∧
    (∃ st : State, interpretText (printHost fmt) 30 "print(239)\n\"abc" =
        some (InterpretResult.returned true, st) ∧ st.output = "239") ∧
    (∃ st : State, interpretText (printHost fmt) 30 "c = 1e\nprint(239)\n" =
        some (InterpretResult.returned false, st) ∧ st.output = "") := by
  exact ⟨fun _ _ => rfl,
    ⟨by with_unfolding_all rfl, by with_unfolding_all rfl, by with_unfolding_all rfl⟩,
    ⟨_, by with_unfolding_all rfl, by with_unfolding_all rfl⟩,
    ⟨_, by with_unfolding_all rfl, by with_unfolding_all rfl⟩,
    ⟨_, by with_unfolding_all rfl, by with_unfolding_all rfl⟩,
    ⟨_, by with_unfolding_all rfl, by with_unfolding_all rfl⟩⟩


end IScript
